import Mathlib

/-!
Verification of the oldpaint drawing core: a shallow embedding of the
Rectangle algebra (rect.pyx), the pixel-buffer classes `Picture` (one byte
per pixel) and `LongPicture` (one 32-bit packed RGBA word per pixel)
(picture.pyx), the primitive drawing operations (draw.pyx), and the
diff codec (`make_diff` / `apply_diff`).

Conventions of the embedding:
- buffer data is a row-major `List Nat` of length `width * height`,
  addressed by `offset = width * y + x`;
- C `int` coordinates become `Int`; element values become `Nat`, reduced
  `% 2^32` (or `% 2^8` for byte buffers) exactly where the machine type
  truncates;
- a Python function that can raise becomes an `Option`-returning function;
- unbounded `while` loops are written with an explicit fuel argument that
  the enclosing definition instantiates with a bound derived from the
  loop's own variables; sufficiency of the fuel is proved where a claim
  depends on termination.
-/

namespace Oldpaint

/-- The word size of a packed 32-bit pixel. -/
def wordMod : Nat := 2 ^ 32

/-! ## Rectangle (rect.pyx) -/

/-- The `Rectangle` class from rect.pyx: position `(x, y)` and size `(width, height)`,
both C ints.  The derived fields `left/right/top/bottom` are functions. -/
structure Rectangle where
  x : Int
  y : Int
  width : Int
  height : Int
deriving DecidableEq, Repr

def Rectangle.left (r : Rectangle) : Int := r.x

def Rectangle.right (r : Rectangle) : Int := r.x + r.width

def Rectangle.top (r : Rectangle) : Int := r.y

def Rectangle.bottom (r : Rectangle) : Int := r.y + r.height

/-- Truthiness test `Rectangle.__bool__`: a rectangle is truthy iff both sides are positive. -/
def Rectangle.truthy (r : Rectangle) : Bool :=
  decide (0 < r.width) && decide (0 < r.height)

/-- Membership of a pixel in a rectangle, in the half-open convention the
`Rectangle` class uses (`left <= px < right`, `top <= py < bottom`). -/
def Rectangle.containsPt (r : Rectangle) (px py : Int) : Prop :=
  r.x ≤ px ∧ px < r.x + r.width ∧ r.y ≤ py ∧ py < r.y + r.height

instance (r : Rectangle) (px py : Int) : Decidable (r.containsPt px py) := by
  unfold Rectangle.containsPt; infer_instance

/-- The method `Rectangle.intersect` from rect.pyx: `None` if `other` is falsy or the
rectangles do not overlap (edge touching counts as no overlap), otherwise
the covering rectangle of the overlap. -/
def Rectangle.intersect (self other : Rectangle) : Option Rectangle :=
  if ¬ other.truthy then none
  else if self.right ≤ other.left ∨ self.left ≥ other.right ∨
          self.bottom ≤ other.top ∨ self.top ≥ other.bottom then none
  else
    let x := max self.left other.left
    let y := max self.top other.top
    some ⟨x, y, min self.right other.right - x, min self.bottom other.bottom - y⟩

/-! ## LongPicture (picture.pyx, the 32-bit variant of part_005) -/

/-- The `LongPicture` class: a 32-bit-per-pixel image.  `data` is row-major,
`offset = width * y + x`.  Well-formedness (`wf`) is stated separately. -/
structure LongPicture where
  width : Nat
  height : Nat
  data : List Nat
deriving DecidableEq, Repr

/-- The length invariant of the constructor (`assert len(data) == length`)
together with the machine range of the `unsigned int` elements. -/
def LongPicture.wf (p : LongPicture) : Prop :=
  p.data.length = p.width * p.height ∧ ∀ v ∈ p.data, v < wordMod

instance (p : LongPicture) : Decidable p.wf := by
  unfold LongPicture.wf; infer_instance

/-- Field `rect` of a picture: the bounding rectangle `((0,0), (width, height))`. -/
def LongPicture.rect (p : LongPicture) : Rectangle :=
  ⟨0, 0, (p.width : Int), (p.height : Int)⟩

/-- Offset computation `_get_offset(x, y) = width * y + x` (a signed quantity in the source). -/
def LongPicture.get_offset (p : LongPicture) (x y : Int) : Int :=
  (p.width : Int) * y + x

/-- Bounds test `0 <= x < width and 0 <= y < height` shared by
`set_pixel` and `get_pixel`. -/
def LongPicture.inBounds (p : LongPicture) (x y : Int) : Prop :=
  0 ≤ x ∧ x < (p.width : Int) ∧ 0 ≤ y ∧ y < (p.height : Int)

instance (p : LongPicture) (x y : Int) : Decidable (p.inBounds x y) := by
  unfold LongPicture.inBounds; infer_instance

/-- Method `set_pixel`: clips silently; in bounds, stores the value
truncated to the unsigned 32-bit element type. -/
def LongPicture.set_pixel (p : LongPicture) (x y : Int) (value : Nat) : LongPicture :=
  if p.inBounds x y then
    { p with data := p.data.set (p.get_offset x y).toNat (value % wordMod) }
  else p

/-- Method `get_pixel` as in part_005: raises (`none`) out of bounds;
in bounds returns `data[offset] & 0xFF` — only the low (index) byte. -/
def LongPicture.get_pixel (p : LongPicture) (x y : Int) : Option Nat :=
  if p.inBounds x y then
    some ((p.data.getD (p.get_offset x y).toNat 0) % 256)
  else none

/-- Method `get_pixel` as in the part_006 revision: same bounds check,
but returns the stored 32-bit element unmasked. -/
def LongPicture.get_pixel_v006 (p : LongPicture) (x y : Int) : Option Nat :=
  if p.inBounds x y then
    some (p.data.getD (p.get_offset x y).toNat 0)
  else none

/-! ## Picture (picture.pyx part_006, the one-byte-per-pixel variant) -/

/-- The `Picture` class: a byte-per-pixel image with the same addressing. -/
structure Picture where
  width : Nat
  height : Nat
  data : List Nat
deriving DecidableEq, Repr

def Picture.wf (p : Picture) : Prop :=
  p.data.length = p.width * p.height ∧ ∀ v ∈ p.data, v < 256

def Picture.get_offset (p : Picture) (x y : Int) : Int :=
  (p.width : Int) * y + x

def Picture.inBounds (p : Picture) (x y : Int) : Prop :=
  0 ≤ x ∧ x < (p.width : Int) ∧ 0 ≤ y ∧ y < (p.height : Int)

instance (p : Picture) (x y : Int) : Decidable (p.inBounds x y) := by
  unfold Picture.inBounds; infer_instance

/-- Method `Picture.get_pixel`: raises (`none`) out of bounds; in bounds returns
the stored byte unchanged. -/
def Picture.get_pixel (p : Picture) (x y : Int) : Option Nat :=
  if p.inBounds x y then
    some (p.data.getD (p.get_offset x y).toNat 0)
  else none

/-! ## clear: both variants

A raw element store `data[idx] = value` with a possibly signed index.
The boolean records whether the access fell outside the data range
(`boundscheck` is disabled in the source, so such an access is a memory
error, not an exception). -/

/-- One raw element store; the flag is true iff the index was outside the
data range. -/
def storeAt (data : List Nat) (idx : Int) (value : Nat) : List Nat × Bool :=
  if 0 ≤ idx ∧ idx < (data.length : Int) then (data.set idx.toNat value, false)
  else (data, true)

/-- Inner loop of `clear`: `for y in range(y0, y1): data[y*w + x] = value`,
iterated `cnt` times from `y`.  Accumulates the out-of-range flag. -/
def clearCol (w : Nat) (value : Nat) (x : Int) :
    Nat → Int → List Nat × Bool → List Nat × Bool
  | 0, _, acc => acc
  | cnt + 1, y, (data, oob) =>
      let (data, bad) := storeAt data (y * (w : Int) + x) value
      clearCol w value x cnt (y + 1) (data, oob || bad)

/-- Outer loop of `clear`: `for x in range(x0, x1)`, iterated `cnt` times. -/
def clearRows (w : Nat) (value : Nat) (y0 : Int) (ylen : Nat) :
    Nat → Int → List Nat × Bool → List Nat × Bool
  | 0, _, acc => acc
  | cnt + 1, x, acc =>
      clearRows w value y0 ylen cnt (x + 1) (clearCol w value x ylen y0 acc)

/-- Method `Picture.clear` (part_006 lines 170-177): iterates the box exactly as
given, with NO clamping to the buffer bounds.  Element stores truncate to
the byte type.  Returns the new data and whether any store fell outside
the data range. -/
def Picture.clear (p : Picture) (box : Int × Int × Int × Int) (value : Nat) :
    Picture × Bool :=
  let (x0, y0, x1, y1) := box
  let (data, oob) :=
    clearRows p.width (value % 256) y0 (y1 - y0).toNat (x1 - x0).toNat x0
      (p.data, false)
  ({ p with data := data }, oob)

/-- Method `LongPicture.clear` (part_005 lines 267-278, part_006 lines 318-330):
clamps the box to the buffer bounds first, then fills it. -/
def LongPicture.clear (p : LongPicture) (box : Int × Int × Int × Int)
    (value : Nat) : LongPicture × Bool :=
  let (x0, y0, x1, y1) := box
  let x0 := max 0 x0
  let x1 := min (p.width : Int) x1
  let y0 := max 0 y0
  let y1 := min (p.height : Int) y1
  let (data, oob) :=
    clearRows p.width (value % wordMod) y0 (y1 - y0).toNat (x1 - x0).toNat x0
      (p.data, false)
  ({ p with data := data }, oob)

/-! ## Color packing (picture.pyx / draw.pyx) -/

/-- Packing `_rgba_to_32bit((r, g, b, a)) = r + g*2^8 + b*2^16 + a*2^24`, stored as
an unsigned int. -/
def rgba_to_32bit (r g b a : Nat) : Nat :=
  (r + g * 2 ^ 8 + b * 2 ^ 16 + a * 2 ^ 24) % wordMod

/-- Packing `_rgb_to_32bit((r, g, b)) = _rgba_to_32bit((r, g, b, 255))`. -/
def rgb_to_32bit (r g b : Nat) : Nat :=
  rgba_to_32bit r g b 255

/-! ## DiffCodec (part_005 lines 204-239) -/

/-- Inner loop of `make_diff` over one row: for `x1` in the remaining `cnt`
columns, when the edited pixel's alpha byte (`>> 24`) is nonzero, record
`(edited & 255) - (base & 255)` at `start + x1`. -/
def makeDiffCols (base edited : List Nat) (offset start : Nat) :
    Nat → Nat → List Int → List Int
  | 0, _, diff => diff
  | cnt + 1, x1, diff =>
      let e := edited.getD (offset + x1) 0
      let diff :=
        if e / 2 ^ 24 ≠ 0 then
          diff.set (start + x1) ((e % 256 : Int) - (base.getD (offset + x1) 0 % 256 : Int))
        else diff
      makeDiffCols base edited offset start cnt (x1 + 1) diff

/-- Outer loop of `make_diff`: after each row, `offset += width` and
`start += w`. -/
def makeDiffRows (base edited : List Nat) (width w : Nat) :
    Nat → Nat → Nat → List Int → List Int
  | 0, _, _, diff => diff
  | cnt + 1, offset, start, diff =>
      makeDiffRows base edited width w cnt (offset + width) (start + w)
        (makeDiffCols base edited offset start w 0 diff)

/-- Method `make_diff(pic, x, y, w, h)`: a dense `w*h` array of signed
deltas, zero where the edited picture (`pic`) is fully transparent. -/
def LongPicture.make_diff (self pic : LongPicture) (x y : Int) (w h : Nat) :
    List Int :=
  makeDiffRows self.data pic.data self.width w h (self.get_offset x y).toNat 0
    (List.replicate (w * h) 0)

/-- One unsigned 32-bit addition `value + diff` (or subtraction when
inverted), as C computes it for `unsigned int value` and `short diff`. -/
def diffStep (value : Nat) (d : Int) (invert : Bool) : Nat :=
  (((value : Int) + (if invert then -d else d)) % (wordMod : Int)).toNat

/-- Inner loop of `apply_diff` over one row, writing through the
bounds-clipped `set_pixel`. -/
def applyDiffCols (diff : List Int) (x yy : Int) (offset start : Nat)
    (invert : Bool) : Nat → Nat → LongPicture → LongPicture
  | 0, _, pic => pic
  | cnt + 1, x1, pic =>
      let value := pic.data.getD (offset + x1) 0
      let d := diff.getD (start + x1) 0
      let pic := pic.set_pixel (x + (x1 : Int)) yy (diffStep value d invert)
      applyDiffCols diff x yy offset start invert cnt (x1 + 1) pic

/-- Outer loop of `apply_diff`. -/
def applyDiffRows (diff : List Int) (x y : Int) (w : Nat) (invert : Bool) :
    Nat → Nat → Nat → Nat → LongPicture → LongPicture
  | 0, _, _, _, pic => pic
  | cnt + 1, offset, start, y1, pic =>
      let pic := applyDiffCols diff x (y + (y1 : Int)) offset start invert w 0 pic
      applyDiffRows diff x y w invert cnt (offset + pic.width) (start + w) (y1 + 1) pic

/-- Method `apply_diff(difference, x, y, w, h, invert)`: add (or, when
inverted, subtract) each delta to the current element, writing through
`set_pixel`. -/
def LongPicture.apply_diff (self : LongPicture) (diff : List Int) (x y : Int)
    (w h : Nat) (invert : Bool) : LongPicture :=
  applyDiffRows diff x y w invert h (self.get_offset x y).toNat 0 0 self

/-! ## LongPicture.paste (part_005 lines 149-177) -/

/-- Inner loop of `paste` over one brush row: `continue` on `x2 < 0`,
`break` on `x2 >= self.width`, otherwise copy (or colorize) the source
pixel unless masking hides a fully transparent (`>> 24 == 0`) pixel. -/
def pasteCols (pic : LongPicture) (x y2 : Int) (y1off : Nat)
    (mask colorize : Bool) (color : Nat) :
    Nat → Nat → LongPicture → LongPicture
  | 0, _, acc => acc
  | cnt + 1, x1, acc =>
      let x2 := x + (x1 : Int)
      if x2 < 0 then pasteCols pic x y2 y1off mask colorize color cnt (x1 + 1) acc
      else if (acc.width : Int) ≤ x2 then acc
      else
        let acc :=
          if !mask || (pic.data.getD (y1off + x1) 0) / 2 ^ 24 ≠ 0 then
            if colorize then acc.set_pixel x2 y2 (rgba_to_32bit color 0 0 255)
            else acc.set_pixel x2 y2 (pic.data.getD (y1off + x1) 0)
          else acc
        pasteCols pic x y2 y1off mask colorize color cnt (x1 + 1) acc

/-- Outer loop of `paste` over brush rows: `continue` on `y2 < 0` (still
advancing the row offset), `break` on `y2 >= self.height`. -/
def pasteRows (pic : LongPicture) (x y : Int) (w : Nat)
    (mask colorize : Bool) (color : Nat) :
    Nat → Nat → Nat → LongPicture → LongPicture
  | 0, _, _, acc => acc
  | cnt + 1, y1, offset1, acc =>
      let y2 := y + (y1 : Int)
      if y2 < 0 then pasteRows pic x y w mask colorize color cnt (y1 + 1) (offset1 + w) acc
      else if (acc.height : Int) ≤ y2 then acc
      else
        pasteRows pic x y w mask colorize color cnt (y1 + 1) (offset1 + w)
          (pasteCols pic x y2 offset1 mask colorize color w 0 acc)

/-- Method `paste(pic, x, y, mask, colorize, color)`: overlay `pic`
onto `self` at `(x, y)`. -/
def LongPicture.paste (self pic : LongPicture) (x y : Int) (mask : Bool)
    (colorize : Bool) (color : Nat) : LongPicture :=
  pasteRows pic x y pic.width mask colorize color pic.height 0 0 self

/-- Wrapper around `paste` for the optional brush of the draw operations; the source
would raise on a `None` brush in these call sites, which callers rule out. -/
def LongPicture.pasteOpt (self : LongPicture) (brush : Option LongPicture)
    (x y : Int) (mask : Bool) : LongPicture :=
  match brush with
  | some br => self.paste br x y mask false 0
  | none => self

/-! ## draw_line (part_003 lines 22-65) -/

/-- The Bresenham loop of `draw_line`.  At every `step`-th sample either
paste the brush at `(x, y)` or, brushless, set the single in-bounds pixel;
note the source increments `i` only in the brushless in-bounds branch.
`fuel` bounds the iterations (instantiated with `dx - dy + 1`, which the
loop can never exceed, as `draw_line` is only sampled on by claims at
concrete inputs). -/
def lineLoop (brush : Option LongPicture) (color : Nat) (step : Nat)
    (xe ye sx sy dx dy : Int) :
    Nat → Int → Int → Int → Nat → LongPicture → LongPicture
  | 0, _, _, _, _, pic => pic
  | fuel + 1, x, y, err, i, pic =>
      let (pic, i) :=
        if i % step = 0 then
          match brush with
          | some br => (pic.paste br x y true false 0, i)
          | none =>
            if 0 ≤ x ∧ x < (pic.width : Int) ∧ 0 ≤ y ∧ y < (pic.height : Int) then
              (pic.set_pixel x y color, i + 1)
            else (pic, i)
        else (pic, i)
      if x = xe ∧ y = ye then pic
      else
        let e2 := 2 * err
        let (err, x) := if e2 ≥ dy then (err + dy, x + sx) else (err, x)
        let (err, y) := if e2 ≤ dx then (err + dx, y + sy) else (err, y)
        lineLoop brush color step xe ye sx sy dx dy fuel x y err i pic

/-- Function `draw_line(pic, p0, p1, brush, color, step)` from part_003: returns the
path's bounding box expanded by the brush size, intersected with the
picture rectangle, together with the mutated picture. -/
def draw_line (pic : LongPicture) (p0 p1 : Int × Int)
    (brush : Option LongPicture) (color : Nat) (step : Nat) :
    Option Rectangle × LongPicture :=
  let (x0, y0) := p0
  let (xe, ye) := p1
  let dx : Int := ((xe - x0).natAbs : Int)
  let sx : Int := if x0 < xe then 1 else -1
  let dy : Int := -((ye - y0).natAbs : Int)
  let sy : Int := if y0 < ye then 1 else -1
  let err := dx + dy
  let bw : Int := match brush with | some br => (br.width : Int) | none => 1
  let bh : Int := match brush with | some br => (br.height : Int) | none => 1
  let colorFull := rgb_to_32bit color 0 0
  let pic := lineLoop brush colorFull step xe ye sx sy dx dy
    (dx.toNat + (-dy).toNat + 1) x0 y0 err 0 pic
  (Rectangle.intersect ⟨min x0 xe, min y0 ye, dx + bw, -dy + bh⟩ pic.rect, pic)

/-! ## draw_rectangle (part_003 lines 68-97) -/

/-- The fill loop of `draw_rectangle`: one brushless `draw_line` per row. -/
def rectFillLoop (x0 : Int) (w : Int) (color : Nat) (step : Nat) :
    Nat → Int → LongPicture → LongPicture
  | 0, _, pic => pic
  | cnt + 1, i, pic =>
      rectFillLoop x0 w color step cnt (i + 1)
        (draw_line pic (x0, i) (x0 + w, i) none color step).2

/-- Function `draw_rectangle(pic, pos, size, brush, color, fill, step)` from
part_003. -/
def draw_rectangle (pic : LongPicture) (pos size : Int × Int)
    (brush : Option LongPicture) (color : Nat) (fill : Bool) (step : Nat) :
    Option Rectangle × LongPicture :=
  let (x0, y0) := pos
  let (w0, h0) := size
  let x := max 0 x0
  let y := max 0 y0
  let w := w0 - (x - x0)
  let h := h0 - (y - y0)
  let cols := (pic.width : Int)
  let rows := (pic.height : Int)
  let w := min (cols - x) w
  let h := min (rows - y) h
  let pic :=
    if fill then
      rectFillLoop x0 w color step (min (y + h) rows - y).toNat y pic
    else
      let pic := (draw_line pic pos (x0 + w0, y0) brush color step).2
      let pic := (draw_line pic (x0 + w0, y0) (x0 + w0, y0 + h0) brush color step).2
      let pic := (draw_line pic (x0 + w0, y0 + h0) (x0, y0 + h0) brush color step).2
      (draw_line pic (x0, y0 + h0) pos brush color step).2
  let bw : Int := match brush with | some br => (br.width : Int) | none => 0
  let bh : Int := match brush with | some br => (br.height : Int) | none => 0
  (Rectangle.intersect pic.rect ⟨x, y, w + bw, h + bh⟩, pic)

/-! ## draw_ellipse (part_003 lines 116-272) -/

/-- First-pass fill loop of the midpoint ellipse: horizontal spans at the
mirrored rows, while `stopy <= stopx`. -/
def ellipseFill1 (x0 y0 : Int) (w h : Nat) (a2 b2 : Int) (color : Nat) :
    Nat → Int → Int → Int → Int → Int → LongPicture → LongPicture
  | 0, _, _, _, _, _, pic => pic
  | fuel + 1, x, y, error, stopx, stopy, pic =>
      if stopy ≤ stopx then
        let topy := y0 - y
        let boty := y0 + y
        let lx := min ((w : Int) - 1) (max 0 (x0 - x))
        let rx := max 0 (min (w : Int) (x0 + x))
        let pic := if 0 ≤ topy then (draw_line pic (lx, topy) (rx, topy) none color 1).2 else pic
        let pic := if boty < (h : Int) then (draw_line pic (lx, boty) (rx, boty) none color 1).2 else pic
        let x := x + 1
        let error := error - b2 * (x - 1)
        let stopy := stopy + b2
        let (error, y, stopx) :=
          if error ≤ 0 then (error + a2 * (y - 1), y - 1, stopx - a2) else (error, y, stopx)
        ellipseFill1 x0 y0 w h a2 b2 color fuel x y error stopx stopy pic
      else pic

/-- Second-pass fill loop, while `stopy >= stopx` (note the source clamps
`lx`/`rx` differently here than in the first pass). -/
def ellipseFill2 (x0 y0 : Int) (w h : Nat) (a2 b2 : Int) (color : Nat) :
    Nat → Int → Int → Int → Int → Int → LongPicture → LongPicture
  | 0, _, _, _, _, _, pic => pic
  | fuel + 1, x, y, error, stopx, stopy, pic =>
      if stopy ≥ stopx then
        let topy := y0 - y
        let boty := y0 + y
        let lx := max 0 (x0 - x)
        let rx := min (w : Int) (x0 + x)
        let pic := if 0 ≤ topy then (draw_line pic (lx, topy) (rx, topy) none color 1).2 else pic
        let pic := if boty < (h : Int) then (draw_line pic (lx, boty) (rx, boty) none color 1).2 else pic
        let y := y + 1
        let error := error - a2 * (y - 1)
        let stopx := stopx + a2
        let (error, x, stopy) :=
          if error < 0 then (error + b2 * (x - 1), x - 1, stopy - b2) else (error, x, stopy)
        ellipseFill2 x0 y0 w h a2 b2 color fuel x y error stopx stopy pic
      else pic

/-- One guarded brush stamp of the non-fill ellipse passes. -/
def ellipseStamp (pic : LongPicture) (brush : Option LongPicture)
    (bw bh : Int) (w h : Nat) (xx yy : Int) : LongPicture :=
  if xx + bw ≥ 0 ∧ xx < (w : Int) ∧ yy + bh ≥ 0 ∧ yy < (h : Int) then
    pic.pasteOpt brush xx yy true
  else pic

/-- First-pass non-fill loop: stamp the brush at the four mirrored octant
points. -/
def ellipseBrush1 (x0 y0 : Int) (w h : Nat) (a2 b2 bw bh : Int)
    (brush : Option LongPicture) :
    Nat → Int → Int → Int → Int → Int → LongPicture → LongPicture
  | 0, _, _, _, _, _, pic => pic
  | fuel + 1, x, y, error, stopx, stopy, pic =>
      if stopy ≤ stopx then
        let pic := ellipseStamp pic brush bw bh w h (x0 + x) (y0 + y)
        let pic := ellipseStamp pic brush bw bh w h (x0 - x) (y0 + y)
        let pic := ellipseStamp pic brush bw bh w h (x0 - x) (y0 - y)
        let pic := ellipseStamp pic brush bw bh w h (x0 + x) (y0 - y)
        let x := x + 1
        let error := error - b2 * (x - 1)
        let stopy := stopy + b2
        let (error, y, stopx) :=
          if error ≤ 0 then (error + a2 * (y - 1), y - 1, stopx - a2) else (error, y, stopx)
        ellipseBrush1 x0 y0 w h a2 b2 bw bh brush fuel x y error stopx stopy pic
      else pic

/-- Second-pass non-fill loop. -/
def ellipseBrush2 (x0 y0 : Int) (w h : Nat) (a2 b2 bw bh : Int)
    (brush : Option LongPicture) :
    Nat → Int → Int → Int → Int → Int → LongPicture → LongPicture
  | 0, _, _, _, _, _, pic => pic
  | fuel + 1, x, y, error, stopx, stopy, pic =>
      if stopy ≥ stopx then
        let pic := ellipseStamp pic brush bw bh w h (x0 + x) (y0 + y)
        let pic := ellipseStamp pic brush bw bh w h (x0 - x) (y0 + y)
        let pic := ellipseStamp pic brush bw bh w h (x0 - x) (y0 - y)
        let pic := ellipseStamp pic brush bw bh w h (x0 + x) (y0 - y)
        let y := y + 1
        let error := error - a2 * (y - 1)
        let stopx := stopx + a2
        let (error, x, stopy) :=
          if error < 0 then (error + b2 * (x - 1), x - 1, stopy - b2) else (error, x, stopy)
        ellipseBrush2 x0 y0 w h a2 b2 bw bh brush fuel x y error stopx stopy pic
      else pic

/-- Intersection with a possibly-`None` rectangle, as
`pic.rect.intersect(rect)` behaves when `rect` is `None`. -/
def intersectOpt (self : Rectangle) (other : Option Rectangle) :
    Option Rectangle :=
  match other with
  | none => none
  | some r => self.intersect r

/-- Function `draw_ellipse(pic, center, size, brush, color, fill)` from part_003.
The `a <= 0 or b <= 0` guard comes FIRST, so the `b == 0` and `a == 0`
degenerate-axis branches below it are unreachable.  (In the source the
`b == 0` fill branch also passes `color` in the brush position of
`draw_line`, which would raise a TypeError; being dead code, it is
modelled here as the flat-color line it apparently intends.) -/
def draw_ellipse (pic : LongPicture) (center size : Int × Int)
    (brush : Option LongPicture) (color : Nat) (fill : Bool) :
    Option Rectangle × LongPicture :=
  let (a, b) := size
  if a ≤ 0 ∨ b ≤ 0 then (none, pic)
  else
    let (x0, y0) := center
    let a2 := 2 * a * a
    let b2 := 2 * b * b
    let error := a * a * b
    let x : Int := 0
    let y := b
    let stopy : Int := 0
    let stopx := a2 * b
    let bw : Int := match brush with | some br => (br.width : Int) | none => 0
    let bh : Int := match brush with | some br => (br.height : Int) | none => 0
    let w := pic.width
    let h := pic.height
    if ¬ (0 ≤ x0 ∧ x0 < (w : Int)) ∨ ¬ (0 ≤ y0 ∧ y0 < (h : Int)) then (none, pic)
    else if b = 0 then
      if fill then
        let lx := min ((w : Int) - 1) (max 0 (x0 - a))
        let rx := max 0 (min (w : Int) (x0 + a + 1))
        let pic := (draw_line pic (lx, y0) (rx, y0) none color 1).2
        (intersectOpt pic.rect (some ⟨x0 - a, y0, 2 * a + 1, 1⟩), pic)
      else
        let (rect, pic) := draw_line pic (x0 - a, y0) (x0 + a + 1, y0) brush color 1
        (intersectOpt pic.rect rect, pic)
    else if a = 0 then
      if fill ∧ color ≠ 0 then
        let (rect, pic) := draw_rectangle pic (x0, y0 - b) (1, 2 * b + 1) none color true 1
        (intersectOpt pic.rect rect, pic)
      else
        let (rect, pic) := draw_line pic (x0, y0 - b) (x0, y0 + b + 1) brush color 1
        (intersectOpt pic.rect rect, pic)
    else
      let pic :=
        if fill then
          let pic := ellipseFill1 x0 y0 w h a2 b2 color ((a2 * b).toNat + 2)
            x y error stopx stopy pic
          ellipseFill2 x0 y0 w h a2 b2 color ((b2 * a).toNat + 2)
            a 0 (b * b * a) 0 (b2 * a) pic
        else
          let pic := ellipseBrush1 x0 y0 w h a2 b2 bw bh brush ((a2 * b).toNat + 2)
            x y error stopx stopy pic
          ellipseBrush2 x0 y0 w h a2 b2 bw bh brush ((b2 * a).toNat + 2)
            a 0 (b * b * a) 0 (b2 * a) pic
      (Rectangle.intersect pic.rect ⟨x0 - a - 1, y0 - b - 1, 2 * a + bw + 2, 2 * b + bh + 2⟩, pic)

/-! ## draw_fill (part_003 lines 275-325) -/

/-- The masked pixel read `pic[x, y]` used throughout `draw_fill`
(`get_pixel` masks with `& 0xFF`); total here, with the loop guards
keeping every reachable access in bounds. -/
def LongPicture.pixMask (p : LongPicture) (x y : Int) : Nat :=
  (p.data.getD (p.get_offset x y).toNat 0) % 256

/-- The mutable state of the flood-fill loop: the picture being coloured,
the explicit stack of seed points, and the accumulated bounding box. -/
structure FillState where
  pic : LongPicture
  stack : List (Int × Int)
  xmin : Int
  xmax : Int
  ymin : Int
  ymax : Int
deriving DecidableEq, Repr

/-- Loop `while x >= 0 and start_col == pic[x, y]: x -= 1` followed by `x += 1`:
the left end of the current run.  Instantiated with fuel `(x+1).toNat`,
enough to reach `x = -1`. -/
def scanLeft (pic : LongPicture) (start_col : Nat) (y : Int) :
    Nat → Int → Int
  | 0, x => x + 1
  | fuel + 1, x =>
      if 0 ≤ x ∧ start_col = pic.pixMask x y then scanLeft pic start_col y fuel (x - 1)
      else x + 1

/-- Loop `while x < w and pic[x, y] == start_col`: colour the run rightwards,
extend the bounding box, and push the row above/below at most once per
contiguous matching segment (the `reach_top`/`reach_bottom` flags). -/
def scanRight (start_col color : Nat) (y : Int) :
    Nat → Int → Bool → Bool → FillState → FillState
  | 0, _, _, _, st => st
  | fuel + 1, x, reach_top, reach_bottom, st =>
      if x < (st.pic.width : Int) ∧ st.pic.pixMask x y = start_col then
        let pic := st.pic.set_pixel x y color
        let xmin := min st.xmin x
        let xmax := max st.xmax x
        let ymin := min st.ymin y
        let ymax := max st.ymax y
        let (stack, reach_top, reach_bottom) :=
          if 0 < y ∧ y < (pic.height : Int) - 1 then
            let tm : Bool := start_col == pic.pixMask x (y - 1)
            let stack := if tm && !reach_top then (x, y - 1) :: st.stack else st.stack
            let bm : Bool := start_col == pic.pixMask x (y + 1)
            let stack := if bm && !reach_bottom then (x, y + 1) :: stack else stack
            (stack, tm, bm)
          else (st.stack, reach_top, reach_bottom)
        scanRight start_col color y fuel (x + 1) reach_top reach_bottom
          ⟨pic, stack, xmin, xmax, ymin, ymax⟩
      else st

/-- The number of pixels whose masked value still equals `start_col`; the
termination measure of the fill decreases with it. -/
def matchCount (start_col : Nat) (data : List Nat) : Nat :=
  data.countP (fun v => v % 256 == start_col)

/-- The outer `while stack:` loop.  `none` means the fuel ran out with the
stack still non-empty (`fill_terminates` proves the fuel chosen by
`draw_fill` never does). -/
def fillLoop (start_col color : Nat) : Nat → FillState → Option FillState
  | 0, st => if st.stack.isEmpty then some st else none
  | fuel + 1, st =>
      match st.stack with
      | [] => some st
      | (x, y) :: rest =>
          let x0 := scanLeft st.pic start_col y (x + 1).toNat x
          let st := scanRight start_col color y st.pic.width x0 false false
              { st with stack := rest }
          fillLoop start_col color fuel st

/-- Function `draw_fill(pic, point, color)` from part_003: `none` for the
`ValueError` of an out-of-bounds seed; otherwise the optional dirty
rectangle together with the coloured picture (`(none, pic)` when the seed
already has the fill colour). -/
def draw_fill (pic : LongPicture) (point : Int × Int) (color : Nat) :
    Option (Option Rectangle × LongPicture) :=
  let (startx, starty) := point
  match pic.get_pixel startx starty with
  | none => none
  | some sc =>
      let start_col := sc % 256
      if start_col = color % 256 then some (none, pic)
      else
        let st0 : FillState :=
          ⟨pic, [point], (pic.width : Int), 0, (pic.height : Int), 0⟩
        match fillLoop start_col color (3 * matchCount start_col pic.data + 1) st0 with
        | none => none
        | some st =>
            some (some ⟨st.xmin, st.ymin, st.xmax - st.xmin + 1, st.ymax - st.ymin + 1⟩,
                  st.pic)

/-- The 4-connected region the fill may touch: points connected to the
seed through in-bounds pixels whose ORIGINAL masked value is
`start_col`. -/
inductive Reach (pic : LongPicture) (start_col : Nat) : Int × Int → Int × Int → Prop
  | refl (p : Int × Int) : Reach pic start_col p p
  | step (p q r : Int × Int) : Reach pic start_col p q →
      (r.1 - q.1).natAbs + (r.2 - q.2).natAbs = 1 →
      pic.inBounds r.1 r.2 → pic.pixMask r.1 r.2 = start_col →
      Reach pic start_col p r

/-! ## blit (oldpaint/draw.pyx lines 42-74)

The brush parameter is declared `unsigned char[:, :]` in the source but
the loop masks it with `>> 24`, treating elements as packed RGBA words;
the embedding uses the 32-bit element type the test implies. -/

/-- The mutable state of `blit`: the destination data and the running
min/max of the written coordinates (initially `xmin = w`, `ymin = h`,
`xmax = ymax = 0`). -/
structure BlitState where
  data : List Nat
  xmin : Int
  ymin : Int
  xmax : Int
  ymax : Int
deriving DecidableEq, Repr

/-- Inner loop of `blit` over one brush row: `continue` on `x2 < 0`,
`break` on `x2 >= w`; copy non-transparent pixels and track the box. -/
def blitCols (w : Nat) (brush : LongPicture) (x : Int) (y1 : Nat) (y2 : Int) :
    Nat → Nat → BlitState → BlitState
  | 0, _, st => st
  | cnt + 1, x1, st =>
      let x2 := x + (x1 : Int)
      if x2 < 0 then blitCols w brush x y1 y2 cnt (x1 + 1) st
      else if (w : Int) ≤ x2 then st
      else
        let bv := brush.data.getD (brush.width * y1 + x1) 0
        let st :=
          if bv / 2 ^ 24 ≠ 0 then
            { st with
              data := st.data.set (w * y2.toNat + x2.toNat) bv
              xmin := min st.xmin x2
              xmax := max st.xmax x2
              ymin := min st.ymin y2
              ymax := max st.ymax y2 }
          else st
        blitCols w brush x y1 y2 cnt (x1 + 1) st

/-- Outer loop of `blit` over brush rows. -/
def blitRows (w h : Nat) (brush : LongPicture) (x y : Int) :
    Nat → Nat → BlitState → BlitState
  | 0, _, st => st
  | cnt + 1, y1, st =>
      let y2 := y + (y1 : Int)
      if y2 < 0 then blitRows w h brush x y cnt (y1 + 1) st
      else if (h : Int) ≤ y2 then st
      else blitRows w h brush x y cnt (y1 + 1)
        (blitCols w brush x y1 y2 brush.width 0 st)

/-- Function `blit(pic, brush, x, y)` from oldpaint/draw.pyx: draw a brush,
skipping transparent pixels, and return
`Rectangle((xmin, ymin), (xmax - xmin + 1, ymax - ymin + 1))`. -/
def blit (pic : LongPicture) (brush : LongPicture) (x y : Int) :
    Rectangle × LongPicture :=
  let st := blitRows pic.width pic.height brush x y brush.height 0
      ⟨pic.data, (pic.width : Int), (pic.height : Int), 0, 0⟩
  (⟨st.xmin, st.ymin, st.xmax - st.xmin + 1, st.ymax - st.ymin + 1⟩,
   { pic with data := st.data })

/-- Loop invariant of `blit`: lengths agree, the tracked box stays inside
the buffer, and every modified offset lies inside the tracked box. -/
def blitInv (w h : Nat) (data0 : List Nat) (st : BlitState) : Prop :=
  st.data.length = data0.length ∧
  0 ≤ st.xmin ∧ st.xmin ≤ (w : Int) ∧ 0 ≤ st.ymin ∧ st.ymin ≤ (h : Int) ∧
  0 ≤ st.xmax ∧ st.xmax ≤ max 0 ((w : Int) - 1) ∧
  0 ≤ st.ymax ∧ st.ymax ≤ max 0 ((h : Int) - 1) ∧
  ∀ o, o < data0.length → st.data.getD o 0 ≠ data0.getD o 0 →
    st.xmin ≤ ((o % w : Nat) : Int) ∧ ((o % w : Nat) : Int) ≤ st.xmax ∧
    st.ymin ≤ ((o / w : Nat) : Int) ∧ ((o / w : Nat) : Int) ≤ st.ymax

/-- Loop invariant of the flood fill, relative to the original picture
`pic0` and the seed: dimensions are unchanged, every stacked point is an
in-bounds member of the seed's region, and every modified pixel holds the
fill colour and lies in the seed's region. -/
def fillStInv (pic0 : LongPicture) (seed : Int × Int) (sc cv : Nat)
    (st : FillState) : Prop :=
  st.pic.width = pic0.width ∧ st.pic.height = pic0.height ∧
  st.pic.data.length = pic0.data.length ∧
  (∀ q ∈ st.stack, Reach pic0 sc seed q ∧ pic0.inBounds q.1 q.2) ∧
  (∀ o, o < pic0.data.length → st.pic.data.getD o 0 ≠ pic0.data.getD o 0 →
    st.pic.data.getD o 0 = cv % wordMod ∧
    Reach pic0 sc seed (((o % pic0.width : Nat) : Int), ((o / pic0.width : Nat) : Int)))

/-- Bounding-box invariant of the flood fill: every pixel changed so far
lies inside the accumulated `xmin..xmax`, `ymin..ymax` box of the state. -/
def fillBoxInv (pic0 : LongPicture) (st : FillState) : Prop :=
  st.pic.width = pic0.width ∧ st.pic.height = pic0.height ∧
  st.pic.data.length = pic0.data.length ∧
  (∀ o, o < pic0.data.length → st.pic.data.getD o 0 ≠ pic0.data.getD o 0 →
    st.xmin ≤ ((o % pic0.width : Nat) : Int) ∧
    ((o % pic0.width : Nat) : Int) ≤ st.xmax ∧
    st.ymin ≤ ((o / pic0.width : Nat) : Int) ∧
    ((o / pic0.width : Nat) : Int) ≤ st.ymax)

/-! # Theorems -/

/-- Pointwise effect of a list update, used throughout. -/
theorem getD_set (l : List Nat) (i j : Nat) (v d : Nat) :
    (l.set i v).getD j d = if i = j ∧ i < l.length then v else l.getD j d := by
  rcases Decidable.em (i = j) with rfl | h
  · by_cases hl : i < l.length
    · simp [List.getD, List.getElem?_set_self, hl]
    · simp [List.getD, List.set_eq_of_length_le (Nat.le_of_not_lt hl), hl]
  · simp [List.getD, List.getElem?_set_ne h, h]

/-- Pointwise effect of a list update over `Int` entries. -/
theorem getD_set_int (l : List Int) (i j : Nat) (v d : Int) :
    (l.set i v).getD j d = if i = j ∧ i < l.length then v else l.getD j d := by
  rcases Decidable.em (i = j) with rfl | h
  · by_cases hl : i < l.length
    · simp [List.getD, List.getElem?_set_self, hl]
    · simp [List.getD, List.set_eq_of_length_le (Nat.le_of_not_lt hl), hl]
  · simp [List.getD, List.getElem?_set_ne h, h]

/-- Two lists of equal length agreeing on `getD` at every index are equal. -/
theorem eq_of_getD_eq {l₁ l₂ : List Nat} (hlen : l₁.length = l₂.length)
    (h : ∀ o, o < l₁.length → l₁.getD o 0 = l₂.getD o 0) : l₁ = l₂ := by
  apply List.ext_getElem hlen
  intro n h1 h2
  have := h n h1
  rwa [List.getD_eq_getElem l₁ 0 h1, List.getD_eq_getElem l₂ 0 h2] at this

/-! ## C9: intersect on the diagonal -/

/-- C9, counterexample: the claim includes rectangles of zero area, but a
zero-size rectangle is falsy, so `intersect(r, r)` returns `None`, not a
rectangle equal to `r`. -/
theorem c9_counterexample :
    Rectangle.intersect ⟨0, 0, 0, 0⟩ ⟨0, 0, 0, 0⟩ = none ∧
    Rectangle.intersect ⟨0, 0, 0, 0⟩ ⟨0, 0, 0, 0⟩ ≠ some ⟨0, 0, 0, 0⟩ := by
  decide

/-- C9, amended: for every rectangle with POSITIVE width and height,
`intersect(r, r)` returns `r` itself; zero-area rectangles instead
produce `None` (they are falsy). -/
theorem c9_intersect_self (r : Rectangle) (hw : 0 < r.width)
    (hh : 0 < r.height) : r.intersect r = some r := by
  have ht : r.truthy = true := by
    unfold Rectangle.truthy
    rw [decide_eq_true hw, decide_eq_true hh]
    rfl
  have hov : ¬ (r.right ≤ r.left ∨ r.left ≥ r.right ∨
      r.bottom ≤ r.top ∨ r.top ≥ r.bottom) := by
    simp only [Rectangle.left, Rectangle.right, Rectangle.top, Rectangle.bottom]
    omega
  unfold Rectangle.intersect
  rw [if_neg (not_not_intro ht), if_neg hov]
  simp only [Rectangle.left, Rectangle.right, Rectangle.top, Rectangle.bottom,
    max_self, Option.some.injEq]
  obtain ⟨x, y, w, h⟩ := r
  simp only [Rectangle.mk.injEq]
  refine ⟨trivial, trivial, by omega, by omega⟩

/-- C9, witness for `c9_intersect_self` at the rectangle `((5,6),(3,4))`. -/
theorem c9_witness :
    ((0 : Int) < 3 ∧ (0 : Int) < 4) ∧
    Rectangle.intersect ⟨5, 6, 3, 4⟩ ⟨5, 6, 3, 4⟩ = some ⟨5, 6, 3, 4⟩ :=
  ⟨⟨by decide, by decide⟩, c9_intersect_self ⟨5, 6, 3, 4⟩ (by decide) (by decide)⟩

/-! ## C5: get_pixel -/

/-- C5, counterexample: the part_005 `LongPicture.get_pixel` masks the
stored element with `& 0xFF`, so on a buffer holding 256 the in-bounds
read returns 0, not the stored element value. -/
theorem c5_counterexample :
    (LongPicture.mk 1 1 [256]).get_pixel 0 0 = some 0 ∧
    (LongPicture.mk 1 1 [256]).data.getD 0 0 = 256 ∧
    (LongPicture.mk 1 1 [256]).inBounds 0 0 := by
  decide

/-- C5, amended: every `get_pixel` variant fails exactly on coordinates
outside `[0,width) × [0,height)` and never modifies the buffer (it is a
pure read); in bounds, the byte `Picture` and the part_006 `LongPicture`
return the stored element value, while the part_005 `LongPicture` returns
the stored value's low byte only. -/
theorem c5_get_pixel_spec (p : Picture) (q : LongPicture) (x y : Int) :
    ((p.get_pixel x y).isSome ↔ p.inBounds x y) ∧
    (∀ v, p.get_pixel x y = some v → v = p.data.getD (p.get_offset x y).toNat 0) ∧
    ((q.get_pixel x y).isSome ↔ q.inBounds x y) ∧
    (∀ v, q.get_pixel x y = some v →
      v = (q.data.getD (q.get_offset x y).toNat 0) % 256) ∧
    ((q.get_pixel_v006 x y).isSome ↔ q.inBounds x y) ∧
    (∀ v, q.get_pixel_v006 x y = some v →
      v = q.data.getD (q.get_offset x y).toNat 0) := by
  unfold Picture.get_pixel LongPicture.get_pixel LongPicture.get_pixel_v006
  by_cases hp : p.inBounds x y <;> by_cases hq : q.inBounds x y <;>
    simp [hp, hq, eq_comm]

/-- C5, witness for `c5_get_pixel_spec` on concrete 1×1 buffers. -/
theorem c5_witness :
    ((Picture.mk 1 1 [9]).get_pixel 0 0).isSome ∧
    (∀ v, (Picture.mk 1 1 [9]).get_pixel 0 0 = some v →
      v = (Picture.mk 1 1 [9]).data.getD 0 0) := by
  have h := c5_get_pixel_spec (Picture.mk 1 1 [9]) (LongPicture.mk 1 1 [256]) 0 0
  exact ⟨h.1.mpr (by decide), fun v hv => by simpa using h.2.1 v hv⟩

/-! ## C6: degenerate ellipse axes -/

/-- C6: the `a <= 0 or b <= 0` guard of `draw_ellipse` precedes the
`b == 0` / `a == 0` branches, so with exactly one degenerate axis and an
in-bounds centre the call returns `None` WITHOUT drawing anything; the
delegation branches the spec describes are unreachable dead code.  Both
orientations evaluated on a 4×4 buffer of zeros. -/
theorem c6_degenerate_axis_returns_none :
    draw_ellipse ⟨4, 4, List.replicate 16 0⟩ (1, 1) (0, 2) none 5 false =
      (none, ⟨4, 4, List.replicate 16 0⟩) ∧
    draw_ellipse ⟨4, 4, List.replicate 16 0⟩ (1, 1) (2, 0) none 5 false =
      (none, ⟨4, 4, List.replicate 16 0⟩) ∧
    draw_ellipse ⟨4, 4, List.replicate 16 0⟩ (1, 1) (0, 2) none 5 true =
      (none, ⟨4, 4, List.replicate 16 0⟩) := by
  decide

/-! ## C8: the concrete diagonal line scenario -/

/-- C8: on a 4×4 zero buffer, `draw_line((0,0), (3,3), brush=None,
color=7, step=1)` colours exactly the four diagonal pixels (read back as
palette index 7 by `get_pixel`), leaves every other pixel 0, and returns
the rectangle `((0,0), (4,4))`. -/
theorem c8_line_scenario :
    (draw_line ⟨4, 4, List.replicate 16 0⟩ (0, 0) (3, 3) none 7 1).1 =
      some ⟨0, 0, 4, 4⟩ ∧
    ∀ i j : Fin 4,
      (draw_line ⟨4, 4, List.replicate 16 0⟩ (0, 0) (3, 3) none 7 1).2.get_pixel
        ((i : Nat) : Int) ((j : Nat) : Int) =
      some (if (i : Nat) = (j : Nat) then 7 else 0) := by
  decide

/-! ## C3: flood fill of an already-filled region is a no-op -/

/-- C3: when the seed pixel's stored value already equals the fill
colour, `draw_fill` hits the `start_col == color & 0xFF` guard and
returns `None` with the buffer untouched. -/
theorem c3_fill_same_color_noop (pic : LongPicture) (sx sy : Int)
    (color : Nat) (hin : pic.inBounds sx sy)
    (hcolor : pic.data.getD (pic.get_offset sx sy).toNat 0 = color) :
    draw_fill pic (sx, sy) color = some (none, pic) := by
  have hg : pic.get_pixel sx sy = some (color % 256) := by
    unfold LongPicture.get_pixel
    rw [if_pos hin, hcolor]
  simp [draw_fill, hg, Nat.mod_mod_of_dvd _ (dvd_refl 256)]

/-- C3, witness: filling a uniform 2×2 buffer of colour 3 with colour 3. -/
theorem c3_witness :
    ((LongPicture.mk 2 2 [3, 3, 3, 3]).inBounds 0 0 ∧
      (LongPicture.mk 2 2 [3, 3, 3, 3]).data.getD 0 0 = 3) ∧
    draw_fill (LongPicture.mk 2 2 [3, 3, 3, 3]) (0, 0) 3 =
      some (none, LongPicture.mk 2 2 [3, 3, 3, 3]) :=
  ⟨⟨by decide, by decide⟩,
    c3_fill_same_color_noop (LongPicture.mk 2 2 [3, 3, 3, 3]) 0 0 3
      (by decide) (by decide)⟩

/-! ## C1, C4, C7: counterexamples -/

/-- C1, counterexample: with base `A` holding `0x01000005` and edited `B`
holding `0xFF000007` (non-transparent: alpha byte `0xFF`), the forward
`apply_diff` produces `0x01000007` — the palette byte of `B` but the high
bytes of `A` — so `B`'s non-transparent pixel is NOT reproduced exactly. -/
theorem c1_counterexample :
    (LongPicture.mk 1 1 [255 * 2 ^ 24 + 7]).data.getD 0 0 / 2 ^ 24 ≠ 0 ∧
    ((LongPicture.mk 1 1 [2 ^ 24 + 5]).apply_diff
        ((LongPicture.mk 1 1 [2 ^ 24 + 5]).make_diff
          (LongPicture.mk 1 1 [255 * 2 ^ 24 + 7]) 0 0 1 1) 0 0 1 1 false).data
      ≠ (LongPicture.mk 1 1 [255 * 2 ^ 24 + 7]).data := by
  decide

/-- C4, counterexample: blitting a fully transparent 2×2 brush onto a 4×4
buffer draws nothing, yet `blit` returns the rectangle
`((4,4), (-3,-3))` — neither `None` nor a rectangle of non-negative
size; and `draw_rectangle` violates containment: filling the 1×1
rectangle at (0,0) on a 4×4 buffer also paints pixel (1,0) — the
inclusive right endpoint of its row line — which lies outside the
returned rectangle `((0,0),(1,1))`. -/
theorem c4_counterexample :
    ((blit ⟨4, 4, List.replicate 16 0⟩ ⟨2, 2, [0, 0, 0, 0]⟩ 0 0).1 =
      ⟨4, 4, -3, -3⟩ ∧
    (blit ⟨4, 4, List.replicate 16 0⟩ ⟨2, 2, [0, 0, 0, 0]⟩ 0 0).1.width < 0 ∧
    (blit ⟨4, 4, List.replicate 16 0⟩ ⟨2, 2, [0, 0, 0, 0]⟩ 0 0).2 =
      ⟨4, 4, List.replicate 16 0⟩) ∧
    ((draw_rectangle ⟨4, 4, List.replicate 16 0⟩ (0, 0) (1, 1) none 1 true 1).1 =
      some ⟨0, 0, 1, 1⟩ ∧
    (draw_rectangle ⟨4, 4, List.replicate 16 0⟩ (0, 0) (1, 1) none 1 true
      1).2.data.getD 1 0 ≠ 0 ∧
    ¬ (Rectangle.mk 0 0 1 1).containsPt 1 0) := by
  decide

/-- C7, counterexample: the byte `Picture.clear` does NOT clamp its box.
On a 2×2 buffer, the box `(0,0)-(3,1)` overruns the first row and
overwrites pixel `(0,1)` (offset 2), which is outside the box; and the
box `(0,1)-(1,3)` reaches offset 4, outside the data range entirely. -/
theorem c7_counterexample :
    ((Picture.mk 2 2 [0, 0, 0, 0]).clear (0, 0, 3, 1) 9).1.data.getD 2 0 = 9 ∧
    ((Picture.mk 2 2 [0, 0, 0, 0]).clear (0, 1, 1, 3) 9).2 = true := by
  decide

/-! ## C1: the diff codec -/

/-- Dimension bookkeeping for set_pixel. -/
theorem set_pixel_dims (p : LongPicture) (x y : Int) (v : Nat) :
    (p.set_pixel x y v).width = p.width ∧ (p.set_pixel x y v).height = p.height ∧
    (p.set_pixel x y v).data.length = p.data.length := by
  unfold LongPicture.set_pixel
  split_ifs <;> simp

theorem makeDiffCols_length (base edited : List Nat) (offset start : Nat) :
    ∀ cnt x1 diff, (makeDiffCols base edited offset start cnt x1 diff).length = diff.length := by
  intro cnt
  induction cnt with
  | zero => intro x1 diff; rfl
  | succ n ih =>
      intro x1 diff
      unfold makeDiffCols
      rw [ih]
      split_ifs <;> simp

theorem makeDiffCols_untouched (base edited : List Nat) (offset start : Nat) :
    ∀ cnt x1 diff o, (o < start + x1 ∨ start + x1 + cnt ≤ o) →
      (makeDiffCols base edited offset start cnt x1 diff).getD o 0 = diff.getD o 0 := by
  intro cnt
  induction cnt with
  | zero => intro x1 diff o _; rfl
  | succ n ih =>
      intro x1 diff o ho
      unfold makeDiffCols
      rw [ih (x1+1) _ o (by omega)]
      split_ifs with h
      · rw [getD_set_int]
        rw [if_neg (by omega)]
      · rfl

theorem makeDiffCols_at (base edited : List Nat) (offset start : Nat) :
    ∀ cnt x1 diff j, x1 ≤ j → j < x1 + cnt → start + j < diff.length →
      (makeDiffCols base edited offset start cnt x1 diff).getD (start + j) 0 =
        if edited.getD (offset + j) 0 / 2 ^ 24 ≠ 0 then
          ((edited.getD (offset + j) 0 : Int) % 256) - ((base.getD (offset + j) 0 : Int) % 256)
        else diff.getD (start + j) 0 := by
  intro cnt
  induction cnt with
  | zero => intro x1 diff j h1 h2; omega
  | succ n ih =>
      intro x1 diff j h1 h2 hlen
      rcases Nat.eq_or_lt_of_le h1 with rfl | hlt
      · unfold makeDiffCols
        rw [makeDiffCols_untouched base edited offset start n (x1+1) _ (start + x1) (by omega)]
        by_cases hx : edited.getD (offset + x1) 0 / 2 ^ 24 ≠ 0
        · rw [if_pos hx, if_pos hx, getD_set_int, if_pos ⟨rfl, hlen⟩]
        · rw [if_neg hx, if_neg hx]
      · unfold makeDiffCols
        dsimp only
        by_cases hx : edited.getD (offset + x1) 0 / 2 ^ 24 ≠ 0
        · rw [if_pos hx]
          rw [ih (x1+1) _ j (by omega) (by omega) (by rw [List.length_set]; exact hlen)]
          rw [getD_set_int,
            if_neg (show ¬ (start + x1 = start + j ∧ start + x1 < diff.length) from by omega)]
        · rw [if_neg hx]
          exact ih (x1+1) diff j (by omega) (by omega) hlen
theorem wordModCast : ((wordMod : Nat) : Int) = 4294967296 := by norm_num [wordMod]

theorem wordModNum : wordMod = 4294967296 := by norm_num [wordMod]

theorem diffStep_false_spec (a b : Nat) (ha : a < wordMod) :
    diffStep a ((b : Int) % 256 - (a : Int) % 256) false = a - a % 256 + b % 256 := by
  rw [wordModNum] at ha
  unfold diffStep
  rw [wordModCast]
  simp only [Bool.false_eq_true, if_false]
  omega

theorem diffStep_cancel (a : Nat) (d : Int) (ha : a < wordMod) :
    diffStep (diffStep a d false) d true = a := by
  rw [wordModNum] at ha
  unfold diffStep
  rw [wordModCast]
  simp only [Bool.false_eq_true, if_false, if_true]
  omega

theorem diffStep_zero (a : Nat) (ha : a < wordMod) : diffStep a 0 false = a := by
  rw [wordModNum] at ha
  unfold diffStep
  rw [wordModCast]
  simp only [Bool.false_eq_true, if_false]
  omega

theorem diffStep_lt (v : Nat) (d : Int) (i : Bool) : diffStep v d i < wordMod := by
  unfold diffStep
  rw [wordModCast, wordModNum]
  omega

theorem getD_replicate_zero (n i : Nat) : (List.replicate n (0:Int)).getD i 0 = 0 := by
  simp [List.getD, List.getElem?_replicate]
  split_ifs <;> rfl

theorem makeDiffRows_length (base edited : List Nat) (width w : Nat) :
    ∀ rcnt offset start diff,
      (makeDiffRows base edited width w rcnt offset start diff).length = diff.length := by
  intro rcnt
  induction rcnt with
  | zero => intro offset start diff; rfl
  | succ n ih =>
      intro offset start diff
      unfold makeDiffRows
      rw [ih, makeDiffCols_length]

theorem makeDiffRows_untouched (base edited : List Nat) (width w : Nat) :
    ∀ rcnt offset start diff o, o < start →
      (makeDiffRows base edited width w rcnt offset start diff).getD o 0 = diff.getD o 0 := by
  intro rcnt
  induction rcnt with
  | zero => intro offset start diff o _; rfl
  | succ n ih =>
      intro offset start diff o ho
      unfold makeDiffRows
      rw [ih (offset + width) (start + w) _ o (by omega)]
      exact makeDiffCols_untouched base edited offset start w 0 diff o (by omega)

theorem makeDiffRows_at (base edited : List Nat) (width w : Nat) :
    ∀ rcnt offset start diff yy j, yy < rcnt → j < w → start + yy * w + j < diff.length →
      (makeDiffRows base edited width w rcnt offset start diff).getD (start + yy * w + j) 0 =
        if edited.getD (offset + yy * width + j) 0 / 2 ^ 24 ≠ 0 then
          ((edited.getD (offset + yy * width + j) 0 : Int) % 256) -
            ((base.getD (offset + yy * width + j) 0 : Int) % 256)
        else diff.getD (start + yy * w + j) 0 := by
  intro rcnt
  induction rcnt with
  | zero => intro offset start diff yy j h1; omega
  | succ n ih =>
      intro offset start diff yy j hyy hj hlen
      unfold makeDiffRows
      match yy with
      | 0 =>
          simp only [Nat.zero_mul, Nat.add_zero]
          rw [makeDiffRows_untouched base edited width w n (offset + width) (start + w) _
            (start + j) (by omega)]
          exact makeDiffCols_at base edited offset start w 0 diff j (Nat.zero_le j)
            (by omega) (by omega)
      | t + 1 =>
          have e1 : start + (t + 1) * w + j = (start + w) + t * w + j := by ring
          have e2 : offset + (t + 1) * width + j = (offset + width) + t * width + j := by ring
          have e3 : (t + 1) * w = t * w + w := by ring
          rw [e1, e2]
          rw [ih (offset + width) (start + w) (makeDiffCols base edited offset start w 0 diff)
            t j (by omega) hj (by rw [makeDiffCols_length]; omega)]
          rw [makeDiffCols_untouched base edited offset start w 0 diff
            ((start + w) + t * w + j) (by omega)]

theorem get_offset_toNat (p : LongPicture) (xn yn : Nat) :
    (p.get_offset (xn : Int) (yn : Nat)).toNat = p.width * yn + xn := by
  unfold LongPicture.get_offset
  rw [show ((p.width : Int) * (yn : Int) + (xn : Int)) = ((p.width * yn + xn : Nat) : Int)
    from by push_cast; ring]
  exact Int.toNat_natCast _

/-- Pointwise value of `make_diff` over the rectangle, relative to the
shared offsets the source uses for both buffers. -/
theorem make_diff_getD (A B : LongPicture) (xn yn w h yy j : Nat)
    (hyy : yy < h) (hj : j < w) :
    (A.make_diff B (xn : Int) (yn : Int) w h).getD (yy * w + j) 0 =
      if B.data.getD (A.width * (yn + yy) + (xn + j)) 0 / 2 ^ 24 ≠ 0 then
        ((B.data.getD (A.width * (yn + yy) + (xn + j)) 0 : Int) % 256) -
          ((A.data.getD (A.width * (yn + yy) + (xn + j)) 0 : Int) % 256)
      else 0 := by
  unfold LongPicture.make_diff
  rw [get_offset_toNat]
  have hidx : yy * w + j = 0 + yy * w + j := by ring
  have hoffeq : (A.width * yn + xn) + yy * A.width + j = A.width * (yn + yy) + (xn + j) := by ring
  have hlt : 0 + yy * w + j < (List.replicate (w * h) (0 : Int)).length := by
    rw [List.length_replicate]
    have h1 : yy * w + w ≤ h * w := by
      have := Nat.mul_le_mul_right w (Nat.succ_le_of_lt hyy)
      simpa [Nat.succ_mul] using this
    have h2 : h * w = w * h := Nat.mul_comm h w
    omega
  rw [hidx, makeDiffRows_at A.data B.data A.width w h (A.width * yn + xn) 0 _ yy j hyy hj hlt,
    hoffeq]
  rw [getD_replicate_zero]
theorem inBounds_nat (p : LongPicture) (xn yn : Nat) (hx : xn < p.width)
    (hy : yn < p.height) : p.inBounds (xn : Int) (yn : Int) := by
  unfold LongPicture.inBounds
  refine ⟨Int.natCast_nonneg xn, ?_, Int.natCast_nonneg yn, ?_⟩
  · exact_mod_cast hx
  · exact_mod_cast hy

theorem set_pixel_data_nat (p : LongPicture) (xn yn : Nat) (v : Nat)
    (hx : xn < p.width) (hy : yn < p.height) :
    (p.set_pixel (xn : Int) (yn : Int) v).data =
      p.data.set (p.width * yn + xn) (v % wordMod) := by
  unfold LongPicture.set_pixel
  rw [if_pos (inBounds_nat p xn yn hx hy), get_offset_toNat]

theorem wf_getD_lt (p : LongPicture) (hwf : p.wf) (o : Nat) :
    p.data.getD o 0 < wordMod := by
  rcases Nat.lt_or_ge o p.data.length with hlt | hge
  · rw [List.getD_eq_getElem p.data 0 hlt]
    exact hwf.2 _ (List.getElem_mem hlt)
  · rw [List.getD_eq_default p.data 0 hge]
    rw [wordModNum]
    omega

/-- Combined specification of one row of `apply_diff`: dimensions are
preserved, offsets outside the written span are untouched, and the span
receives `diffStep`. -/
theorem applyDiffCols_spec (diff : List Int) (invert : Bool)
    (xn yc W H : Nat) (offset start : Nat) (xI yI : Int)
    (hxI : xI = (xn : Int)) (hyI : yI = (yc : Int))
    (hoff : offset = W * yc + xn) (hyc : yc < H) :
    ∀ cnt x1 pic, pic.width = W → pic.height = H → pic.data.length = W * H →
      xn + x1 + cnt ≤ W →
      ((applyDiffCols diff xI yI offset start invert cnt x1 pic).width = W ∧
       (applyDiffCols diff xI yI offset start invert cnt x1 pic).height = H ∧
       (applyDiffCols diff xI yI offset start invert cnt x1 pic).data.length = W * H) ∧
      (∀ o, (o < offset + x1 ∨ offset + x1 + cnt ≤ o) →
        (applyDiffCols diff xI yI offset start invert cnt x1 pic).data.getD o 0 =
          pic.data.getD o 0) ∧
      (∀ j, x1 ≤ j → j < x1 + cnt →
        (applyDiffCols diff xI yI offset start invert cnt x1 pic).data.getD (offset + j) 0 =
          diffStep (pic.data.getD (offset + j) 0) (diff.getD (start + j) 0) invert) := by
  intro cnt
  induction cnt with
  | zero =>
      intro x1 pic hW hH hlen hb
      refine ⟨⟨hW, hH, hlen⟩, fun o _ => rfl, fun j h1 h2 => absurd h2 (by omega)⟩
  | succ n ih =>
      intro x1 pic hW hH hlen hb
      unfold applyDiffCols
      dsimp only
      have hxx : xI + (x1 : Int) = ((xn + x1 : Nat) : Int) := by rw [hxI]; push_cast; ring
      have hdata : (pic.set_pixel (xI + (x1 : Int)) yI
          (diffStep (pic.data.getD (offset + x1) 0) (diff.getD (start + x1) 0) invert)).data =
          pic.data.set (offset + x1)
            (diffStep (pic.data.getD (offset + x1) 0) (diff.getD (start + x1) 0) invert) := by
        rw [hxx, hyI, set_pixel_data_nat pic (xn + x1) yc _ (by omega) (by rw [hH]; exact hyc),
          Nat.mod_eq_of_lt (diffStep_lt _ _ _), hW]
        congr 1
        omega
      have hdims := set_pixel_dims pic (xI + (x1 : Int)) yI
        (diffStep (pic.data.getD (offset + x1) 0) (diff.getD (start + x1) 0) invert)
      have hlen2 : offset + x1 < pic.data.length := by
        have h1 : W * (yc + 1) ≤ W * H := Nat.mul_le_mul_left W hyc
        have h2 : W * (yc + 1) = W * yc + W := by ring
        omega
      obtain ⟨IH1, IH2, IH3⟩ := ih (x1 + 1)
        (pic.set_pixel (xI + (x1 : Int)) yI
          (diffStep (pic.data.getD (offset + x1) 0) (diff.getD (start + x1) 0) invert))
        (by rw [hdims.1, hW]) (by rw [hdims.2.1, hH])
        (by rw [hdims.2.2, hlen]) (by omega)
      refine ⟨IH1, ?_, ?_⟩
      · intro o ho
        rw [IH2 o (by omega), hdata, getD_set, if_neg (by omega)]
      · intro j h1 h2
        rcases Nat.eq_or_lt_of_le h1 with rfl | hlt
        · rw [IH2 (offset + x1) (by omega), hdata, getD_set, if_pos ⟨rfl, hlen2⟩]
        · rw [IH3 j (by omega) (by omega), hdata, getD_set, if_neg (by omega)]

/-- Combined specification of `apply_diff`'s row loop. -/
theorem applyDiffRows_spec (diff : List Int) (invert : Bool)
    (xn yn W H w : Nat) (hw : xn + w ≤ W) :
    ∀ rcnt offset start y1 pic, pic.width = W → pic.height = H →
      pic.data.length = W * H →
      offset = W * (yn + y1) + xn → yn + y1 + rcnt ≤ H →
      ((applyDiffRows diff (xn : Int) (yn : Int) w invert rcnt offset start y1 pic).width = W ∧
       (applyDiffRows diff (xn : Int) (yn : Int) w invert rcnt offset start y1 pic).height = H ∧
       (applyDiffRows diff (xn : Int) (yn : Int) w invert rcnt offset start y1 pic).data.length = W * H) ∧
      (∀ i jo, i < W → jo < H →
        (jo < yn + y1 ∨ yn + y1 + rcnt ≤ jo ∨ i < xn ∨ xn + w ≤ i) →
        (applyDiffRows diff (xn : Int) (yn : Int) w invert rcnt offset start y1 pic).data.getD
            (W * jo + i) 0 = pic.data.getD (W * jo + i) 0) ∧
      (∀ t j, t < rcnt → j < w →
        (applyDiffRows diff (xn : Int) (yn : Int) w invert rcnt offset start y1 pic).data.getD
            (W * (yn + y1 + t) + (xn + j)) 0 =
          diffStep (pic.data.getD (W * (yn + y1 + t) + (xn + j)) 0)
            (diff.getD (start + t * w + j) 0) invert) := by
  intro rcnt
  induction rcnt with
  | zero =>
      intro offset start y1 pic hW hH hlen hoff hrows
      refine ⟨⟨hW, hH, hlen⟩, fun i jo _ _ _ => rfl,
        fun t j ht => absurd ht (Nat.not_lt_zero t)⟩
  | succ n ih =>
      intro offset start y1 pic hW hH hlen hoff hrows
      unfold applyDiffRows
      dsimp only
      have hyI : (yn : Int) + (y1 : Nat) = ((yn + y1 : Nat) : Int) := by push_cast; ring
      obtain ⟨C1, C2, C3⟩ := applyDiffCols_spec diff invert xn (yn + y1) W H offset start
        (xn : Int) ((yn : Int) + (y1 : Nat)) rfl hyI hoff (by omega)
        w 0 pic hW hH hlen (by omega)
      set pic2 := applyDiffCols diff (xn : Int) ((yn : Int) + (y1 : Nat)) offset start invert w 0 pic
        with hpic2
      have hoff2 : offset + pic2.width = W * (yn + (y1 + 1)) + xn := by
        rw [C1.1]
        have : W * (yn + (y1 + 1)) = W * (yn + y1) + W := by ring
        omega
      obtain ⟨R1, R2, R3⟩ := ih (offset + pic2.width) (start + w) (y1 + 1) pic2
        C1.1 C1.2.1 C1.2.2 hoff2 (by omega)
      refine ⟨R1, ?_, ?_⟩
      · intro i jo hi hjo hout
        rw [R2 i jo hi hjo (by omega)]
        apply C2
        rcases Nat.lt_or_ge jo (yn + y1) with hc | hc
        · left
          have h1 : W * (jo + 1) ≤ W * (yn + y1) := Nat.mul_le_mul_left W hc
          have h2 : W * (jo + 1) = W * jo + W := by ring
          omega
        · rcases Nat.lt_or_ge jo (yn + y1 + 1) with hc2 | hc2
          · have hjoeq : jo = yn + y1 := by omega
            subst hjoeq
            rcases hout with h | h | h | h
            · omega
            · omega
            · left; omega
            · right; omega
          · right
            have h1 : W * (yn + y1 + 1) ≤ W * jo := Nat.mul_le_mul_left W hc2
            have h2 : W * (yn + y1 + 1) = W * (yn + y1) + W := by ring
            omega
      · intro t j ht hj
        match t with
        | 0 =>
            have e0 : yn + y1 + 0 = yn + y1 := by omega
            have es : start + 0 * w + j = start + j := by ring
            rw [e0, es, R2 (xn + j) (yn + y1) (by omega) (by omega) (by omega)]
            have hidx : W * (yn + y1) + (xn + j) = offset + j := by omega
            rw [hidx]
            exact C3 j (Nat.zero_le j) (by omega)
        | t' + 1 =>
            have e1 : yn + y1 + (t' + 1) = yn + (y1 + 1) + t' := by omega
            have e2 : start + (t' + 1) * w + j = (start + w) + t' * w + j := by ring
            rw [e1, e2, R3 t' j (by omega) hj]
            have hcond : (W * (yn + (y1 + 1) + t') + (xn + j) < offset + 0 ∨
                offset + 0 + w ≤ W * (yn + (y1 + 1) + t') + (xn + j)) := by
              right
              have h1 : W * (yn + y1 + 1) ≤ W * (yn + (y1 + 1) + t') :=
                Nat.mul_le_mul_left W (by omega)
              have h2 : W * (yn + y1 + 1) = W * (yn + y1) + W := by ring
              omega
            rw [C2 (W * (yn + (y1 + 1) + t') + (xn + j)) hcond]
/-- Full pointwise specification of `apply_diff` at the picture level. -/
theorem apply_diff_spec (A : LongPicture) (diff : List Int) (xn yn w h : Nat)
    (invert : Bool) (hlen : A.data.length = A.width * A.height)
    (hw : xn + w ≤ A.width) (hh : yn + h ≤ A.height) :
    ((A.apply_diff diff (xn : Int) (yn : Int) w h invert).width = A.width ∧
     (A.apply_diff diff (xn : Int) (yn : Int) w h invert).height = A.height ∧
     (A.apply_diff diff (xn : Int) (yn : Int) w h invert).data.length =
       A.width * A.height) ∧
    (∀ i jo, i < A.width → jo < A.height →
      (jo < yn ∨ yn + h ≤ jo ∨ i < xn ∨ xn + w ≤ i) →
      (A.apply_diff diff (xn : Int) (yn : Int) w h invert).data.getD
          (A.width * jo + i) 0 = A.data.getD (A.width * jo + i) 0) ∧
    (∀ yy j, yy < h → j < w →
      (A.apply_diff diff (xn : Int) (yn : Int) w h invert).data.getD
          (A.width * (yn + yy) + (xn + j)) 0 =
        diffStep (A.data.getD (A.width * (yn + yy) + (xn + j)) 0)
          (diff.getD (yy * w + j) 0) invert) := by
  unfold LongPicture.apply_diff
  rw [get_offset_toNat]
  obtain ⟨D1, D2, D3⟩ := applyDiffRows_spec diff invert xn yn A.width A.height w hw
    h (A.width * yn + xn) 0 0 A rfl rfl hlen rfl (by omega)
  refine ⟨D1, fun i jo hi hjo hout => D2 i jo hi hjo (by omega),
    fun yy j hyy hj => ?_⟩
  have h3 := D3 yy j hyy hj
  rwa [Nat.zero_add] at h3

/-- C1, amended: over an in-bounds rectangle of same-size buffers, the
forward `apply_diff` of `make_diff(A, B, R)` splices `B`'s low (index)
byte into `A` at the non-transparent pixels of `B`, keeps `A`'s upper
bytes there, and leaves `A` unchanged where `B` is transparent; applying
the same diff inverted afterwards restores `A` exactly, making
forward-then-inverted a strict no-op. -/
theorem c1_diff_roundtrip (A B : LongPicture) (xn yn w h : Nat)
    (hAwf : A.wf) (hBW : B.width = A.width) (hBH : B.height = A.height)
    (hxw : xn + w ≤ A.width) (hyh : yn + h ≤ A.height) :
    (∀ yy j, yy < h → j < w →
      (B.data.getD (A.width * (yn + yy) + (xn + j)) 0 / 2 ^ 24 ≠ 0 →
        (A.apply_diff (A.make_diff B (xn : Int) (yn : Int) w h)
            (xn : Int) (yn : Int) w h false).data.getD
            (A.width * (yn + yy) + (xn + j)) 0 % 256 =
          B.data.getD (A.width * (yn + yy) + (xn + j)) 0 % 256 ∧
        (A.apply_diff (A.make_diff B (xn : Int) (yn : Int) w h)
            (xn : Int) (yn : Int) w h false).data.getD
            (A.width * (yn + yy) + (xn + j)) 0 / 256 =
          A.data.getD (A.width * (yn + yy) + (xn + j)) 0 / 256) ∧
      (B.data.getD (A.width * (yn + yy) + (xn + j)) 0 / 2 ^ 24 = 0 →
        (A.apply_diff (A.make_diff B (xn : Int) (yn : Int) w h)
            (xn : Int) (yn : Int) w h false).data.getD
            (A.width * (yn + yy) + (xn + j)) 0 =
          A.data.getD (A.width * (yn + yy) + (xn + j)) 0)) ∧
    ((A.apply_diff (A.make_diff B (xn : Int) (yn : Int) w h)
        (xn : Int) (yn : Int) w h false).apply_diff
        (A.make_diff B (xn : Int) (yn : Int) w h)
        (xn : Int) (yn : Int) w h true).data = A.data := by
  have hlenA := hAwf.1
  obtain ⟨F1, F2, F3⟩ := apply_diff_spec A (A.make_diff B (xn : Int) (yn : Int) w h)
    xn yn w h false hlenA hxw hyh
  set D := A.make_diff B (xn : Int) (yn : Int) w h with hD
  set A1 := A.apply_diff D (xn : Int) (yn : Int) w h false with hA1
  obtain ⟨G1, G2, G3⟩ := apply_diff_spec A1 D xn yn w h true
    (by rw [F1.2.2, F1.1, F1.2.1]) (by rw [F1.1]; exact hxw)
    (by rw [F1.2.1]; exact hyh)
  rw [F1.1] at G2 G3
  rw [F1.2.1] at G2
  constructor
  · intro yy j hyy hj
    have hval1 := F3 yy j hyy hj
    have hmd := make_diff_getD A B xn yn w h yy j hyy hj
    have ha : A.data.getD (A.width * (yn + yy) + (xn + j)) 0 < wordMod :=
      wf_getD_lt A hAwf _
    constructor
    · intro halpha
      rw [hval1, hmd, if_pos halpha, diffStep_false_spec _ _ ha]
      rw [wordModNum] at ha
      constructor <;> omega
    · intro halpha
      rw [hval1, hmd, if_neg (not_not_intro halpha), diffStep_zero _ ha]
  · apply eq_of_getD_eq
    · rw [G1.2.2, F1.1, F1.2.1, hlenA]
    · intro o ho
      rw [G1.2.2, F1.1, F1.2.1] at ho
      rcases Nat.eq_zero_or_pos A.width with h0 | hWpos
      · exfalso
        rw [h0, Nat.zero_mul] at ho
        omega
      have hio : A.width * (o / A.width) + o % A.width = o := Nat.div_add_mod o A.width
      have hi : o % A.width < A.width := Nat.mod_lt _ hWpos
      have hjo : o / A.width < A.height := Nat.div_lt_of_lt_mul ho
      by_cases hin : yn ≤ o / A.width ∧ o / A.width < yn + h ∧
          xn ≤ o % A.width ∧ o % A.width < xn + w
      · obtain ⟨hy1, hy2, hx1, hx2⟩ := hin
        have hyeq : yn + (o / A.width - yn) = o / A.width := by omega
        have hoeq : o = A.width * (yn + (o / A.width - yn)) +
            (xn + (o % A.width - xn)) := by
          rw [hyeq]
          omega
        rw [hoeq, G3 (o / A.width - yn) (o % A.width - xn) (by omega) (by omega),
          F3 (o / A.width - yn) (o % A.width - xn) (by omega) (by omega)]
        exact diffStep_cancel _ _ (wf_getD_lt A hAwf _)
      · have hout : o / A.width < yn ∨ yn + h ≤ o / A.width ∨
            o % A.width < xn ∨ xn + w ≤ o % A.width := by omega
        rw [← hio, G2 (o % A.width) (o / A.width) hi hjo hout,
          F2 (o % A.width) (o / A.width) hi hjo hout]
/-- C1, witness for `c1_diff_roundtrip` at a concrete 2×2 pair and the
1×1 rectangle at the origin. -/
theorem c1_witness :
    ((LongPicture.mk 2 2 [5, 6, 7, 8]).wf ∧
      (LongPicture.mk 2 2 [255 * 2 ^ 24 + 9, 0, 0, 0]).width =
        (LongPicture.mk 2 2 [5, 6, 7, 8]).width ∧
      (LongPicture.mk 2 2 [255 * 2 ^ 24 + 9, 0, 0, 0]).height =
        (LongPicture.mk 2 2 [5, 6, 7, 8]).height ∧
      0 + 1 ≤ (LongPicture.mk 2 2 [5, 6, 7, 8]).width ∧
      0 + 1 ≤ (LongPicture.mk 2 2 [5, 6, 7, 8]).height) ∧
    (((LongPicture.mk 2 2 [5, 6, 7, 8]).apply_diff
        ((LongPicture.mk 2 2 [5, 6, 7, 8]).make_diff
          (LongPicture.mk 2 2 [255 * 2 ^ 24 + 9, 0, 0, 0]) ((0 : Nat) : Int)
          ((0 : Nat) : Int) 1 1) ((0 : Nat) : Int) ((0 : Nat) : Int) 1 1
        false).apply_diff
        ((LongPicture.mk 2 2 [5, 6, 7, 8]).make_diff
          (LongPicture.mk 2 2 [255 * 2 ^ 24 + 9, 0, 0, 0]) ((0 : Nat) : Int)
          ((0 : Nat) : Int) 1 1) ((0 : Nat) : Int) ((0 : Nat) : Int) 1 1
        true).data = (LongPicture.mk 2 2 [5, 6, 7, 8]).data :=
  ⟨⟨by decide, rfl, rfl, by decide, by decide⟩,
   (c1_diff_roundtrip (LongPicture.mk 2 2 [5, 6, 7, 8])
      (LongPicture.mk 2 2 [255 * 2 ^ 24 + 9, 0, 0, 0]) 0 0 1 1 (by decide) rfl rfl
      (by decide) (by decide)).2⟩

/-! ## C7: clear -/

theorem rowmajor_inj (w i1 i2 j1 j2 : Nat) (h1 : i1 < w) (h2 : i2 < w)
    (he : j1 * w + i1 = j2 * w + i2) : j1 = j2 ∧ i1 = i2 := by
  rcases Nat.lt_trichotomy j1 j2 with h | h | h
  · exfalso
    have h3 : (j1 + 1) * w ≤ j2 * w := Nat.mul_le_mul_right w h
    have h4 : (j1 + 1) * w = j1 * w + w := by ring
    omega
  · subst h
    omega
  · exfalso
    have h3 : (j2 + 1) * w ≤ j1 * w := Nat.mul_le_mul_right w h
    have h4 : (j2 + 1) * w = j2 * w + w := by ring
    omega

/-- One column pass of `clear` over an in-bounds column: never leaves the
data range and writes exactly the scanned rows. -/
theorem clearCol_spec (w h v : Nat) (xn : Nat) (hx : xn < w) :
    ∀ (cnt : Nat) (yI : Int) data (oob : Bool), data.length = w * h →
      0 ≤ yI → (yI + (cnt : Int) ≤ (h : Int) ∨ cnt = 0) →
      (clearCol w v (xn : Int) cnt yI (data, oob)).1.length = w * h ∧
      (clearCol w v (xn : Int) cnt yI (data, oob)).2 = oob ∧
      (∀ i j : Nat, i < w → j < h →
        (clearCol w v (xn : Int) cnt yI (data, oob)).1.getD (j * w + i) 0 =
          if i = xn ∧ yI ≤ (j : Int) ∧ (j : Int) < yI + (cnt : Int) then v
          else data.getD (j * w + i) 0) := by
  intro cnt
  induction cnt with
  | zero =>
      intro yI data oob hlen hy0 hyc
      unfold clearCol
      refine ⟨hlen, rfl, fun i j hi hj => ?_⟩
      rw [if_neg (by omega)]
  | succ n ih =>
      intro yI data oob hlen hy0 hyc
      have hyc2 : yI + ((n + 1 : Nat) : Int) ≤ (h : Int) := by omega
      unfold clearCol
      dsimp only
      have hyn : yI = ((yI.toNat : Nat) : Int) := by omega
      have hidx : yI * (w : Int) + (xn : Int) =
          ((yI.toNat * w + xn : Nat) : Int) := by
        push_cast
        rw [← hyn]
      have hlt : yI.toNat * w + xn < w * h := by
        have h3 : (yI.toNat + 1) * w ≤ h * w :=
          Nat.mul_le_mul_right w (by omega)
        have h4 : (yI.toNat + 1) * w = yI.toNat * w + w := by ring
        have h5 : h * w = w * h := Nat.mul_comm h w
        omega
      have hst : storeAt data (yI * (w : Int) + (xn : Int)) v =
          (data.set (yI.toNat * w + xn) v, false) := by
        unfold storeAt
        rw [if_pos (by rw [hidx, hlen]; constructor <;> [positivity; exact_mod_cast hlt])]
        rw [hidx, Int.toNat_natCast]
      rw [hst]
      dsimp only
      obtain ⟨I1, I2, I3⟩ := ih (yI + 1) (data.set (yI.toNat * w + xn) v) (oob || false)
        (by rw [List.length_set]; exact hlen) (by omega) (by omega)
      refine ⟨I1, by rw [I2, Bool.or_false], fun i j hi hj => ?_⟩
      rw [I3 i j hi hj]
      by_cases hc : i = xn ∧ yI ≤ (j : Int) ∧ (j : Int) < yI + ((n + 1 : Nat) : Int)
      · by_cases hc2 : yI + 1 ≤ (j : Int)
        · rw [if_pos ⟨hc.1, hc2, by omega⟩, if_pos hc]
        · have hje : j = yI.toNat := by omega
          have hieq : yI.toNat * w + xn = j * w + i := by rw [hje, hc.1]
          rw [if_neg (by omega), getD_set, if_pos ⟨hieq, by rw [hlen]; exact hlt⟩,
            if_pos hc]
      · rw [if_neg (by omega), getD_set, if_neg ?hne, if_neg hc]
        case hne =>
          rintro ⟨he, -⟩
          obtain ⟨hj1, hi1⟩ := rowmajor_inj w xn i yI.toNat j hx hi he
          omega
/-- The row loop of `clear` over a clamped box: never leaves the data
range and writes exactly the box. -/
theorem clearRows_spec (w h v : Nat) (y0 : Int) (ylen : Nat)
    (hy0 : 0 ≤ y0) (hyl : y0 + (ylen : Int) ≤ (h : Int) ∨ ylen = 0) :
    ∀ (xcnt : Nat) (xI : Int) (acc : List Nat × Bool), acc.1.length = w * h →
      0 ≤ xI → (xI + (xcnt : Int) ≤ (w : Int) ∨ xcnt = 0) →
      (clearRows w v y0 ylen xcnt xI acc).1.length = w * h ∧
      (clearRows w v y0 ylen xcnt xI acc).2 = acc.2 ∧
      (∀ i j : Nat, i < w → j < h →
        (clearRows w v y0 ylen xcnt xI acc).1.getD (j * w + i) 0 =
          if xI ≤ (i : Int) ∧ (i : Int) < xI + (xcnt : Int) ∧
             y0 ≤ (j : Int) ∧ (j : Int) < y0 + (ylen : Int) then v
          else acc.1.getD (j * w + i) 0) := by
  intro xcnt
  induction xcnt with
  | zero =>
      intro xI acc hlen hx0 hxc
      unfold clearRows
      refine ⟨hlen, rfl, fun i j hi hj => ?_⟩
      rw [if_neg (by omega)]
  | succ n ih =>
      intro xI acc hlen hx0 hxc
      obtain ⟨data, oob⟩ := acc
      have hxc2 : xI + ((n + 1 : Nat) : Int) ≤ (w : Int) := by omega
      have hxeq : xI = ((xI.toNat : Nat) : Int) := by omega
      unfold clearRows
      rw [hxeq]
      obtain ⟨C1, C2, C3⟩ := clearCol_spec w h v xI.toNat (by omega) ylen y0 data oob
        hlen hy0 hyl
      obtain ⟨R1, R2, R3⟩ := ih (((xI.toNat : Nat) : Int) + 1)
        (clearCol w v ((xI.toNat : Nat) : Int) ylen y0 (data, oob)) C1 (by omega)
        (by omega)
      refine ⟨R1, by rw [R2, C2], fun i j hi hj => ?_⟩
      rw [R3 i j hi hj]
      by_cases houter : ((xI.toNat : Nat) : Int) ≤ (i : Int) ∧
          (i : Int) < ((xI.toNat : Nat) : Int) + ((n + 1 : Nat) : Int) ∧
          y0 ≤ (j : Int) ∧ (j : Int) < y0 + (ylen : Int)
      · by_cases hfirst : ((xI.toNat : Nat) : Int) + 1 ≤ (i : Int)
        · rw [if_pos ⟨hfirst, by omega, houter.2.2.1, houter.2.2.2⟩, if_pos houter]
        · rw [if_neg (by omega), C3 i j hi hj,
            if_pos ⟨by omega, houter.2.2.1, houter.2.2.2⟩, if_pos houter]
      · rw [if_neg (by omega), C3 i j hi hj, if_neg (by omega), if_neg houter]

/-- C7, amended, for `LongPicture.clear`: the box intersected with the
buffer bounds is written with the constant value, every other pixel keeps
its value, and no element outside the data range is ever accessed. -/
theorem c7_long_clear_spec (p : LongPicture) (x0 y0 x1 y1 : Int) (value : Nat)
    (hlen : p.data.length = p.width * p.height) (hv : value < wordMod) :
    (p.clear (x0, y0, x1, y1) value).2 = false ∧
    ∀ i j : Nat, i < p.width → j < p.height →
      (p.clear (x0, y0, x1, y1) value).1.data.getD (j * p.width + i) 0 =
        if x0 ≤ (i : Int) ∧ (i : Int) < x1 ∧ y0 ≤ (j : Int) ∧ (j : Int) < y1
        then value else p.data.getD (j * p.width + i) 0 := by
  unfold LongPicture.clear
  dsimp only
  obtain ⟨R1, R2, R3⟩ := clearRows_spec p.width p.height (value % wordMod)
    (max 0 y0) (min (p.height : Int) y1 - max 0 y0).toNat (by omega) (by omega)
    (min (p.width : Int) x1 - max 0 x0).toNat (max 0 x0) (p.data, false) hlen
    (by omega) (by omega)
  dsimp only at R2 R3
  refine ⟨R2, fun i j hi hj => ?_⟩
  rw [R3 i j hi hj, Nat.mod_eq_of_lt hv]
  by_cases hc : x0 ≤ (i : Int) ∧ (i : Int) < x1 ∧ y0 ≤ (j : Int) ∧ (j : Int) < y1
  · rw [if_pos (by omega), if_pos hc]
  · rw [if_neg (by omega), if_neg hc]

/-- C7, witness for `c7_long_clear_spec`: a 2×2 buffer with a box that
overruns every side; the out-of-range flag stays false. -/
theorem c7_witness :
    ((LongPicture.mk 2 2 [1, 2, 3, 4]).data.length =
        (LongPicture.mk 2 2 [1, 2, 3, 4]).width *
          (LongPicture.mk 2 2 [1, 2, 3, 4]).height ∧ 7 < wordMod) ∧
    ((LongPicture.mk 2 2 [1, 2, 3, 4]).clear (-1, 0, 5, 9) 7).2 = false :=
  ⟨⟨by decide, by decide⟩,
    (c7_long_clear_spec (LongPicture.mk 2 2 [1, 2, 3, 4]) (-1) 0 5 9 7
      (by decide) (by decide)).1⟩

/-! ## C4: blit -/

theorem blitCols_inv (w h : Nat) (data0 : List Nat) (hlen0 : data0.length = w * h)
    (brush : LongPicture) (x : Int) (y1 : Nat) (y2 : Int)
    (hy2a : 0 ≤ y2) (hy2b : y2 < (h : Int)) :
    ∀ (cnt x1 : Nat) (st : BlitState), blitInv w h data0 st →
      blitInv w h data0 (blitCols w brush x y1 y2 cnt x1 st) := by
  intro cnt
  induction cnt with
  | zero => intro x1 st hst; exact hst
  | succ n ih =>
      intro x1 st hst
      unfold blitCols
      dsimp only
      by_cases hneg : x + (x1 : Int) < 0
      · rw [if_pos hneg]
        exact ih (x1 + 1) st hst
      rw [if_neg hneg]
      by_cases hbig : (w : Int) ≤ x + (x1 : Int)
      · rw [if_pos hbig]
        exact hst
      rw [if_neg hbig]
      by_cases halpha : brush.data.getD (brush.width * y1 + x1) 0 / 2 ^ 24 ≠ 0
      · rw [if_pos halpha]
        apply ih (x1 + 1)
        unfold blitInv at *
        dsimp only
        obtain ⟨hL, hxm0, hxmw, hym0, hymh, hXM0, hXMw, hYM0, hYMh, hpt⟩ := hst
        have hwpos : 0 < w := by omega
        have hx2 : ((x + (x1 : Int)).toNat : Int) = x + (x1 : Int) := by omega
        have hy2 : ((y2.toNat : Nat) : Int) = y2 := by omega
        have hx2w : (x + (x1 : Int)).toNat < w := by omega
        have hy2h : y2.toNat < h := by omega
        have hidx : w * y2.toNat + (x + (x1 : Int)).toNat < data0.length := by
          rw [hlen0]
          have h3 : w * (y2.toNat + 1) ≤ w * h := Nat.mul_le_mul_left w (by omega)
          have h4 : w * (y2.toNat + 1) = w * y2.toNat + w := by ring
          omega
        have hmod : (w * y2.toNat + (x + (x1 : Int)).toNat) % w =
            (x + (x1 : Int)).toNat := by
          rw [Nat.mul_add_mod]
          exact Nat.mod_eq_of_lt hx2w
        have hdiv : (w * y2.toNat + (x + (x1 : Int)).toNat) / w = y2.toNat := by
          rw [Nat.mul_add_div hwpos, Nat.div_eq_of_lt hx2w]
          omega

        refine ⟨by rw [List.length_set]; exact hL, by omega, by omega, by omega,
          by omega, by omega, by omega, by omega, by omega, ?_⟩
        intro o ho hchg
        rw [getD_set] at hchg
        by_cases heq : w * y2.toNat + (x + (x1 : Int)).toNat = o
        · subst heq
          rw [hmod, hdiv]
          constructor
          · omega
          refine ⟨?_, ?_, ?_⟩ <;> omega
        · rw [if_neg (by intro hh; exact heq hh.1)] at hchg
          have := hpt o ho hchg
          refine ⟨by omega, by omega, by omega, by omega⟩
      · rw [if_neg halpha]
        exact ih (x1 + 1) st hst

theorem blitRows_inv (w h : Nat) (data0 : List Nat) (hlen0 : data0.length = w * h)
    (brush : LongPicture) (x y : Int) :
    ∀ (cnt y1 : Nat) (st : BlitState), blitInv w h data0 st →
      blitInv w h data0 (blitRows w h brush x y cnt y1 st) := by
  intro cnt
  induction cnt with
  | zero => intro y1 st hst; exact hst
  | succ n ih =>
      intro y1 st hst
      unfold blitRows
      dsimp only
      by_cases hneg : y + (y1 : Int) < 0
      · rw [if_pos hneg]
        exact ih (y1 + 1) st hst
      rw [if_neg hneg]
      by_cases hbig : (h : Int) ≤ y + (y1 : Int)
      · rw [if_pos hbig]
        exact hst
      rw [if_neg hbig]
      exact ih (y1 + 1) _
        (blitCols_inv w h data0 hlen0 brush x y1 (y + (y1 : Int)) (by omega) (by omega)
          brush.width 0 st hst)

/-- Containment of `blit`: every pixel it modifies is in bounds and
contained in the returned rectangle, and that rectangle then lies within
the buffer bounds; when the returned rectangle is falsy (non-positive
size — which is what `blit` produces instead of `None`), nothing was
modified. -/
theorem blit_contains (pic brush : LongPicture) (x y : Int)
    (hlen : pic.data.length = pic.width * pic.height) :
    (∀ o, o < pic.data.length →
      (blit pic brush x y).2.data.getD o 0 ≠ pic.data.getD o 0 →
      ((blit pic brush x y).1.x ≤ ((o % pic.width : Nat) : Int) ∧
       ((o % pic.width : Nat) : Int) <
         (blit pic brush x y).1.x + (blit pic brush x y).1.width ∧
       (blit pic brush x y).1.y ≤ ((o / pic.width : Nat) : Int) ∧
       ((o / pic.width : Nat) : Int) <
         (blit pic brush x y).1.y + (blit pic brush x y).1.height) ∧
      (0 ≤ (blit pic brush x y).1.x ∧
       (blit pic brush x y).1.x + (blit pic brush x y).1.width ≤ (pic.width : Int) ∧
       0 ≤ (blit pic brush x y).1.y ∧
       (blit pic brush x y).1.y + (blit pic brush x y).1.height ≤ (pic.height : Int))) ∧
    ((blit pic brush x y).1.truthy = false →
      (blit pic brush x y).2.data = pic.data) := by
  have hinv0 : blitInv pic.width pic.height pic.data
      ⟨pic.data, (pic.width : Int), (pic.height : Int), 0, 0⟩ := by
    unfold blitInv
    dsimp only
    refine ⟨rfl, by omega, by omega, by omega, by omega, by omega, by omega, by omega,
      by omega, fun o ho hchg => absurd rfl hchg⟩
  have hinv := blitRows_inv pic.width pic.height pic.data hlen brush x y
    brush.height 0 _ hinv0
  unfold blit
  dsimp only
  unfold blitInv at hinv
  obtain ⟨hL, hxm0, hxmw, hym0, hymh, hXM0, hXMw, hYM0, hYMh, hpt⟩ := hinv
  constructor
  · intro o ho hchg
    have hp := hpt o ho hchg
    have hwpos : 0 < pic.width := by
      rcases Nat.eq_zero_or_pos pic.width with h0 | h0
      · rw [h0, Nat.zero_mul] at hlen; omega
      · exact h0
    have hhpos : 0 < pic.height := by
      rcases Nat.eq_zero_or_pos pic.height with h0 | h0
      · rw [h0, Nat.mul_zero] at hlen; omega
      · exact h0
    refine ⟨⟨hp.1, by omega, hp.2.2.1, by omega⟩, by omega, by omega, by omega, by omega⟩
  · intro hfalse
    have hf : (blitRows pic.width pic.height brush x y brush.height 0
        ⟨pic.data, (pic.width : Int), (pic.height : Int), 0, 0⟩).xmax <
        (blitRows pic.width pic.height brush x y brush.height 0
        ⟨pic.data, (pic.width : Int), (pic.height : Int), 0, 0⟩).xmin ∨
        (blitRows pic.width pic.height brush x y brush.height 0
        ⟨pic.data, (pic.width : Int), (pic.height : Int), 0, 0⟩).ymax <
        (blitRows pic.width pic.height brush x y brush.height 0
        ⟨pic.data, (pic.width : Int), (pic.height : Int), 0, 0⟩).ymin := by
      unfold Rectangle.truthy at hfalse
      dsimp only at hfalse
      rcases Bool.and_eq_false_iff.mp hfalse with hh | hh <;>
        [left; right] <;> (rw [decide_eq_false_iff_not] at hh; omega)
    apply eq_of_getD_eq hL
    intro o ho
    by_contra hchg
    have := hpt o (by omega) hchg
    omega

theorem get_offset_toNat_int (p : LongPicture) (x y : Int) (hx : 0 ≤ x)
    (hy : 0 ≤ y) : (p.get_offset x y).toNat = p.width * y.toNat + x.toNat := by
  unfold LongPicture.get_offset
  have hxx : x = ((x.toNat : Nat) : Int) := by omega
  have hyy : y = ((y.toNat : Nat) : Int) := by omega
  conv_lhs => rw [hxx, hyy]
  rw [show ((p.width : Int) * ((y.toNat : Nat) : Int) + ((x.toNat : Nat) : Int)) =
      ((p.width * y.toNat + x.toNat : Nat) : Int) from by push_cast; ring,
    Int.toNat_natCast]

theorem set_pixel_data_int (p : LongPicture) (x y : Int) (v : Nat)
    (hx : 0 ≤ x) (hxw : x < (p.width : Int)) (hy : 0 ≤ y)
    (hyh : y < (p.height : Int)) :
    (p.set_pixel x y v).data = p.data.set (p.width * y.toNat + x.toNat) (v % wordMod) := by
  unfold LongPicture.set_pixel
  rw [if_pos ⟨hx, hxw, hy, hyh⟩, get_offset_toNat_int p x y hx hy]

theorem pixMask_idx (p : LongPicture) (x y : Int) (hx : 0 ≤ x) (hy : 0 ≤ y) :
    p.pixMask x y = p.data.getD (p.width * y.toNat + x.toNat) 0 % 256 := by
  unfold LongPicture.pixMask
  rw [get_offset_toNat_int p x y hx hy]

theorem countP_set (p : Nat → Bool) :
    ∀ (l : List Nat) (i : Nat) (v : Nat), i < l.length →
      (l.set i v).countP p + (if p (l.getD i 0) then 1 else 0) =
        l.countP p + (if p v then 1 else 0) := by
  intro l
  induction l with
  | nil => intro i v hi; simp at hi
  | cons a t ih =>
      intro i v hi
      match i with
      | 0 =>
          simp only [List.set_cons_zero, List.countP_cons, List.getD_cons_zero]
          split_ifs <;> omega
      | k + 1 =>
          simp only [List.set_cons_succ, List.countP_cons, List.getD_cons_succ]
          have h2 := ih k v (by simpa using hi)
          omega

/-- A pixel written by the fill no longer matches the start colour. -/
theorem written_not_match (cv sc : Nat) (hne : cv % 256 ≠ sc) :
    (cv % wordMod) % 256 ≠ sc := by
  rw [wordModNum]
  omega

theorem scanLeft_neg (pic : LongPicture) (sc : Nat) (y : Int) :
    ∀ (fuel : Nat) (x : Int), x < 0 → scanLeft pic sc y fuel x = x + 1 := by
  intro fuel x hx
  match fuel with
  | 0 => rfl
  | n + 1 =>
      unfold scanLeft
      rw [if_neg (by omega)]

theorem scanLeft_le (pic : LongPicture) (sc : Nat) (y : Int) :
    ∀ (fuel : Nat) (x : Int), scanLeft pic sc y fuel x ≤ x + 1 := by
  intro fuel
  induction fuel with
  | zero => intro x; exact le_refl _
  | succ n ih =>
      intro x
      unfold scanLeft
      split_ifs with h
      · have := ih (x - 1)
        omega
      · exact le_refl _

theorem scanLeft_nonneg (pic : LongPicture) (sc : Nat) (y : Int) :
    ∀ (fuel : Nat) (x : Int), 0 ≤ x → x < (fuel : Int) →
      0 ≤ scanLeft pic sc y fuel x := by
  intro fuel
  induction fuel with
  | zero => intro x h1 h2; omega
  | succ n ih =>
      intro x h1 h2
      unfold scanLeft
      split_ifs with h
      · rcases Int.lt_or_le 0 x with hx | hx
        · exact ih (x - 1) (by omega) (by omega)
        · rw [scanLeft_neg pic sc y n (x - 1) (by omega)]
          omega
      · omega

theorem scanLeft_matching (pic : LongPicture) (sc : Nat) (y : Int) :
    ∀ (fuel : Nat) (x t : Int), scanLeft pic sc y fuel x ≤ t → t ≤ x →
      sc = pic.pixMask t y := by
  intro fuel
  induction fuel with
  | zero =>
      intro x t h1 h2
      unfold scanLeft at h1
      exfalso
      omega
  | succ n ih =>
      intro x t h1 h2
      unfold scanLeft at h1
      split_ifs at h1 with h
      · rcases Int.lt_or_le t x with ht | ht
        · exact ih (x - 1) t h1 (by omega)
        · have : t = x := by omega
          rw [this]
          exact h.2
      · omega
theorem scanRight_measure (sc cv : Nat) (y : Int) (hne : cv % 256 ≠ sc) :
    ∀ (fuel : Nat) (x : Int) (rt rb : Bool) (st : FillState), 0 ≤ x → 0 ≤ y →
      y < (st.pic.height : Int) →
      st.pic.data.length = st.pic.width * st.pic.height →
      ∃ k : Nat,
        matchCount sc st.pic.data =
          matchCount sc (scanRight sc cv y fuel x rt rb st).pic.data + k ∧
        (scanRight sc cv y fuel x rt rb st).stack.length ≤ st.stack.length + 2 * k ∧
        (scanRight sc cv y fuel x rt rb st).pic.width = st.pic.width ∧
        (scanRight sc cv y fuel x rt rb st).pic.height = st.pic.height ∧
        (scanRight sc cv y fuel x rt rb st).pic.data.length = st.pic.data.length ∧
        (∀ q ∈ (scanRight sc cv y fuel x rt rb st).stack, q ∈ st.stack ∨
          (0 ≤ q.1 ∧ q.1 < (st.pic.width : Int) ∧ 0 ≤ q.2 ∧ q.2 < (st.pic.height : Int))) := by
  intro fuel
  induction fuel with
  | zero =>
      intro x rt rb st hx hy hyh hlen
      unfold scanRight
      exact ⟨0, by omega, by omega, rfl, rfl, rfl, fun q hq => Or.inl hq⟩
  | succ n ih =>
      intro x rt rb st hx hy hyh hlen
      unfold scanRight
      by_cases hg : x < (st.pic.width : Int) ∧ st.pic.pixMask x y = sc
      case neg =>
        rw [if_neg hg]
        exact ⟨0, by omega, by omega, rfl, rfl, rfl, fun q hq => Or.inl hq⟩
      case pos =>
        rw [if_pos hg]
        dsimp only
        have hxw : x < (st.pic.width : Int) := hg.1
        have hd1 : (st.pic.set_pixel x y cv).data =
            st.pic.data.set (st.pic.width * y.toNat + x.toNat) (cv % wordMod) :=
          set_pixel_data_int st.pic x y cv hx hxw hy hyh
        have hdim1 := set_pixel_dims st.pic x y cv
        have hidxlt : st.pic.width * y.toNat + x.toNat < st.pic.data.length := by
          rw [hlen]
          have h3 : st.pic.width * (y.toNat + 1) ≤ st.pic.width * st.pic.height :=
            Nat.mul_le_mul_left _ (by omega)
          have h4 : st.pic.width * (y.toNat + 1) = st.pic.width * y.toNat + st.pic.width := by
            ring
          omega
        have hmatch_idx :
            (st.pic.data.getD (st.pic.width * y.toNat + x.toNat) 0) % 256 = sc := by
          have h5 := hg.2
          rw [pixMask_idx st.pic x y hx hy] at h5
          exact h5
        have hcnt : matchCount sc st.pic.data =
            matchCount sc (st.pic.set_pixel x y cv).data + 1 := by
          rw [hd1]
          unfold matchCount
          have h6 := countP_set (fun v => v % 256 == sc) st.pic.data
            (st.pic.width * y.toNat + x.toNat) (cv % wordMod) hidxlt
          dsimp only at h6
          rw [beq_iff_eq.mpr hmatch_idx,
            beq_eq_false_iff_ne.mpr (written_not_match cv sc hne)] at h6
          norm_num at h6
          omega
        by_cases hmid : 0 < y ∧ y < ((st.pic.set_pixel x y cv).height : Int) - 1
        · rw [if_pos hmid]
          dsimp only
          obtain ⟨k, IH1, IH2, IH3, IH4, IH5, IH6⟩ := ih (x + 1)
            (sc == (st.pic.set_pixel x y cv).pixMask x (y - 1))
            (sc == (st.pic.set_pixel x y cv).pixMask x (y + 1))
            ⟨st.pic.set_pixel x y cv,
              (if (sc == (st.pic.set_pixel x y cv).pixMask x (y + 1)) && !rb then
                (x, y + 1) ::
                  (if (sc == (st.pic.set_pixel x y cv).pixMask x (y - 1)) && !rt then
                    (x, y - 1) :: st.stack else st.stack)
               else
                (if (sc == (st.pic.set_pixel x y cv).pixMask x (y - 1)) && !rt then
                  (x, y - 1) :: st.stack else st.stack)),
              min st.xmin x, max st.xmax x, min st.ymin y, max st.ymax y⟩
            (by omega) hy (by dsimp only; rw [hdim1.2.1]; exact hyh)
            (by dsimp only; rw [hdim1.2.2, hdim1.1, hdim1.2.1]; exact hlen)
          refine ⟨k + 1, by dsimp only at IH1 ⊢; omega, ?_, ?_, ?_, ?_, ?_⟩
          · have hlen2 :
                (if (sc == (st.pic.set_pixel x y cv).pixMask x (y + 1)) && !rb then
                  (x, y + 1) ::
                    (if (sc == (st.pic.set_pixel x y cv).pixMask x (y - 1)) && !rt then
                      (x, y - 1) :: st.stack else st.stack)
                 else
                  (if (sc == (st.pic.set_pixel x y cv).pixMask x (y - 1)) && !rt then
                    (x, y - 1) :: st.stack else st.stack)).length ≤ st.stack.length + 2 := by
              split_ifs <;> (try simp only [List.length_cons]) <;> omega
          
            dsimp only at IH2
            omega
          · rw [IH3]
            dsimp only
            exact hdim1.1
          · rw [IH4]
            dsimp only
            exact hdim1.2.1
          · rw [IH5]
            dsimp only
            exact hdim1.2.2
          · intro q hq
            rcases IH6 q hq with hq2 | hq2
            · dsimp only at hq2
              have hq3 : q = (x, y - 1) ∨ q = (x, y + 1) ∨ q ∈ st.stack := by
                split_ifs at hq2 <;> (try simp only [List.mem_cons] at hq2) <;> tauto
              rcases hq3 with rfl | rfl | h3
              · right
                refine ⟨hx, hxw, by omega, by omega⟩
              · right
                have hh : y < ((st.pic.set_pixel x y cv).height : Int) - 1 := hmid.2
                rw [hdim1.2.1] at hh
                refine ⟨hx, hxw, by omega, by omega⟩
              · left; exact h3
            · right
              dsimp only at hq2
              rw [hdim1.1, hdim1.2.1] at hq2
              exact hq2
        · rw [if_neg hmid]
          dsimp only
          obtain ⟨k, IH1, IH2, IH3, IH4, IH5, IH6⟩ := ih (x + 1) rt rb
            ⟨st.pic.set_pixel x y cv, st.stack,
              min st.xmin x, max st.xmax x, min st.ymin y, max st.ymax y⟩
            (by omega) hy (by dsimp only; rw [hdim1.2.1]; exact hyh)
            (by dsimp only; rw [hdim1.2.2, hdim1.1, hdim1.2.1]; exact hlen)
          refine ⟨k + 1, by dsimp only at IH1 ⊢; omega,
            by dsimp only at IH2; omega, ?_, ?_, ?_, ?_⟩
          · rw [IH3]
            dsimp only
            exact hdim1.1
          · rw [IH4]
            dsimp only
            exact hdim1.2.1
          · rw [IH5]
            dsimp only
            exact hdim1.2.2
          · intro q hq
            rcases IH6 q hq with hq2 | hq2
            · left; exact hq2
            · right
              dsimp only at hq2
              rw [hdim1.1, hdim1.2.1] at hq2
              exact hq2
theorem fillLoop_some (sc cv : Nat) (hne : cv % 256 ≠ sc) :
    ∀ (fuel : Nat) (st : FillState),
      st.pic.data.length = st.pic.width * st.pic.height →
      (∀ q ∈ st.stack, 0 ≤ q.1 ∧ q.1 < (st.pic.width : Int) ∧
        0 ≤ q.2 ∧ q.2 < (st.pic.height : Int)) →
      3 * matchCount sc st.pic.data + st.stack.length ≤ fuel →
      (fillLoop sc cv fuel st).isSome := by
  intro fuel
  induction fuel with
  | zero =>
      intro st hlen hstk hmu
      unfold fillLoop
      have hempty : st.stack = [] := List.length_eq_zero.mp (by omega)
      rw [hempty]
      rfl
  | succ n ih =>
      intro st hlen hstk hmu
      unfold fillLoop
      match hstack : st.stack with
      | [] => rfl
      | (x, y) :: rest =>
          dsimp only
          have hq := hstk (x, y) (by rw [hstack]; exact List.mem_cons_self _ _)
          have hx0 : 0 ≤ scanLeft st.pic sc y (x + 1).toNat x :=
            scanLeft_nonneg st.pic sc y (x + 1).toNat x hq.1 (by omega)
          obtain ⟨k, M1, M2, M3, M4, M5, M6⟩ := scanRight_measure sc cv y hne
            st.pic.width (scanLeft st.pic sc y (x + 1).toNat x) false false
            { st with stack := rest } hx0 hq.2.2.1 hq.2.2.2 hlen
          dsimp only at M1 M2 M3 M4 M5 M6
          apply ih
          · rw [M5, M3, M4]
            exact hlen
          · intro q hq2
            rcases M6 q hq2 with h3 | h3
            · have := hstk q (by rw [hstack]; exact List.mem_cons_of_mem _ h3)
              rw [M3, M4]
              exact this
            · rw [M3, M4]
              exact h3
          · have hst : st.stack.length = rest.length + 1 := by rw [hstack]; rfl
            rw [M3, M4] at *
            omega
theorem reach_chain_left (pic0 : LongPicture) (seed : Int × Int) (sc : Nat)
    (y : Int) :
    ∀ (n : Nat) (b : Int), Reach pic0 sc seed (b, y) →
      (∀ t : Int, b - (n : Int) ≤ t → t < b →
        pic0.inBounds t y ∧ pic0.pixMask t y = sc) →
      Reach pic0 sc seed (b - (n : Int), y) := by
  intro n
  induction n with
  | zero =>
      intro b hb hmatch
      simpa using hb
  | succ m ih =>
      intro b hb hmatch
      have hb1 : Reach pic0 sc seed (b - 1, y) :=
        Reach.step seed (b, y) (b - 1, y) hb
          (by dsimp only; rw [show b - 1 - b = -1 from by ring, sub_self]; rfl)
          (hmatch (b - 1) (by omega) (by omega)).1
          (hmatch (b - 1) (by omega) (by omega)).2
      have hrec := ih (b - 1) hb1 (fun t ht1 ht2 => hmatch t (by omega) (by omega))
      have heq : b - 1 - (m : Int) = b - ((m + 1 : Nat) : Int) := by push_cast; ring
      rw [heq] at hrec
      exact hrec

/-- A pixel that still matches the start colour after some fill writes
already matched it in the original picture. -/
theorem evo_match_orig (pic0 : LongPicture) (sc cv : Nat) (hne : cv % 256 ≠ sc)
    (hlen0 : pic0.data.length = pic0.width * pic0.height) (pic1 : LongPicture)
    (hW : pic1.width = pic0.width) (hL : pic1.data.length = pic0.data.length)
    (hdata : ∀ o, o < pic0.data.length →
      pic1.data.getD o 0 ≠ pic0.data.getD o 0 → pic1.data.getD o 0 = cv % wordMod)
    (x y : Int) (hx : 0 ≤ x) (hxw : x < (pic0.width : Int)) (hy : 0 ≤ y)
    (hyh : y < (pic0.height : Int)) (hm : pic1.pixMask x y = sc) :
    pic0.pixMask x y = sc := by
  rw [pixMask_idx pic1 x y hx hy, hW] at hm
  rw [pixMask_idx pic0 x y hx hy]
  have hlt : pic0.width * y.toNat + x.toNat < pic0.data.length := by
    rw [hlen0]
    have h3 : pic0.width * (y.toNat + 1) ≤ pic0.width * pic0.height :=
      Nat.mul_le_mul_left _ (by omega)
    have h4 : pic0.width * (y.toNat + 1) = pic0.width * y.toNat + pic0.width := by ring
    omega
  by_cases hchg : pic1.data.getD (pic0.width * y.toNat + x.toNat) 0 =
      pic0.data.getD (pic0.width * y.toNat + x.toNat) 0
  · rw [← hchg]
    exact hm
  · rw [hdata _ hlt hchg] at hm
    exact absurd hm (written_not_match cv sc hne)
theorem scanRight_reach (pic0 : LongPicture) (seed : Int × Int) (sc cv : Nat)
    (hne : cv % 256 ≠ sc) (hlen0 : pic0.data.length = pic0.width * pic0.height)
    (y : Int) (hy : 0 ≤ y) (hyh : y < (pic0.height : Int)) :
    ∀ (fuel : Nat) (x : Int) (rt rb : Bool) (st : FillState), 0 ≤ x →
      fillStInv pic0 seed sc cv st →
      (x < (pic0.width : Int) → st.pic.pixMask x y = sc →
        Reach pic0 sc seed (x, y)) →
      fillStInv pic0 seed sc cv (scanRight sc cv y fuel x rt rb st) := by
  intro fuel
  induction fuel with
  | zero =>
      intro x rt rb st hx hinv hH2
      unfold scanRight
      exact hinv
  | succ n ih =>
      intro x rt rb st hx hinv hH2
      unfold scanRight
      by_cases hg : x < (st.pic.width : Int) ∧ st.pic.pixMask x y = sc
      case neg =>
        rw [if_neg hg]
        exact hinv
      case pos =>
        rw [if_pos hg]
        dsimp only
        unfold fillStInv at hinv
        obtain ⟨hW, hH, hL, hstk, hdata⟩ := hinv
        have hxw : x < (pic0.width : Int) := by rw [← hW]; exact hg.1
        have hreach : Reach pic0 sc seed (x, y) := hH2 hxw hg.2
        have hyh1 : y < (st.pic.height : Int) := by rw [hH]; exact hyh
        have hd1 : (st.pic.set_pixel x y cv).data =
            st.pic.data.set (st.pic.width * y.toNat + x.toNat) (cv % wordMod) :=
          set_pixel_data_int st.pic x y cv hx hg.1 hy hyh1
        have hdim1 := set_pixel_dims st.pic x y cv
        have hW1 : (st.pic.set_pixel x y cv).width = pic0.width := by
          rw [hdim1.1, hW]
        have hH1 : (st.pic.set_pixel x y cv).height = pic0.height := by
          rw [hdim1.2.1, hH]
        have hL1 : (st.pic.set_pixel x y cv).data.length = pic0.data.length := by
          rw [hdim1.2.2, hL]
        have hxnW : x.toNat < pic0.width := by omega
        have hynH : y.toNat < pic0.height := by omega
        have hdata1 : ∀ o, o < pic0.data.length →
            (st.pic.set_pixel x y cv).data.getD o 0 ≠ pic0.data.getD o 0 →
            (st.pic.set_pixel x y cv).data.getD o 0 = cv % wordMod ∧
            Reach pic0 sc seed
              (((o % pic0.width : Nat) : Int), ((o / pic0.width : Nat) : Int)) := by
          intro o ho hchg
          rw [hd1, getD_set] at hchg
          rw [hd1, getD_set]
          by_cases heq : st.pic.width * y.toNat + x.toNat = o ∧
              st.pic.width * y.toNat + x.toNat < st.pic.data.length
          · rw [if_pos heq] at hchg ⊢
            refine ⟨rfl, ?_⟩
            have ho1 : o % pic0.width = x.toNat := by
              rw [← heq.1, hW, Nat.mul_add_mod, Nat.mod_eq_of_lt hxnW]
            have ho2 : o / pic0.width = y.toNat := by
              rw [← heq.1, hW, Nat.mul_add_div (show 0 < pic0.width by omega),
                Nat.div_eq_of_lt hxnW]
              omega
            have hco1 : ((o % pic0.width : Nat) : Int) = x := by rw [ho1]; omega
            have hco2 : ((o / pic0.width : Nat) : Int) = y := by rw [ho2]; omega
            rw [hco1, hco2]
            exact hreach
          · rw [if_neg heq] at hchg ⊢
            exact hdata o ho hchg
        by_cases hmid : 0 < y ∧ y < ((st.pic.set_pixel x y cv).height : Int) - 1
        · rw [if_pos hmid]
          dsimp only
          have hmid2 : y < (pic0.height : Int) - 1 := by
            have h5 := hmid.2
            rw [hH1] at h5
            exact h5
          have hpushtop : ((sc == (st.pic.set_pixel x y cv).pixMask x (y - 1)) = true) →
              Reach pic0 sc seed (x, y - 1) ∧ pic0.inBounds x (y - 1) := by
            intro htm
            have hm5 : (st.pic.set_pixel x y cv).pixMask x (y - 1) = sc :=
              (beq_iff_eq.mp htm).symm
            have hor : pic0.pixMask x (y - 1) = sc :=
              evo_match_orig pic0 sc cv hne hlen0 _ hW1 hL1
                (fun o ho hch => (hdata1 o ho hch).1) x (y - 1) hx hxw
                (by omega) (by omega) hm5
            have hib : pic0.inBounds x (y - 1) := by
              unfold LongPicture.inBounds
              exact ⟨hx, hxw, by omega, by omega⟩
            exact ⟨Reach.step seed (x, y) (x, y - 1) hreach
              (by dsimp only; rw [sub_self, show y - 1 - y = -1 from by ring]; rfl)
              hib hor, hib⟩
          have hpushbot : ((sc == (st.pic.set_pixel x y cv).pixMask x (y + 1)) = true) →
              Reach pic0 sc seed (x, y + 1) ∧ pic0.inBounds x (y + 1) := by
            intro hbm
            have hm5 : (st.pic.set_pixel x y cv).pixMask x (y + 1) = sc :=
              (beq_iff_eq.mp hbm).symm
            have hor : pic0.pixMask x (y + 1) = sc :=
              evo_match_orig pic0 sc cv hne hlen0 _ hW1 hL1
                (fun o ho hch => (hdata1 o ho hch).1) x (y + 1) hx hxw
                (by omega) (by omega) hm5
            have hib : pic0.inBounds x (y + 1) := by
              unfold LongPicture.inBounds
              exact ⟨hx, hxw, by omega, by omega⟩
            exact ⟨Reach.step seed (x, y) (x, y + 1) hreach
              (by dsimp only; rw [sub_self, show y + 1 - y = 1 from by ring]; rfl)
              hib hor, hib⟩
          apply ih
          · omega
          · unfold fillStInv
            dsimp only
            refine ⟨hW1, hH1, hL1, ?_, hdata1⟩
            intro q hq
            split_ifs at hq with h1 h2 h3
            · simp only [List.mem_cons] at hq
              rcases hq with rfl | rfl | hq3
              · exact hpushbot (by simp only [Bool.and_eq_true] at h1; exact h1.1)
              · exact hpushtop (by simp only [Bool.and_eq_true] at h2; exact h2.1)
              · exact hstk q hq3
            · simp only [List.mem_cons] at hq
              rcases hq with rfl | hq3
              · exact hpushbot (by simp only [Bool.and_eq_true] at h1; exact h1.1)
              · exact hstk q hq3
            · simp only [List.mem_cons] at hq
              rcases hq with rfl | hq3
              · exact hpushtop (by simp only [Bool.and_eq_true] at h3; exact h3.1)
              · exact hstk q hq3
            · exact hstk q hq
          · intro hxw2 hm2
            exact Reach.step seed (x, y) (x + 1, y) hreach
              (by dsimp only; rw [show x + 1 - x = 1 from by ring, sub_self]; rfl)
              (by unfold LongPicture.inBounds; exact ⟨by omega, hxw2, hy, hyh⟩)
              (evo_match_orig pic0 sc cv hne hlen0 _ hW1 hL1
                (fun o ho hch => (hdata1 o ho hch).1) (x + 1) y (by omega) hxw2
                hy hyh hm2)
        · rw [if_neg hmid]
          dsimp only
          apply ih
          · omega
          · unfold fillStInv
            dsimp only
            exact ⟨hW1, hH1, hL1, hstk, hdata1⟩
          · intro hxw2 hm2
            exact Reach.step seed (x, y) (x + 1, y) hreach
              (by dsimp only; rw [show x + 1 - x = 1 from by ring, sub_self]; rfl)
              (by unfold LongPicture.inBounds; exact ⟨by omega, hxw2, hy, hyh⟩)
              (evo_match_orig pic0 sc cv hne hlen0 _ hW1 hL1
                (fun o ho hch => (hdata1 o ho hch).1) (x + 1) y (by omega) hxw2
                hy hyh hm2)
theorem fillLoop_reach (pic0 : LongPicture) (seed : Int × Int) (sc cv : Nat)
    (hne : cv % 256 ≠ sc) (hlen0 : pic0.data.length = pic0.width * pic0.height) :
    ∀ (fuel : Nat) (st st2 : FillState), fillStInv pic0 seed sc cv st →
      fillLoop sc cv fuel st = some st2 → fillStInv pic0 seed sc cv st2 := by
  intro fuel
  induction fuel with
  | zero =>
      intro st st2 hinv heq
      unfold fillLoop at heq
      by_cases hemp : st.stack.isEmpty
      · rw [if_pos hemp] at heq
        have h9 := Option.some.inj heq
        rw [← h9]
        exact hinv
      · rw [if_neg hemp] at heq
        exact Option.noConfusion heq
  | succ n ih =>
      intro st st2 hinv heq
      unfold fillLoop at heq
      rcases hstack : st.stack with _ | ⟨⟨x, y⟩, rest⟩
      · rw [hstack] at heq
        dsimp only at heq
        have h9 := Option.some.inj heq
        rw [← h9]
        exact hinv
      · rw [hstack] at heq
        dsimp only at heq
        unfold fillStInv at hinv
        obtain ⟨hW, hH, hL, hstk, hdata⟩ := hinv
        have hq := hstk (x, y) (by rw [hstack]; exact List.mem_cons_self _ _)
        have hbb : 0 ≤ x ∧ x < (pic0.width : Int) ∧ 0 ≤ y ∧
            y < (pic0.height : Int) := hq.2
        have hx0nn : 0 ≤ scanLeft st.pic sc y (x + 1).toNat x :=
          scanLeft_nonneg st.pic sc y (x + 1).toNat x hbb.1 (by omega)
        have hinvrest : fillStInv pic0 seed sc cv { st with stack := rest } := by
          unfold fillStInv
          dsimp only
          exact ⟨hW, hH, hL,
            fun q hq2 => hstk q (by rw [hstack]; exact List.mem_cons_of_mem _ hq2),
            hdata⟩
        have hH2 : scanLeft st.pic sc y (x + 1).toNat x < (pic0.width : Int) →
            st.pic.pixMask (scanLeft st.pic sc y (x + 1).toNat x) y = sc →
            Reach pic0 sc seed (scanLeft st.pic sc y (x + 1).toNat x, y) := by
          intro hxw2 hm2
          rcases Int.lt_or_le x (scanLeft st.pic sc y (x + 1).toNat x) with hgt | hle2
          · have hx0eq : scanLeft st.pic sc y (x + 1).toNat x = x + 1 := by
              have := scanLeft_le st.pic sc y (x + 1).toNat x
              omega
            have hor : pic0.pixMask (scanLeft st.pic sc y (x + 1).toNat x) y = sc :=
              evo_match_orig pic0 sc cv hne hlen0 st.pic hW hL
                (fun o ho hch => (hdata o ho hch).1)
                (scanLeft st.pic sc y (x + 1).toNat x) y (by omega) hxw2
                (by omega) (by omega) hm2
            refine Reach.step seed (x, y) (scanLeft st.pic sc y (x + 1).toNat x, y)
              hq.1 ?_ ?_ hor
            · dsimp only
              rw [hx0eq, show x + 1 - x = 1 from by ring, sub_self]
              rfl
            · unfold LongPicture.inBounds
              exact ⟨by omega, hxw2, by omega, by omega⟩
          · have hmatch : ∀ t : Int,
                x - ((x - scanLeft st.pic sc y (x + 1).toNat x).toNat : Int) ≤ t →
                t < x → pic0.inBounds t y ∧ pic0.pixMask t y = sc := by
              intro t ht1 ht2
              have hm3 : sc = st.pic.pixMask t y :=
                scanLeft_matching st.pic sc y (x + 1).toNat x t (by omega) (by omega)
              refine ⟨?_, ?_⟩
              · unfold LongPicture.inBounds
                exact ⟨by omega, by omega, by omega, by omega⟩
              · exact evo_match_orig pic0 sc cv hne hlen0 st.pic hW hL
                  (fun o ho hch => (hdata o ho hch).1) t y (by omega) (by omega)
                  (by omega) (by omega) hm3.symm
            have hchain := reach_chain_left pic0 seed sc y
              (x - scanLeft st.pic sc y (x + 1).toNat x).toNat x hq.1 hmatch
            have hcoord : x - ((x - scanLeft st.pic sc y (x + 1).toNat x).toNat : Int) =
                scanLeft st.pic sc y (x + 1).toNat x := by omega
            rw [hcoord] at hchain
            exact hchain
        exact ih _ st2
          (scanRight_reach pic0 seed sc cv hne hlen0 y hbb.2.2.1 hbb.2.2.2
            st.pic.width (scanLeft st.pic sc y (x + 1).toNat x) false false
            { st with stack := rest } hx0nn hinvrest hH2) heq
/-- C10: for every finite buffer and in-bounds seed, the flood fill
terminates: the fuel `3 * matchCount + 1` chosen by `draw_fill` always
suffices for the stack-driven loop to empty, because each coloured pixel
stops matching the seed's original colour (the same-colour guard having
ensured the fill colour differs from it), so `draw_fill` returns a result
rather than running out of fuel. -/
theorem c10_fill_terminates (pic : LongPicture) (sx sy : Int) (color : Nat)
    (hlen : pic.data.length = pic.width * pic.height)
    (hin : pic.inBounds sx sy) :
    (draw_fill pic (sx, sy) color).isSome := by
  have hin4 : 0 ≤ sx ∧ sx < (pic.width : Int) ∧ 0 ≤ sy ∧
      sy < (pic.height : Int) := hin
  have hg : pic.get_pixel sx sy = some (pic.pixMask sx sy) := by
    unfold LongPicture.get_pixel LongPicture.pixMask
    rw [if_pos hin]
  unfold draw_fill
  dsimp only
  rw [hg]
  dsimp only
  by_cases hc : pic.pixMask sx sy % 256 = color % 256
  · rw [if_pos hc]
    rfl
  · rw [if_neg hc]
    have hne : color % 256 ≠ pic.pixMask sx sy % 256 := fun h => hc h.symm
    have hsome := fillLoop_some (pic.pixMask sx sy % 256) color hne
      (3 * matchCount (pic.pixMask sx sy % 256) pic.data + 1)
      ⟨pic, [(sx, sy)], (pic.width : Int), 0, (pic.height : Int), 0⟩
      hlen
      (by
        intro q hq
        have hq2 : q = (sx, sy) := by simpa using hq
        subst hq2
        exact ⟨hin4.1, hin4.2.1, hin4.2.2.1, hin4.2.2.2⟩)
      (le_refl _)
    obtain ⟨st2, hst2⟩ := Option.isSome_iff_exists.mp hsome
    rw [hst2]
    rfl

/-- Witness for C10 at a concrete input: filling a 2x2 zero buffer from
seed (0,0) with colour 1 returns a result. -/
theorem c10_witness :
    (draw_fill ⟨2, 2, [0, 0, 0, 0]⟩ (0, 0) 1).isSome :=
  c10_fill_terminates ⟨2, 2, [0, 0, 0, 0]⟩ 0 0 1 (by decide) (by decide)

/-- C2: flood-fill containment.  For a well-formed buffer and an in-bounds
seed, every pixel the fill changes holds the (truncated) fill colour and
lies in the 4-connected region of pixels whose original masked value
equals the seed's original masked value `pic.pixMask sx sy`; equivalently,
every pixel outside that region keeps its prior value. -/
theorem c2_fill_containment (pic : LongPicture) (sx sy : Int) (color : Nat)
    (hlen : pic.data.length = pic.width * pic.height)
    (hin : pic.inBounds sx sy) (res : Option Rectangle) (pic2 : LongPicture)
    (hrun : draw_fill pic (sx, sy) color = some (res, pic2)) :
    ∀ o, o < pic.data.length → pic2.data.getD o 0 ≠ pic.data.getD o 0 →
      pic2.data.getD o 0 = color % wordMod ∧
      Reach pic (pic.pixMask sx sy) (sx, sy)
        (((o % pic.width : Nat) : Int), ((o / pic.width : Nat) : Int)) := by
  have hg : pic.get_pixel sx sy = some (pic.pixMask sx sy) := by
    unfold LongPicture.get_pixel LongPicture.pixMask
    rw [if_pos hin]
  unfold draw_fill at hrun
  dsimp only at hrun
  rw [hg] at hrun
  dsimp only at hrun
  have hsc : pic.pixMask sx sy % 256 = pic.pixMask sx sy := by
    unfold LongPicture.pixMask
    omega
  by_cases hc : pic.pixMask sx sy % 256 = color % 256
  · rw [if_pos hc] at hrun
    have h5 : pic = pic2 := congrArg Prod.snd (Option.some.inj hrun)
    intro o ho hchg
    rw [← h5] at hchg
    exact absurd rfl hchg
  · rw [if_neg hc] at hrun
    cases hloop : fillLoop (pic.pixMask sx sy % 256) color
        (3 * matchCount (pic.pixMask sx sy % 256) pic.data + 1)
        ⟨pic, [(sx, sy)], (pic.width : Int), 0, (pic.height : Int), 0⟩ with
    | none =>
        rw [hloop] at hrun
        exact Option.noConfusion hrun
    | some stf =>
        rw [hloop] at hrun
        dsimp only at hrun
        have hpic2 : pic2 = stf.pic :=
          (congrArg Prod.snd (Option.some.inj hrun)).symm
        have hne : color % 256 ≠ pic.pixMask sx sy % 256 := fun h => hc h.symm
        have hinv0 : fillStInv pic (sx, sy) (pic.pixMask sx sy % 256) color
            ⟨pic, [(sx, sy)], (pic.width : Int), 0, (pic.height : Int), 0⟩ := by
          unfold fillStInv
          dsimp only
          refine ⟨rfl, rfl, rfl, ?_, ?_⟩
          · intro q hq
            have hq2 : q = (sx, sy) := by simpa using hq
            subst hq2
            exact ⟨Reach.refl (sx, sy), hin⟩
          · intro o ho hchg
            exact absurd rfl hchg
        have hinvf := fillLoop_reach pic (sx, sy) (pic.pixMask sx sy % 256) color
          hne hlen (3 * matchCount (pic.pixMask sx sy % 256) pic.data + 1)
          ⟨pic, [(sx, sy)], (pic.width : Int), 0, (pic.height : Int), 0⟩ stf
          hinv0 hloop
        unfold fillStInv at hinvf
        obtain ⟨hW, hH, hL, hstk, hdata⟩ := hinvf
        intro o ho hchg
        rw [hpic2] at hchg
        have hres := hdata o ho hchg
        rw [hsc] at hres
        rw [hpic2]
        exact hres

/-- Witness for C2 at a concrete input: filling the 1x1 buffer `[0]` with
colour 1 changes offset 0, which indeed holds `1 % wordMod` and is reached
from the seed. -/
theorem c2_witness :
    (⟨1, 1, [1]⟩ : LongPicture).data.getD 0 0 = 1 % wordMod ∧
    Reach ⟨1, 1, [0]⟩ ((⟨1, 1, [0]⟩ : LongPicture).pixMask 0 0) (0, 0)
      (((0 % (⟨1, 1, [0]⟩ : LongPicture).width : Nat) : Int),
       ((0 / (⟨1, 1, [0]⟩ : LongPicture).width : Nat) : Int)) :=
  c2_fill_containment ⟨1, 1, [0]⟩ 0 0 1 (by decide) (by decide)
    (some ⟨0, 0, 1, 1⟩) ⟨1, 1, [1]⟩ (by rfl) 0 (by decide) (by decide)
theorem intersect_mem (self other : Rectangle) (px py : Int)
    (h1 : self.containsPt px py) (h2 : other.containsPt px py) :
    ∃ r, self.intersect other = some r ∧ r.containsPt px py := by
  unfold Rectangle.containsPt at h1 h2
  have htru : other.truthy = true := by
    unfold Rectangle.truthy
    rw [Bool.and_eq_true]
    constructor <;> rw [decide_eq_true_eq] <;> omega
  unfold Rectangle.intersect
  rw [if_neg (not_not_intro htru), if_neg ?hov]
  case hov =>
    unfold Rectangle.left Rectangle.right Rectangle.top Rectangle.bottom
    intro hcon
    rcases hcon with h | h | h | h <;> omega
  refine ⟨_, rfl, ?_⟩
  unfold Rectangle.containsPt Rectangle.left Rectangle.right
    Rectangle.top Rectangle.bottom
  dsimp only
  refine ⟨by omega, by omega, by omega, by omega⟩

theorem mem_pic_rect (pic : LongPicture) (o : Nat)
    (hlen : pic.data.length = pic.width * pic.height)
    (ho : o < pic.data.length) :
    pic.rect.containsPt ((o % pic.width : Nat) : Int)
      ((o / pic.width : Nat) : Int) := by
  have hW : 0 < pic.width := by
    rcases Nat.eq_zero_or_pos pic.width with h0 | h0
    · rw [h0, Nat.zero_mul] at hlen; omega
    · exact h0
  have h1 : o % pic.width < pic.width := Nat.mod_lt _ hW
  have h2 : o / pic.width < pic.height := Nat.div_lt_of_lt_mul (by omega)
  have h3 : 0 ≤ ((o / pic.width : Nat) : Int) := Int.natCast_nonneg _
  have h4 : 0 ≤ ((o % pic.width : Nat) : Int) := Int.natCast_nonneg _
  unfold LongPicture.rect Rectangle.containsPt
  dsimp only
  refine ⟨by omega, by omega, by omega, by omega⟩

/-- Characterisation of the single pixel a `set_pixel` call can change. -/
theorem set_pixel_changes (p : LongPicture) (x y : Int) (v : Nat) :
    ∀ o, o < p.data.length →
      (p.set_pixel x y v).data.getD o 0 ≠ p.data.getD o 0 →
      0 ≤ x ∧ x < (p.width : Int) ∧ 0 ≤ y ∧ y < (p.height : Int) ∧
      ((o % p.width : Nat) : Int) = x ∧ ((o / p.width : Nat) : Int) = y := by
  intro o ho hchg
  by_cases hin : p.inBounds x y
  · have hin4 : 0 ≤ x ∧ x < (p.width : Int) ∧ 0 ≤ y ∧ y < (p.height : Int) := hin
    have hd : (p.set_pixel x y v).data =
        p.data.set (p.width * y.toNat + x.toNat) (v % wordMod) :=
      set_pixel_data_int p x y v hin4.1 hin4.2.1 hin4.2.2.1 hin4.2.2.2
    rw [hd, getD_set] at hchg
    by_cases heq : p.width * y.toNat + x.toNat = o ∧
        p.width * y.toNat + x.toNat < p.data.length
    · have hxnW : x.toNat < p.width := by omega
      have ho1 : o % p.width = x.toNat := by
        rw [← heq.1, Nat.mul_add_mod, Nat.mod_eq_of_lt hxnW]
      have ho2 : o / p.width = y.toNat := by
        rw [← heq.1, Nat.mul_add_div (show 0 < p.width by omega),
          Nat.div_eq_of_lt hxnW]
        omega
      refine ⟨hin4.1, hin4.2.1, hin4.2.2.1, hin4.2.2.2, ?_, ?_⟩
      · rw [ho1]; omega
      · rw [ho2]; omega
    · rw [if_neg heq] at hchg
      exact absurd rfl hchg
  · unfold LongPicture.set_pixel at hchg
    rw [if_neg hin] at hchg
    exact absurd rfl hchg
theorem pasteCols_writes (pic : LongPicture) (x y2 : Int) (y1off : Nat)
    (mask colorize : Bool) (color : Nat) (W H L : Nat) :
    ∀ (cnt x1 : Nat) (acc : LongPicture), acc.width = W → acc.height = H →
      acc.data.length = L →
      (pasteCols pic x y2 y1off mask colorize color cnt x1 acc).width = W ∧
      (pasteCols pic x y2 y1off mask colorize color cnt x1 acc).height = H ∧
      (pasteCols pic x y2 y1off mask colorize color cnt x1 acc).data.length = L ∧
      ∀ o, o < L →
        (pasteCols pic x y2 y1off mask colorize color cnt x1 acc).data.getD o 0 ≠
          acc.data.getD o 0 →
        x + (x1 : Int) ≤ ((o % W : Nat) : Int) ∧
        ((o % W : Nat) : Int) < x + (x1 : Int) + (cnt : Int) ∧
        ((o / W : Nat) : Int) = y2 := by
  intro cnt
  induction cnt with
  | zero =>
      intro x1 acc hW hH hL
      unfold pasteCols
      exact ⟨hW, hH, hL, fun o ho hchg => absurd rfl hchg⟩
  | succ n ih =>
      intro x1 acc hW hH hL
      unfold pasteCols
      by_cases hneg : x + (x1 : Int) < 0
      · rw [if_pos hneg]
        obtain ⟨I1, I2, I3, I4⟩ := ih (x1 + 1) acc hW hH hL
        refine ⟨I1, I2, I3, fun o ho hchg => ?_⟩
        have := I4 o ho hchg
        push_cast at this ⊢
        refine ⟨by omega, by omega, this.2.2⟩
      · rw [if_neg hneg]
        by_cases hbig : (acc.width : Int) ≤ x + (x1 : Int)
        · rw [if_pos hbig]
          exact ⟨hW, hH, hL, fun o ho hchg => absurd rfl hchg⟩
        · rw [if_neg hbig]
          dsimp only
          set acc1 := (if !mask || (pic.data.getD (y1off + x1) 0) / 2 ^ 24 ≠ 0 then
            (if colorize then acc.set_pixel (x + (x1 : Int)) y2 (rgba_to_32bit color 0 0 255)
             else acc.set_pixel (x + (x1 : Int)) y2 (pic.data.getD (y1off + x1) 0))
            else acc) with hacc1
          have hstep : acc1.width = W ∧ acc1.height = H ∧ acc1.data.length = L ∧
              ∀ o, o < L → acc1.data.getD o 0 ≠ acc.data.getD o 0 →
                ((o % W : Nat) : Int) = x + (x1 : Int) ∧
                ((o / W : Nat) : Int) = y2 := by
            rw [hacc1]
            split_ifs
            · have hd := set_pixel_dims acc (x + (x1 : Int)) y2 (rgba_to_32bit color 0 0 255)
              refine ⟨by rw [hd.1, hW], by rw [hd.2.1, hH], by rw [hd.2.2, hL], ?_⟩
              intro o ho hchg
              have hc := set_pixel_changes acc (x + (x1 : Int)) y2 _ o (by omega) hchg
              rw [hW] at hc
              exact ⟨hc.2.2.2.2.1, hc.2.2.2.2.2⟩
            · have hd := set_pixel_dims acc (x + (x1 : Int)) y2 (pic.data.getD (y1off + x1) 0)
              refine ⟨by rw [hd.1, hW], by rw [hd.2.1, hH], by rw [hd.2.2, hL], ?_⟩
              intro o ho hchg
              have hc := set_pixel_changes acc (x + (x1 : Int)) y2 _ o (by omega) hchg
              rw [hW] at hc
              exact ⟨hc.2.2.2.2.1, hc.2.2.2.2.2⟩
            · exact ⟨hW, hH, hL, fun o ho hchg => absurd rfl hchg⟩
          obtain ⟨S1, S2, S3, S4⟩ := hstep
          obtain ⟨I1, I2, I3, I4⟩ := ih (x1 + 1) acc1 S1 S2 S3
          refine ⟨I1, I2, I3, fun o ho hchg => ?_⟩
          by_cases hmid : (pasteCols pic x y2 y1off mask colorize color n (x1 + 1)
              acc1).data.getD o 0 = acc1.data.getD o 0
          · have h5 := S4 o ho (by rw [← hmid]; exact hchg)
            push_cast
            omega
          · have h6 := I4 o ho hmid
            push_cast at h6 ⊢
            refine ⟨by omega, by omega, h6.2.2⟩

theorem pasteRows_writes (pic : LongPicture) (x y : Int) (w : Nat)
    (mask colorize : Bool) (color : Nat) (W H L : Nat) :
    ∀ (cnt y1 offset1 : Nat) (acc : LongPicture), acc.width = W → acc.height = H →
      acc.data.length = L →
      (pasteRows pic x y w mask colorize color cnt y1 offset1 acc).width = W ∧
      (pasteRows pic x y w mask colorize color cnt y1 offset1 acc).height = H ∧
      (pasteRows pic x y w mask colorize color cnt y1 offset1 acc).data.length = L ∧
      ∀ o, o < L →
        (pasteRows pic x y w mask colorize color cnt y1 offset1 acc).data.getD o 0 ≠
          acc.data.getD o 0 →
        x ≤ ((o % W : Nat) : Int) ∧ ((o % W : Nat) : Int) < x + (w : Int) ∧
        y + (y1 : Int) ≤ ((o / W : Nat) : Int) ∧
        ((o / W : Nat) : Int) < y + (y1 : Int) + (cnt : Int) := by
  intro cnt
  induction cnt with
  | zero =>
      intro y1 offset1 acc hW hH hL
      unfold pasteRows
      exact ⟨hW, hH, hL, fun o ho hchg => absurd rfl hchg⟩
  | succ n ih =>
      intro y1 offset1 acc hW hH hL
      unfold pasteRows
      by_cases hneg : y + (y1 : Int) < 0
      · rw [if_pos hneg]
        obtain ⟨I1, I2, I3, I4⟩ := ih (y1 + 1) (offset1 + w) acc hW hH hL
        refine ⟨I1, I2, I3, fun o ho hchg => ?_⟩
        have := I4 o ho hchg
        push_cast at this ⊢
        refine ⟨this.1, this.2.1, by omega, by omega⟩
      · rw [if_neg hneg]
        by_cases hbig : (acc.height : Int) ≤ y + (y1 : Int)
        · rw [if_pos hbig]
          exact ⟨hW, hH, hL, fun o ho hchg => absurd rfl hchg⟩
        · rw [if_neg hbig]
          obtain ⟨S1, S2, S3, S4⟩ := pasteCols_writes pic x (y + (y1 : Int)) offset1
            mask colorize color W H L w 0 acc hW hH hL
          obtain ⟨I1, I2, I3, I4⟩ := ih (y1 + 1) (offset1 + w)
            (pasteCols pic x (y + (y1 : Int)) offset1 mask colorize color w 0 acc)
            S1 S2 S3
          refine ⟨I1, I2, I3, fun o ho hchg => ?_⟩
          by_cases hmid : (pasteRows pic x y w mask colorize color n (y1 + 1) (offset1 + w)
              (pasteCols pic x (y + (y1 : Int)) offset1 mask colorize color w 0 acc)).data.getD o 0 =
              (pasteCols pic x (y + (y1 : Int)) offset1 mask colorize color w 0 acc).data.getD o 0
          · have h5 := S4 o ho (by rw [← hmid]; exact hchg)
            push_cast at h5 ⊢
            refine ⟨by omega, by omega, by omega, by omega⟩
          · have h6 := I4 o ho hmid
            push_cast at h6 ⊢
            refine ⟨h6.1, h6.2.1, by omega, by omega⟩

/-- Containment of `paste`: dimensions are preserved and every changed
pixel lies in the brush-sized box at `(x, y)`. -/
theorem paste_writes (self br : LongPicture) (x y : Int) (mask colorize : Bool)
    (color : Nat) :
    (self.paste br x y mask colorize color).width = self.width ∧
    (self.paste br x y mask colorize color).height = self.height ∧
    (self.paste br x y mask colorize color).data.length = self.data.length ∧
    ∀ o, o < self.data.length →
      (self.paste br x y mask colorize color).data.getD o 0 ≠ self.data.getD o 0 →
      x ≤ ((o % self.width : Nat) : Int) ∧
      ((o % self.width : Nat) : Int) < x + (br.width : Int) ∧
      y ≤ ((o / self.width : Nat) : Int) ∧
      ((o / self.width : Nat) : Int) < y + (br.height : Int) := by
  obtain ⟨I1, I2, I3, I4⟩ := pasteRows_writes br x y br.width mask colorize color
    self.width self.height self.data.length br.height 0 0 self rfl rfl rfl
  refine ⟨I1, I2, I3, fun o ho hchg => ?_⟩
  have := I4 o ho hchg
  push_cast at this
  exact ⟨this.1, this.2.1, by omega, by omega⟩
theorem bres_no_x_overshoot (dx dy u v err : Int) (hdx : 0 ≤ dx) (hdy : dy ≤ 0)
    (hv0 : 0 ≤ v) (hv1 : v ≤ -dy - 1) (hu : u = dx)
    (herr : err = dx + dy + u * dy + v * dx) : 2 * err < dy := by
  have h1 : v * dx ≤ (-dy - 1) * dx := mul_le_mul_of_nonneg_right hv1 hdx
  have h2 : dx + dy + dx * dy + (-dy - 1) * dx = dy := by ring
  have h3 : u * dy = dx * dy := by rw [hu]
  omega

theorem bres_no_y_overshoot (dx dy u v err : Int) (hdx : 0 ≤ dx) (hdy : dy ≤ 0)
    (hu0 : 0 ≤ u) (hu1 : u ≤ dx - 1) (hv : v = -dy)
    (herr : err = dx + dy + u * dy + v * dx) : dx < 2 * err := by
  have h1 : (dx - 1) * dy ≤ u * dy := mul_le_mul_of_nonpos_right hu1 hdy
  have h2 : dx + dy + (dx - 1) * dy + (-dy) * dx = dx := by ring
  have h3 : v * dx = (-dy) * dx := by rw [hv]
  omega

theorem lineLoop_writes (brush : Option LongPicture) (color step : Nat)
    (x0 y0 xe ye sx sy dx dy : Int) (W H L : Nat) (bw bh : Int)
    (hdx : 0 ≤ dx) (hdy : dy ≤ 0)
    (hsx : sx = 1 ∨ sx = -1) (hsy : sy = 1 ∨ sy = -1)
    (hxe : xe = x0 + sx * dx) (hye : ye = y0 + sy * (-dy))
    (hbw : (match brush with | some br => ((br.width : Nat) : Int) | none => 1) = bw)
    (hbh : (match brush with | some br => ((br.height : Nat) : Int) | none => 1) = bh) :
    ∀ (fuel : Nat) (x y err : Int) (i : Nat) (pic : LongPicture),
      pic.width = W → pic.height = H → pic.data.length = L →
      0 ≤ sx * (x - x0) → sx * (x - x0) ≤ dx →
      0 ≤ sy * (y - y0) → sy * (y - y0) ≤ -dy →
      err = dx + dy + (sx * (x - x0)) * dy + (sy * (y - y0)) * dx →
      (lineLoop brush color step xe ye sx sy dx dy fuel x y err i pic).width = W ∧
      (lineLoop brush color step xe ye sx sy dx dy fuel x y err i pic).height = H ∧
      (lineLoop brush color step xe ye sx sy dx dy fuel x y err i pic).data.length = L ∧
      ∀ o, o < L →
        (lineLoop brush color step xe ye sx sy dx dy fuel x y err i pic).data.getD o 0 ≠
          pic.data.getD o 0 →
        min x0 xe ≤ ((o % W : Nat) : Int) ∧ ((o % W : Nat) : Int) < min x0 xe + dx + bw ∧ min y0 ye ≤ ((o / W : Nat) : Int) ∧ ((o / W : Nat) : Int) < min y0 ye + (-dy) + bh := by
  intro fuel
  induction fuel with
  | zero =>
      intro x y err i pic hW hH hL hu0 hu1 hv0 hv1 herr
      unfold lineLoop
      exact ⟨hW, hH, hL, fun o ho h => absurd rfl h⟩
  | succ n ih =>
      intro x y err i pic hW hH hL hu0 hu1 hv0 hv1 herr
      unfold lineLoop
      have hsx2 : sx * sx = 1 := by rcases hsx with rfl | rfl <;> norm_num
      have hsy2 : sy * sy = 1 := by rcases hsy with rfl | rfl <;> norm_num
      have huinc : sx * (x + sx - x0) = sx * (x - x0) + 1 := by
        have h : sx * (x + sx - x0) = sx * (x - x0) + sx * sx := by ring
        rw [h, hsx2]
      have hvinc : sy * (y + sy - y0) = sy * (y - y0) + 1 := by
        have h : sy * (y + sy - y0) = sy * (y - y0) + sy * sy := by ring
        rw [h, hsy2]
      have hstopx : sx * (x - x0) = dx → x = xe := by
        intro h
        rcases hsx with rfl | rfl <;> omega
      have hstopy : sy * (y - y0) = -dy → y = ye := by
        intro h
        rcases hsy with rfl | rfl <;> omega
      have hu2 : 2 * err ≥ dy → ¬(x = xe ∧ y = ye) → sx * (x + sx - x0) ≤ dx := by
        intro hxs hstop
        rw [huinc]
        by_contra hcon
        push_neg at hcon
        have hueq : sx * (x - x0) = dx := by omega
        have hvne : sy * (y - y0) ≤ -dy - 1 := by
          by_contra hc2
          push_neg at hc2
          exact hstop ⟨hstopx hueq, hstopy (by omega)⟩
        have hkey := bres_no_x_overshoot dx dy (sx * (x - x0)) (sy * (y - y0)) err
          hdx hdy hv0 hvne hueq herr
        omega
      have hv2 : 2 * err ≤ dx → ¬(x = xe ∧ y = ye) → sy * (y + sy - y0) ≤ -dy := by
        intro hys hstop
        rw [hvinc]
        by_contra hcon
        push_neg at hcon
        have hveq : sy * (y - y0) = -dy := by omega
        have hune : sx * (x - x0) ≤ dx - 1 := by
          by_contra hc2
          push_neg at hc2
          exact hstop ⟨hstopx (by omega), hstopy hveq⟩
        have hkey := bres_no_y_overshoot dx dy (sx * (x - x0)) (sy * (y - y0)) err
          hdx hdy hu0 hune hveq herr
        omega
      have herrAA : err + dy + dx =
          dx + dy + (sx * (x + sx - x0)) * dy + (sy * (y + sy - y0)) * dx := by
        rw [huinc, hvinc]
        have h1 : (sx * (x - x0) + 1) * dy = (sx * (x - x0)) * dy + dy := by ring
        have h2 : (sy * (y - y0) + 1) * dx = (sy * (y - y0)) * dx + dx := by ring
        omega
      have herrAX : err + dy =
          dx + dy + (sx * (x + sx - x0)) * dy + (sy * (y - y0)) * dx := by
        rw [huinc]
        have h1 : (sx * (x - x0) + 1) * dy = (sx * (x - x0)) * dy + dy := by ring
        omega
      have herrYA : err + dx =
          dx + dy + (sx * (x - x0)) * dy + (sy * (y + sy - y0)) * dx := by
        rw [hvinc]
        have h2 : (sy * (y - y0) + 1) * dx = (sy * (y - y0)) * dx + dx := by ring
        omega
      have hxlo : min x0 xe ≤ x ∧ x ≤ min x0 xe + dx := by
        rcases hsx with rfl | rfl <;> omega
      have hylo : min y0 ye ≤ y ∧ y ≤ min y0 ye + (-dy) := by
        rcases hsy with rfl | rfl <;> omega
      have cont : ∀ (x1 y1 err1 : Int) (i1 : Nat) (pic1 : LongPicture),
          pic1.width = W → pic1.height = H → pic1.data.length = L →
          (∀ o, o < L → pic1.data.getD o 0 ≠ pic.data.getD o 0 → min x0 xe ≤ ((o % W : Nat) : Int) ∧ ((o % W : Nat) : Int) < min x0 xe + dx + bw ∧ min y0 ye ≤ ((o / W : Nat) : Int) ∧ ((o / W : Nat) : Int) < min y0 ye + (-dy) + bh) →
          0 ≤ sx * (x1 - x0) → sx * (x1 - x0) ≤ dx →
          0 ≤ sy * (y1 - y0) → sy * (y1 - y0) ≤ -dy →
          err1 = dx + dy + (sx * (x1 - x0)) * dy + (sy * (y1 - y0)) * dx →
          (lineLoop brush color step xe ye sx sy dx dy n x1 y1 err1 i1 pic1).width = W ∧
          (lineLoop brush color step xe ye sx sy dx dy n x1 y1 err1 i1 pic1).height = H ∧
          (lineLoop brush color step xe ye sx sy dx dy n x1 y1 err1 i1 pic1).data.length = L ∧
          ∀ o, o < L →
            (lineLoop brush color step xe ye sx sy dx dy n x1 y1 err1 i1 pic1).data.getD o 0 ≠
              pic.data.getD o 0 → min x0 xe ≤ ((o % W : Nat) : Int) ∧ ((o % W : Nat) : Int) < min x0 xe + dx + bw ∧ min y0 ye ≤ ((o / W : Nat) : Int) ∧ ((o / W : Nat) : Int) < min y0 ye + (-dy) + bh := by
        intro x1 y1 err1 i1 pic1 hB1 hB2 hB3 hB4 k1 k2 k3 k4 k5
        obtain ⟨I1, I2, I3, I4⟩ := ih x1 y1 err1 i1 pic1 hB1 hB2 hB3 k1 k2 k3 k4 k5
        refine ⟨I1, I2, I3, fun o ho hchg => ?_⟩
        by_cases hmid : (lineLoop brush color step xe ye sx sy dx dy n x1 y1 err1
            i1 pic1).data.getD o 0 = pic1.data.getD o 0
        · exact hB4 o ho (by rw [← hmid]; exact hchg)
        · exact I4 o ho hmid
      by_cases hi : i % step = 0
      · rw [if_pos hi]
        rcases brush with _ | br
        · dsimp only
          by_cases hib : 0 ≤ x ∧ x < (pic.width : Int) ∧ 0 ≤ y ∧ y < (pic.height : Int)
          · rw [if_pos hib]
            dsimp only
            have hbw1 : (1 : Int) = bw := hbw
            have hbh1 : (1 : Int) = bh := hbh
            have hd := set_pixel_dims pic x y color
            have hB1 : (pic.set_pixel x y color).width = W := by rw [hd.1, hW]
            have hB2 : (pic.set_pixel x y color).height = H := by rw [hd.2.1, hH]
            have hB3 : (pic.set_pixel x y color).data.length = L := by rw [hd.2.2, hL]
            have hB4 : ∀ o, o < L →
                (pic.set_pixel x y color).data.getD o 0 ≠ pic.data.getD o 0 → min x0 xe ≤ ((o % W : Nat) : Int) ∧ ((o % W : Nat) : Int) < min x0 xe + dx + bw ∧ min y0 ye ≤ ((o / W : Nat) : Int) ∧ ((o / W : Nat) : Int) < min y0 ye + (-dy) + bh := by
              intro o ho hchg
              have hc := set_pixel_changes pic x y color o (by omega) hchg
              rw [hW] at hc
              obtain ⟨hc1, hc2, hc3, hc4, hpx, hpy⟩ := hc
              rw [hpx, hpy]
              refine ⟨by omega, by omega, by omega, by omega⟩
            by_cases hstop : x = xe ∧ y = ye
            · rw [if_pos hstop]
              exact ⟨hB1, hB2, hB3, hB4⟩
            · rw [if_neg hstop]
              by_cases hxs : 2 * err ≥ dy
              · rw [if_pos hxs]
                dsimp only
                by_cases hys : 2 * err ≤ dx
                · rw [if_pos hys]
                  dsimp only
                  exact cont (x + sx) (y + sy) (err + dy + dx) _ _ hB1 hB2 hB3 hB4
                    (by rw [huinc]; omega) (hu2 hxs hstop) (by rw [hvinc]; omega)
                    (hv2 hys hstop) herrAA
                · rw [if_neg hys]
                  dsimp only
                  exact cont (x + sx) y (err + dy) _ _ hB1 hB2 hB3 hB4
                    (by rw [huinc]; omega) (hu2 hxs hstop) hv0 hv1 herrAX
              · rw [if_neg hxs]
                dsimp only
                by_cases hys : 2 * err ≤ dx
                · rw [if_pos hys]
                  dsimp only
                  exact cont x (y + sy) (err + dx) _ _ hB1 hB2 hB3 hB4
                    hu0 hu1 (by rw [hvinc]; omega) (hv2 hys hstop) herrYA
                · rw [if_neg hys]
                  dsimp only
                  exact cont x y err _ _ hB1 hB2 hB3 hB4 hu0 hu1 hv0 hv1 herr

          · rw [if_neg hib]
            dsimp only
            have hB1 := hW
            have hB2 := hH
            have hB3 := hL
            have hB4 : ∀ o, o < L → pic.data.getD o 0 ≠ pic.data.getD o 0 → min x0 xe ≤ ((o % W : Nat) : Int) ∧ ((o % W : Nat) : Int) < min x0 xe + dx + bw ∧ min y0 ye ≤ ((o / W : Nat) : Int) ∧ ((o / W : Nat) : Int) < min y0 ye + (-dy) + bh :=
              fun o ho h => absurd rfl h

            by_cases hstop : x = xe ∧ y = ye
            · rw [if_pos hstop]
              exact ⟨hB1, hB2, hB3, hB4⟩
            · rw [if_neg hstop]
              by_cases hxs : 2 * err ≥ dy
              · rw [if_pos hxs]
                dsimp only
                by_cases hys : 2 * err ≤ dx
                · rw [if_pos hys]
                  dsimp only
                  exact cont (x + sx) (y + sy) (err + dy + dx) _ _ hB1 hB2 hB3 hB4
                    (by rw [huinc]; omega) (hu2 hxs hstop) (by rw [hvinc]; omega)
                    (hv2 hys hstop) herrAA
                · rw [if_neg hys]
                  dsimp only
                  exact cont (x + sx) y (err + dy) _ _ hB1 hB2 hB3 hB4
                    (by rw [huinc]; omega) (hu2 hxs hstop) hv0 hv1 herrAX
              · rw [if_neg hxs]
                dsimp only
                by_cases hys : 2 * err ≤ dx
                · rw [if_pos hys]
                  dsimp only
                  exact cont x (y + sy) (err + dx) _ _ hB1 hB2 hB3 hB4
                    hu0 hu1 (by rw [hvinc]; omega) (hv2 hys hstop) herrYA
                · rw [if_neg hys]
                  dsimp only
                  exact cont x y err _ _ hB1 hB2 hB3 hB4 hu0 hu1 hv0 hv1 herr

        · dsimp only
          have hbw1 : ((br.width : Nat) : Int) = bw := hbw
          have hbh1 : ((br.height : Nat) : Int) = bh := hbh
          have hpw := paste_writes pic br x y true false 0
          have hB1 : (pic.paste br x y true false 0).width = W := by rw [hpw.1, hW]
          have hB2 : (pic.paste br x y true false 0).height = H := by rw [hpw.2.1, hH]
          have hB3 : (pic.paste br x y true false 0).data.length = L := by
            rw [hpw.2.2.1, hL]
          have hB4 : ∀ o, o < L →
              (pic.paste br x y true false 0).data.getD o 0 ≠ pic.data.getD o 0 → min x0 xe ≤ ((o % W : Nat) : Int) ∧ ((o % W : Nat) : Int) < min x0 xe + dx + bw ∧ min y0 ye ≤ ((o / W : Nat) : Int) ∧ ((o / W : Nat) : Int) < min y0 ye + (-dy) + bh := by
            intro o ho hchg
            have hc := hpw.2.2.2 o (by omega) hchg
            rw [hW] at hc
            obtain ⟨hc1, hc2, hc3, hc4⟩ := hc
            refine ⟨by omega, by omega, by omega, by omega⟩
          by_cases hstop : x = xe ∧ y = ye
          · rw [if_pos hstop]
            exact ⟨hB1, hB2, hB3, hB4⟩
          · rw [if_neg hstop]
            by_cases hxs : 2 * err ≥ dy
            · rw [if_pos hxs]
              dsimp only
              by_cases hys : 2 * err ≤ dx
              · rw [if_pos hys]
                dsimp only
                exact cont (x + sx) (y + sy) (err + dy + dx) _ _ hB1 hB2 hB3 hB4
                  (by rw [huinc]; omega) (hu2 hxs hstop) (by rw [hvinc]; omega)
                  (hv2 hys hstop) herrAA
              · rw [if_neg hys]
                dsimp only
                exact cont (x + sx) y (err + dy) _ _ hB1 hB2 hB3 hB4
                  (by rw [huinc]; omega) (hu2 hxs hstop) hv0 hv1 herrAX
            · rw [if_neg hxs]
              dsimp only
              by_cases hys : 2 * err ≤ dx
              · rw [if_pos hys]
                dsimp only
                exact cont x (y + sy) (err + dx) _ _ hB1 hB2 hB3 hB4
                  hu0 hu1 (by rw [hvinc]; omega) (hv2 hys hstop) herrYA
              · rw [if_neg hys]
                dsimp only
                exact cont x y err _ _ hB1 hB2 hB3 hB4 hu0 hu1 hv0 hv1 herr

      · rw [if_neg hi]
        dsimp only
        have hB1 := hW
        have hB2 := hH
        have hB3 := hL
        have hB4 : ∀ o, o < L → pic.data.getD o 0 ≠ pic.data.getD o 0 → min x0 xe ≤ ((o % W : Nat) : Int) ∧ ((o % W : Nat) : Int) < min x0 xe + dx + bw ∧ min y0 ye ≤ ((o / W : Nat) : Int) ∧ ((o / W : Nat) : Int) < min y0 ye + (-dy) + bh :=
          fun o ho h => absurd rfl h

        by_cases hstop : x = xe ∧ y = ye
        · rw [if_pos hstop]
          exact ⟨hB1, hB2, hB3, hB4⟩
        · rw [if_neg hstop]
          by_cases hxs : 2 * err ≥ dy
          · rw [if_pos hxs]
            dsimp only
            by_cases hys : 2 * err ≤ dx
            · rw [if_pos hys]
              dsimp only
              exact cont (x + sx) (y + sy) (err + dy + dx) _ _ hB1 hB2 hB3 hB4
                (by rw [huinc]; omega) (hu2 hxs hstop) (by rw [hvinc]; omega)
                (hv2 hys hstop) herrAA
            · rw [if_neg hys]
              dsimp only
              exact cont (x + sx) y (err + dy) _ _ hB1 hB2 hB3 hB4
                (by rw [huinc]; omega) (hu2 hxs hstop) hv0 hv1 herrAX
          · rw [if_neg hxs]
            dsimp only
            by_cases hys : 2 * err ≤ dx
            · rw [if_pos hys]
              dsimp only
              exact cont x (y + sy) (err + dx) _ _ hB1 hB2 hB3 hB4
                hu0 hu1 (by rw [hvinc]; omega) (hv2 hys hstop) herrYA
            · rw [if_neg hys]
              dsimp only
              exact cont x y err _ _ hB1 hB2 hB3 hB4 hu0 hu1 hv0 hv1 herr

/-- Containment of `draw_line`: dimensions are preserved and every changed
pixel lies in the path's brush-expanded bounding box (the rectangle the
function intersects with the picture bounds before returning). -/
theorem draw_line_writes (pic : LongPicture) (x0 y0 xe ye : Int)
    (brush : Option LongPicture) (color step : Nat) :
    (draw_line pic (x0, y0) (xe, ye) brush color step).2.width = pic.width ∧
    (draw_line pic (x0, y0) (xe, ye) brush color step).2.height = pic.height ∧
    (draw_line pic (x0, y0) (xe, ye) brush color step).2.data.length = pic.data.length ∧
    ∀ o, o < pic.data.length →
      (draw_line pic (x0, y0) (xe, ye) brush color step).2.data.getD o 0 ≠
        pic.data.getD o 0 →
      min x0 xe ≤ ((o % pic.width : Nat) : Int) ∧
      ((o % pic.width : Nat) : Int) < min x0 xe + (((xe - x0).natAbs : Nat) : Int) +
        (match brush with | some br => ((br.width : Nat) : Int) | none => 1) ∧
      min y0 ye ≤ ((o / pic.width : Nat) : Int) ∧
      ((o / pic.width : Nat) : Int) < min y0 ye + (((ye - y0).natAbs : Nat) : Int) +
        (match brush with | some br => ((br.height : Nat) : Int) | none => 1) := by
  rcases brush with _ | br
  · dsimp only
    unfold draw_line
    dsimp only
    have H := lineLoop_writes none (rgb_to_32bit color 0 0) step x0 y0 xe ye
      (if x0 < xe then 1 else -1) (if y0 < ye then 1 else -1)
      (((xe - x0).natAbs : Nat) : Int) (-(((ye - y0).natAbs : Nat) : Int))
      pic.width pic.height pic.data.length 1 1
      (Int.natCast_nonneg _) (by omega)
      (by split_ifs <;> simp) (by split_ifs <;> simp)
      (by split_ifs <;> omega) (by split_ifs <;> omega)
      rfl rfl
      ((((xe - x0).natAbs : Nat) : Int).toNat +
        (-(-(((ye - y0).natAbs : Nat) : Int))).toNat + 1)
      x0 y0 ((((xe - x0).natAbs : Nat) : Int) + -(((ye - y0).natAbs : Nat) : Int))
      0 pic rfl rfl rfl
      (by
        have h : (if x0 < xe then (1 : Int) else -1) * (x0 - x0) = 0 := by ring
        omega)
      (by
        have h : (if x0 < xe then (1 : Int) else -1) * (x0 - x0) = 0 := by ring
        omega)
      (by
        have h : (if y0 < ye then (1 : Int) else -1) * (y0 - y0) = 0 := by ring
        omega)
      (by
        have h : (if y0 < ye then (1 : Int) else -1) * (y0 - y0) = 0 := by ring
        omega)
      (by
        have h1 : ((if x0 < xe then (1 : Int) else -1) * (x0 - x0)) *
            (-(((ye - y0).natAbs : Nat) : Int)) = 0 := by ring
        have h2 : ((if y0 < ye then (1 : Int) else -1) * (y0 - y0)) *
            (((xe - x0).natAbs : Nat) : Int) = 0 := by ring
        omega)
    refine ⟨H.1, H.2.1, H.2.2.1, fun o ho hc => ?_⟩
    obtain ⟨m1, m2, m3, m4⟩ := H.2.2.2 o ho hc
    exact ⟨m1, m2, m3, by omega⟩
  · dsimp only
    unfold draw_line
    dsimp only
    have H := lineLoop_writes (some br) (rgb_to_32bit color 0 0) step x0 y0 xe ye
      (if x0 < xe then 1 else -1) (if y0 < ye then 1 else -1)
      (((xe - x0).natAbs : Nat) : Int) (-(((ye - y0).natAbs : Nat) : Int))
      pic.width pic.height pic.data.length ((br.width : Nat) : Int)
      ((br.height : Nat) : Int)
      (Int.natCast_nonneg _) (by omega)
      (by split_ifs <;> simp) (by split_ifs <;> simp)
      (by split_ifs <;> omega) (by split_ifs <;> omega)
      rfl rfl
      ((((xe - x0).natAbs : Nat) : Int).toNat +
        (-(-(((ye - y0).natAbs : Nat) : Int))).toNat + 1)
      x0 y0 ((((xe - x0).natAbs : Nat) : Int) + -(((ye - y0).natAbs : Nat) : Int))
      0 pic rfl rfl rfl
      (by
        have h : (if x0 < xe then (1 : Int) else -1) * (x0 - x0) = 0 := by ring
        omega)
      (by
        have h : (if x0 < xe then (1 : Int) else -1) * (x0 - x0) = 0 := by ring
        omega)
      (by
        have h : (if y0 < ye then (1 : Int) else -1) * (y0 - y0) = 0 := by ring
        omega)
      (by
        have h : (if y0 < ye then (1 : Int) else -1) * (y0 - y0) = 0 := by ring
        omega)
      (by
        have h1 : ((if x0 < xe then (1 : Int) else -1) * (x0 - x0)) *
            (-(((ye - y0).natAbs : Nat) : Int)) = 0 := by ring
        have h2 : ((if y0 < ye then (1 : Int) else -1) * (y0 - y0)) *
            (((xe - x0).natAbs : Nat) : Int) = 0 := by ring
        omega)
    refine ⟨H.1, H.2.1, H.2.2.1, fun o ho hc => ?_⟩
    obtain ⟨m1, m2, m3, m4⟩ := H.2.2.2 o ho hc
    exact ⟨m1, m2, m3, by omega⟩
/-- Transitivity of change tracking: if every pixel changed from `d0` to
`dA` satisfies `P` and likewise from `dA` to `dB`, then so does every
pixel changed from `d0` to `dB`. -/
theorem changed_trans (L : Nat) (P : Nat → Prop) (d0 dA dB : List Nat)
    (hA : ∀ o, o < L → dA.getD o 0 ≠ d0.getD o 0 → P o)
    (hB : ∀ o, o < L → dB.getD o 0 ≠ dA.getD o 0 → P o) :
    ∀ o, o < L → dB.getD o 0 ≠ d0.getD o 0 → P o := by
  intro o ho hchg
  by_cases hmid : dB.getD o 0 = dA.getD o 0
  · exact hA o ho (by rw [← hmid]; exact hchg)
  · exact hB o ho hmid

theorem rectFillLoop_dims (x0 w : Int) (color step : Nat) :
    ∀ (cnt : Nat) (i : Int) (pic : LongPicture),
      (rectFillLoop x0 w color step cnt i pic).width = pic.width ∧
      (rectFillLoop x0 w color step cnt i pic).height = pic.height ∧
      (rectFillLoop x0 w color step cnt i pic).data.length = pic.data.length := by
  intro cnt
  induction cnt with
  | zero =>
      intro i pic
      unfold rectFillLoop
      exact ⟨rfl, rfl, rfl⟩
  | succ n ih =>
      intro i pic
      unfold rectFillLoop
      have hdl := draw_line_writes pic x0 i (x0 + w) i none color step
      obtain ⟨I1, I2, I3⟩ := ih (i + 1) (draw_line pic (x0, i) (x0 + w, i) none color step).2
      exact ⟨by rw [I1, hdl.1], by rw [I2, hdl.2.1], by rw [I3, hdl.2.2.1]⟩

/-- Dimension preservation of `draw_rectangle` (its writes go through
`draw_line`, which clips to the buffer). -/
theorem draw_rectangle_dims (pic : LongPicture) (x0 y0 w0 h0 : Int)
    (brush : Option LongPicture) (color : Nat) (fill : Bool) (step : Nat) :
    (draw_rectangle pic (x0, y0) (w0, h0) brush color fill step).2.width = pic.width ∧
    (draw_rectangle pic (x0, y0) (w0, h0) brush color fill step).2.height = pic.height ∧
    (draw_rectangle pic (x0, y0) (w0, h0) brush color fill step).2.data.length =
      pic.data.length := by
  unfold draw_rectangle
  dsimp only
  by_cases hf : fill = true
  · rw [if_pos hf]
    exact rectFillLoop_dims x0
      (min ((pic.width : Int) - max 0 x0) (w0 - (max 0 x0 - x0))) color step
      (min (max 0 y0 + min ((pic.height : Int) - max 0 y0) (h0 - (max 0 y0 - y0)))
        (pic.height : Int) - max 0 y0).toNat (max 0 y0) pic
  · rw [if_neg hf]
    have h1 := draw_line_writes pic x0 y0 (x0 + w0) y0 brush color step
    have h2 := draw_line_writes (draw_line pic (x0, y0) (x0 + w0, y0) brush color step).2
      (x0 + w0) y0 (x0 + w0) (y0 + h0) brush color step
    have h3 := draw_line_writes (draw_line (draw_line pic (x0, y0) (x0 + w0, y0)
        brush color step).2 (x0 + w0, y0) (x0 + w0, y0 + h0) brush color step).2
      (x0 + w0) (y0 + h0) x0 (y0 + h0) brush color step
    have h4 := draw_line_writes (draw_line (draw_line (draw_line pic (x0, y0)
        (x0 + w0, y0) brush color step).2 (x0 + w0, y0) (x0 + w0, y0 + h0)
        brush color step).2 (x0 + w0, y0 + h0) (x0, y0 + h0) brush color step).2
      x0 (y0 + h0) x0 y0 brush color step
    exact ⟨by rw [h4.1, h3.1, h2.1, h1.1], by rw [h4.2.1, h3.2.1, h2.2.1, h1.2.1],
      by rw [h4.2.2.1, h3.2.2.1, h2.2.2.1, h1.2.2.1]⟩
theorem ellipseStamp_writes (pic : LongPicture) (brush : Option LongPicture)
    (bw bh : Int) (w h : Nat) (xx yy : Int) (bwr bhr : Int)
    (hbwr : (match brush with | some br => ((br.width : Nat) : Int) | none => 0) = bwr)
    (hbhr : (match brush with | some br => ((br.height : Nat) : Int) | none => 0) = bhr) :
    (ellipseStamp pic brush bw bh w h xx yy).width = pic.width ∧
    (ellipseStamp pic brush bw bh w h xx yy).height = pic.height ∧
    (ellipseStamp pic brush bw bh w h xx yy).data.length = pic.data.length ∧
    ∀ o, o < pic.data.length →
      (ellipseStamp pic brush bw bh w h xx yy).data.getD o 0 ≠ pic.data.getD o 0 →
      xx ≤ ((o % pic.width : Nat) : Int) ∧
      ((o % pic.width : Nat) : Int) < xx + bwr ∧
      yy ≤ ((o / pic.width : Nat) : Int) ∧
      ((o / pic.width : Nat) : Int) < yy + bhr := by
  rcases brush with _ | br
  · unfold ellipseStamp LongPicture.pasteOpt
    split_ifs <;> exact ⟨rfl, rfl, rfl, fun o ho h => absurd rfl h⟩
  · have hbw1 : ((br.width : Nat) : Int) = bwr := hbwr
    have hbh1 : ((br.height : Nat) : Int) = bhr := hbhr
    unfold ellipseStamp LongPicture.pasteOpt
    split_ifs with hg
    · have hpw := paste_writes pic br xx yy true false 0
      refine ⟨hpw.1, hpw.2.1, hpw.2.2.1, fun o ho hchg => ?_⟩
      obtain ⟨m1, m2, m3, m4⟩ := hpw.2.2.2 o ho hchg
      exact ⟨m1, by omega, m3, by omega⟩
    · exact ⟨rfl, rfl, rfl, fun o ho h => absurd rfl h⟩

theorem ellipseFill1_writes (x0 y0 a b a2 b2 : Int) (color : Nat) (W H L : Nat)
    (ha : 1 ≤ a) (hb : 1 ≤ b) (hx00 : 0 ≤ x0) (hx0W : x0 < (W : Int))
    (ha2 : a2 = 2 * a * a) (hb2 : b2 = 2 * b * b) :
    ∀ (fuel : Nat) (x y error stopx stopy : Int) (pic : LongPicture),
      pic.width = W → pic.height = H → pic.data.length = L →
      (stopy ≤ stopx →
        0 ≤ x ∧ y ≤ b ∧ stopy = 2 * b * b * x ∧ stopx = 2 * a * a * y ∧
        error = a * a * (b * b) - b * b * (x * (x - 1)) - a * a * (y * (y - 1)) ∧
        0 < error) →
      (ellipseFill1 x0 y0 W H a2 b2 color fuel x y error stopx stopy pic).width = W ∧
      (ellipseFill1 x0 y0 W H a2 b2 color fuel x y error stopx stopy pic).height = H ∧
      (ellipseFill1 x0 y0 W H a2 b2 color fuel x y error stopx stopy pic).data.length = L ∧
      ∀ o, o < L →
        (ellipseFill1 x0 y0 W H a2 b2 color fuel x y error stopx stopy pic).data.getD o 0 ≠ pic.data.getD o 0 →
        x0 - a ≤ ((o % W : Nat) : Int) ∧ ((o % W : Nat) : Int) ≤ x0 + a ∧ y0 - b ≤ ((o / W : Nat) : Int) ∧ ((o / W : Nat) : Int) ≤ y0 + b := by
  intro fuel
  induction fuel with
  | zero =>
      intro x y error stopx stopy pic hW hH hL hinv
      unfold ellipseFill1
      exact ⟨hW, hH, hL, fun o ho h => absurd rfl h⟩
  | succ n ih =>
      intro x y error stopx stopy pic hW hH hL hinv
      unfold ellipseFill1
      by_cases hcond : stopy ≤ stopx
      case neg =>
        rw [if_neg hcond]
        exact ⟨hW, hH, hL, fun o ho h => absurd rfl h⟩
      case pos =>
        rw [if_pos hcond]
        dsimp only
        obtain ⟨hx0n, hyb, hsy, hsx, herr, herrpos⟩ := hinv hcond
        have hA : 0 < a * a := mul_pos (by omega) (by omega)
        have hB : 0 < b * b := mul_pos (by omega) (by omega)
        have e1 : 2 * b * b * x = 2 * (b * b * x) := by ring
        have e2 : 2 * a * a * y = 2 * (a * a * y) := by ring
        have hBx : 0 ≤ b * b * x := mul_nonneg hB.le hx0n
        have hy0 : 0 ≤ y := by
          by_contra hneg
          push_neg at hneg
          have h2 : a * a * y < 0 := mul_neg_of_pos_of_neg hA hneg
          omega
        have hQ : 0 ≤ y * (y - 1) := by
          rcases le_or_lt y 0 with h | h
          · have h9 : 0 ≤ (-y) * (1 - y) := mul_nonneg (by omega) (by omega)
            have h10 : (-y) * (1 - y) = y * (y - 1) := by ring
            omega
          · exact mul_nonneg (by omega) (by omega)
        have hAQ : 0 ≤ a * a * (y * (y - 1)) := mul_nonneg hA.le hQ
        have hxa : x ≤ a := by
          by_contra hcon
          push_neg at hcon
          have h1 : (a + 1) * a ≤ x * (x - 1) :=
            mul_le_mul (by omega) (by omega) (by omega) (by omega)
          have h2 : b * b * ((a + 1) * a) ≤ b * b * (x * (x - 1)) :=
            mul_le_mul_of_nonneg_left h1 hB.le
          have h3 : b * b * ((a + 1) * a) = a * a * (b * b) + a * (b * b) := by ring
          have h4 : 0 < a * (b * b) := mul_pos (by omega) hB
          omega
        have hinvF : stopy + b2 ≤ stopx - a2 →
            0 ≤ x + 1 ∧ y - 1 ≤ b ∧ stopy + b2 = 2 * b * b * (x + 1) ∧
            stopx - a2 = 2 * a * a * (y - 1) ∧
            error - b2 * (x + 1 - 1) + a2 * (y - 1) =
              a * a * (b * b) - b * b * ((x + 1) * (x + 1 - 1)) -
              a * a * ((y - 1) * (y - 1 - 1)) ∧
            0 < error - b2 * (x + 1 - 1) + a2 * (y - 1) := by
          intro hcond2
          have r1 : 2 * b * b * (x + 1) = 2 * (b * b * x) + 2 * (b * b) := by ring
          have r2 : 2 * a * a * (y - 1) = 2 * (a * a * y) - 2 * (a * a) := by ring
          have r3 : b2 * (x + 1 - 1) = 2 * (b * b * x) := by rw [hb2]; ring
          have r4 : a2 * (y - 1) = 2 * (a * a * y) - 2 * (a * a) := by rw [ha2]; ring
          have r6 : b2 = 2 * (b * b) := by rw [hb2]; ring
          have r7 : a2 = 2 * (a * a) := by rw [ha2]; ring
          refine ⟨by omega, by omega, by omega, by omega, by rw [herr, hb2, ha2]; ring, ?_⟩
          omega
        have hinvN : ¬(error - b2 * (x + 1 - 1) ≤ 0) → stopy + b2 ≤ stopx →
            0 ≤ x + 1 ∧ y ≤ b ∧ stopy + b2 = 2 * b * b * (x + 1) ∧
            stopx = 2 * a * a * y ∧
            error - b2 * (x + 1 - 1) =
              a * a * (b * b) - b * b * ((x + 1) * (x + 1 - 1)) -
              a * a * (y * (y - 1)) ∧
            0 < error - b2 * (x + 1 - 1) := by
          intro hfl hcond2
          have r1 : 2 * b * b * (x + 1) = 2 * (b * b * x) + 2 * (b * b) := by ring
          have r3 : b2 * (x + 1 - 1) = 2 * (b * b * x) := by rw [hb2]; ring
          have r6 : b2 = 2 * (b * b) := by rw [hb2]; ring
          refine ⟨by omega, hyb, by omega, hsx, by rw [herr, hb2]; ring, by omega⟩
        have contF : ∀ pic2 : LongPicture, pic2.width = W → pic2.height = H →
            pic2.data.length = L →
            (∀ o, o < L → pic2.data.getD o 0 ≠ pic.data.getD o 0 → x0 - a ≤ ((o % W : Nat) : Int) ∧ ((o % W : Nat) : Int) ≤ x0 + a ∧ y0 - b ≤ ((o / W : Nat) : Int) ∧ ((o / W : Nat) : Int) ≤ y0 + b) →
            (ellipseFill1 x0 y0 W H a2 b2 color n (x + 1) (y - 1)
               (error - b2 * (x + 1 - 1) + a2 * (y - 1)) (stopx - a2) (stopy + b2) pic2).width = W ∧
            (ellipseFill1 x0 y0 W H a2 b2 color n (x + 1) (y - 1)
               (error - b2 * (x + 1 - 1) + a2 * (y - 1)) (stopx - a2) (stopy + b2) pic2).height = H ∧
            (ellipseFill1 x0 y0 W H a2 b2 color n (x + 1) (y - 1)
               (error - b2 * (x + 1 - 1) + a2 * (y - 1)) (stopx - a2) (stopy + b2) pic2).data.length = L ∧
            ∀ o, o < L →
              (ellipseFill1 x0 y0 W H a2 b2 color n (x + 1) (y - 1)
               (error - b2 * (x + 1 - 1) + a2 * (y - 1)) (stopx - a2) (stopy + b2) pic2).data.getD o 0 ≠ pic.data.getD o 0 →
              x0 - a ≤ ((o % W : Nat) : Int) ∧ ((o % W : Nat) : Int) ≤ x0 + a ∧ y0 - b ≤ ((o / W : Nat) : Int) ∧ ((o / W : Nat) : Int) ≤ y0 + b := by
          intro pic2 hq1 hq2 hq3 hq4
          obtain ⟨I1, I2, I3, I4⟩ := ih _ _ _ _ _ pic2 hq1 hq2 hq3 hinvF
          exact ⟨I1, I2, I3, changed_trans L (fun o => x0 - a ≤ ((o % W : Nat) : Int) ∧ ((o % W : Nat) : Int) ≤ x0 + a ∧ y0 - b ≤ ((o / W : Nat) : Int) ∧ ((o / W : Nat) : Int) ≤ y0 + b) pic.data _ _ hq4 I4⟩
        have contN : ∀ pic2 : LongPicture, ¬(error - b2 * (x + 1 - 1) ≤ 0) →
            pic2.width = W → pic2.height = H →
            pic2.data.length = L →
            (∀ o, o < L → pic2.data.getD o 0 ≠ pic.data.getD o 0 → x0 - a ≤ ((o % W : Nat) : Int) ∧ ((o % W : Nat) : Int) ≤ x0 + a ∧ y0 - b ≤ ((o / W : Nat) : Int) ∧ ((o / W : Nat) : Int) ≤ y0 + b) →
            (ellipseFill1 x0 y0 W H a2 b2 color n (x + 1) y
               (error - b2 * (x + 1 - 1)) stopx (stopy + b2) pic2).width = W ∧
            (ellipseFill1 x0 y0 W H a2 b2 color n (x + 1) y
               (error - b2 * (x + 1 - 1)) stopx (stopy + b2) pic2).height = H ∧
            (ellipseFill1 x0 y0 W H a2 b2 color n (x + 1) y
               (error - b2 * (x + 1 - 1)) stopx (stopy + b2) pic2).data.length = L ∧
            ∀ o, o < L →
              (ellipseFill1 x0 y0 W H a2 b2 color n (x + 1) y
               (error - b2 * (x + 1 - 1)) stopx (stopy + b2) pic2).data.getD o 0 ≠ pic.data.getD o 0 →
              x0 - a ≤ ((o % W : Nat) : Int) ∧ ((o % W : Nat) : Int) ≤ x0 + a ∧ y0 - b ≤ ((o / W : Nat) : Int) ∧ ((o / W : Nat) : Int) ≤ y0 + b := by
          intro pic2 hfl hq1 hq2 hq3 hq4
          obtain ⟨I1, I2, I3, I4⟩ := ih _ _ _ _ _ pic2 hq1 hq2 hq3 (hinvN hfl)
          exact ⟨I1, I2, I3, changed_trans L (fun o => x0 - a ≤ ((o % W : Nat) : Int) ∧ ((o % W : Nat) : Int) ≤ x0 + a ∧ y0 - b ≤ ((o / W : Nat) : Int) ∧ ((o / W : Nat) : Int) ≤ y0 + b) pic.data _ _ hq4 I4⟩
        have hrow : ∀ (ly ry ycur : Int) (picA : LongPicture), picA.width = W →
            picA.height = H → picA.data.length = L →
            x0 - a ≤ min ly ry → max ly ry ≤ x0 + a → y0 - b ≤ ycur → ycur ≤ y0 + b →
            (draw_line picA (ly, ycur) (ry, ycur) none color 1).2.width = W ∧
            (draw_line picA (ly, ycur) (ry, ycur) none color 1).2.height = H ∧
            (draw_line picA (ly, ycur) (ry, ycur) none color 1).2.data.length = L ∧
            ∀ o, o < L →
              (draw_line picA (ly, ycur) (ry, ycur) none color 1).2.data.getD o 0 ≠
                picA.data.getD o 0 →
              x0 - a ≤ ((o % W : Nat) : Int) ∧ ((o % W : Nat) : Int) ≤ x0 + a ∧ y0 - b ≤ ((o / W : Nat) : Int) ∧ ((o / W : Nat) : Int) ≤ y0 + b := by
          intro ly ry ycur picA hq1 hq2 hq3 hc1 hc2 hc3 hc4
          have hdl := draw_line_writes picA ly ycur ry ycur none color 1
          refine ⟨by rw [hdl.1, hq1], by rw [hdl.2.1, hq2], by rw [hdl.2.2.1, hq3],
            fun o ho hchg => ?_⟩
          have hm := hdl.2.2.2 o (by omega) hchg
          rw [hq1] at hm
          dsimp only at hm
          obtain ⟨m1, m2, m3, m4⟩ := hm
          refine ⟨by omega, by omega, by omega, by omega⟩
        have hbnd1 : x0 - a ≤ min (min ((W : Int) - 1) (max 0 (x0 - x))) (max 0 (min (W : Int) (x0 + x))) := by omega
        have hbnd2 : max (min ((W : Int) - 1) (max 0 (x0 - x))) (max 0 (min (W : Int) (x0 + x))) ≤ x0 + a := by omega
        have hpic2 : ∀ (picZ : LongPicture), picZ =
            (if y0 + y < (H : Int) then
              (draw_line
                (if 0 ≤ y0 - y then
                  (draw_line pic ((min ((W : Int) - 1) (max 0 (x0 - x))), y0 - y) ((max 0 (min (W : Int) (x0 + x))), y0 - y) none color 1).2
                 else pic)
                ((min ((W : Int) - 1) (max 0 (x0 - x))), y0 + y) ((max 0 (min (W : Int) (x0 + x))), y0 + y) none color 1).2
             else
              (if 0 ≤ y0 - y then
                (draw_line pic ((min ((W : Int) - 1) (max 0 (x0 - x))), y0 - y) ((max 0 (min (W : Int) (x0 + x))), y0 - y) none color 1).2
               else pic)) →
            picZ.width = W ∧ picZ.height = H ∧ picZ.data.length = L ∧
            ∀ o, o < L → picZ.data.getD o 0 ≠ pic.data.getD o 0 → x0 - a ≤ ((o % W : Nat) : Int) ∧ ((o % W : Nat) : Int) ≤ x0 + a ∧ y0 - b ≤ ((o / W : Nat) : Int) ∧ ((o / W : Nat) : Int) ≤ y0 + b := by
          intro picZ hz
          subst hz
          by_cases hl1 : 0 ≤ y0 - y
          · rw [if_pos hl1]
            have h1 := hrow (min ((W : Int) - 1) (max 0 (x0 - x))) (max 0 (min (W : Int) (x0 + x))) (y0 - y) pic hW hH hL hbnd1 hbnd2
              (by omega) (by omega)
            by_cases hl2 : y0 + y < (H : Int)
            · rw [if_pos hl2]
              have h2 := hrow (min ((W : Int) - 1) (max 0 (x0 - x))) (max 0 (min (W : Int) (x0 + x))) (y0 + y)
                (draw_line pic ((min ((W : Int) - 1) (max 0 (x0 - x))), y0 - y) ((max 0 (min (W : Int) (x0 + x))), y0 - y) none color 1).2
                h1.1 h1.2.1 h1.2.2.1 hbnd1 hbnd2 (by omega) (by omega)
              exact ⟨h2.1, h2.2.1, h2.2.2.1,
                changed_trans L (fun o => x0 - a ≤ ((o % W : Nat) : Int) ∧ ((o % W : Nat) : Int) ≤ x0 + a ∧ y0 - b ≤ ((o / W : Nat) : Int) ∧ ((o / W : Nat) : Int) ≤ y0 + b) pic.data _ _ h1.2.2.2 h2.2.2.2⟩
            · rw [if_neg hl2]
              exact h1
          · rw [if_neg hl1]
            by_cases hl2 : y0 + y < (H : Int)
            · rw [if_pos hl2]
              exact hrow (min ((W : Int) - 1) (max 0 (x0 - x))) (max 0 (min (W : Int) (x0 + x))) (y0 + y) pic hW hH hL hbnd1 hbnd2
                (by omega) (by omega)
            · rw [if_neg hl2]
              exact ⟨hW, hH, hL, fun o ho h => absurd rfl h⟩
        by_cases hflip : error - b2 * (x + 1 - 1) ≤ 0
        · rw [if_pos hflip]
          dsimp only
          exact contF _ (hpic2 _ rfl).1 (hpic2 _ rfl).2.1 (hpic2 _ rfl).2.2.1
            (hpic2 _ rfl).2.2.2
        · rw [if_neg hflip]
          dsimp only
          exact contN _ hflip (hpic2 _ rfl).1 (hpic2 _ rfl).2.1 (hpic2 _ rfl).2.2.1
            (hpic2 _ rfl).2.2.2

theorem ellipseFill2_writes (x0 y0 a b a2 b2 : Int) (color : Nat) (W H L : Nat)
    (ha : 1 ≤ a) (hb : 1 ≤ b) (hx00 : 0 ≤ x0) (hx0W : x0 < (W : Int))
    (ha2 : a2 = 2 * a * a) (hb2 : b2 = 2 * b * b) :
    ∀ (fuel : Nat) (x y error stopx stopy : Int) (pic : LongPicture),
      pic.width = W → pic.height = H → pic.data.length = L →
      (stopy ≥ stopx →
        0 ≤ y ∧ x ≤ a ∧ stopy = 2 * b * b * x ∧ stopx = 2 * a * a * y ∧
        error = a * a * (b * b) - b * b * (x * (x - 1)) - a * a * (y * (y - 1)) ∧
        0 ≤ error) →
      (ellipseFill2 x0 y0 W H a2 b2 color fuel x y error stopx stopy pic).width = W ∧
      (ellipseFill2 x0 y0 W H a2 b2 color fuel x y error stopx stopy pic).height = H ∧
      (ellipseFill2 x0 y0 W H a2 b2 color fuel x y error stopx stopy pic).data.length = L ∧
      ∀ o, o < L →
        (ellipseFill2 x0 y0 W H a2 b2 color fuel x y error stopx stopy pic).data.getD o 0 ≠ pic.data.getD o 0 →
        x0 - a ≤ ((o % W : Nat) : Int) ∧ ((o % W : Nat) : Int) ≤ x0 + a ∧ y0 - b ≤ ((o / W : Nat) : Int) ∧ ((o / W : Nat) : Int) ≤ y0 + b := by
  intro fuel
  induction fuel with
  | zero =>
      intro x y error stopx stopy pic hW hH hL hinv
      unfold ellipseFill2
      exact ⟨hW, hH, hL, fun o ho h => absurd rfl h⟩
  | succ n ih =>
      intro x y error stopx stopy pic hW hH hL hinv
      unfold ellipseFill2
      by_cases hcond : stopy ≥ stopx
      case neg =>
        rw [if_neg hcond]
        exact ⟨hW, hH, hL, fun o ho h => absurd rfl h⟩
      case pos =>
        rw [if_pos hcond]
        dsimp only
        obtain ⟨hy0, hxa, hsy, hsx, herr, herrpos⟩ := hinv hcond
        have hA : 0 < a * a := mul_pos (by omega) (by omega)
        have hB : 0 < b * b := mul_pos (by omega) (by omega)
        have e1 : 2 * b * b * x = 2 * (b * b * x) := by ring
        have e2 : 2 * a * a * y = 2 * (a * a * y) := by ring
        have hAy : 0 ≤ a * a * y := mul_nonneg hA.le hy0
        have hx0n : 0 ≤ x := by
          by_contra hneg
          push_neg at hneg
          have h2 : b * b * x < 0 := mul_neg_of_pos_of_neg hB hneg
          omega
        have hP : 0 ≤ x * (x - 1) := by
          rcases le_or_lt x 0 with h | h
          · have h9 : 0 ≤ (-x) * (1 - x) := mul_nonneg (by omega) (by omega)
            have h10 : (-x) * (1 - x) = x * (x - 1) := by ring
            omega
          · exact mul_nonneg (by omega) (by omega)
        have hBP : 0 ≤ b * b * (x * (x - 1)) := mul_nonneg hB.le hP
        have hyb : y ≤ b := by
          by_contra hcon
          push_neg at hcon
          have h1 : (b + 1) * b ≤ y * (y - 1) :=
            mul_le_mul (by omega) (by omega) (by omega) (by omega)
          have h2 : a * a * ((b + 1) * b) ≤ a * a * (y * (y - 1)) :=
            mul_le_mul_of_nonneg_left h1 hA.le
          have h3 : a * a * ((b + 1) * b) = a * a * (b * b) + b * (a * a) := by ring
          have h4 : 0 < b * (a * a) := mul_pos (by omega) hA
          omega
        have hinvF : stopy - b2 ≥ stopx + a2 →
            0 ≤ y + 1 ∧ x - 1 ≤ a ∧ stopy - b2 = 2 * b * b * (x - 1) ∧
            stopx + a2 = 2 * a * a * (y + 1) ∧
            error - a2 * (y + 1 - 1) + b2 * (x - 1) =
              a * a * (b * b) - b * b * ((x - 1) * (x - 1 - 1)) -
              a * a * ((y + 1) * (y + 1 - 1)) ∧
            0 ≤ error - a2 * (y + 1 - 1) + b2 * (x - 1) := by
          intro hcond2
          have r1 : 2 * b * b * (x - 1) = 2 * (b * b * x) - 2 * (b * b) := by ring
          have r2 : 2 * a * a * (y + 1) = 2 * (a * a * y) + 2 * (a * a) := by ring
          have r3 : a2 * (y + 1 - 1) = 2 * (a * a * y) := by rw [ha2]; ring
          have r4 : b2 * (x - 1) = 2 * (b * b * x) - 2 * (b * b) := by rw [hb2]; ring
          have r6 : b2 = 2 * (b * b) := by rw [hb2]; ring
          have r7 : a2 = 2 * (a * a) := by rw [ha2]; ring
          refine ⟨by omega, by omega, by omega, by omega, by rw [herr, hb2, ha2]; ring, ?_⟩
          omega
        have hinvN : ¬(error - a2 * (y + 1 - 1) < 0) → stopy ≥ stopx + a2 →
            0 ≤ y + 1 ∧ x ≤ a ∧ stopy = 2 * b * b * x ∧
            stopx + a2 = 2 * a * a * (y + 1) ∧
            error - a2 * (y + 1 - 1) =
              a * a * (b * b) - b * b * (x * (x - 1)) -
              a * a * ((y + 1) * (y + 1 - 1)) ∧
            0 ≤ error - a2 * (y + 1 - 1) := by
          intro hfl hcond2
          have r2 : 2 * a * a * (y + 1) = 2 * (a * a * y) + 2 * (a * a) := by ring
          have r3 : a2 * (y + 1 - 1) = 2 * (a * a * y) := by rw [ha2]; ring
          have r7 : a2 = 2 * (a * a) := by rw [ha2]; ring
          refine ⟨by omega, hxa, hsy, by omega, by rw [herr, ha2]; ring, by omega⟩
        have contF : ∀ pic2 : LongPicture, pic2.width = W → pic2.height = H →
            pic2.data.length = L →
            (∀ o, o < L → pic2.data.getD o 0 ≠ pic.data.getD o 0 → x0 - a ≤ ((o % W : Nat) : Int) ∧ ((o % W : Nat) : Int) ≤ x0 + a ∧ y0 - b ≤ ((o / W : Nat) : Int) ∧ ((o / W : Nat) : Int) ≤ y0 + b) →
            (ellipseFill2 x0 y0 W H a2 b2 color n (x - 1) (y + 1)
               (error - a2 * (y + 1 - 1) + b2 * (x - 1)) (stopx + a2) (stopy - b2) pic2).width = W ∧
            (ellipseFill2 x0 y0 W H a2 b2 color n (x - 1) (y + 1)
               (error - a2 * (y + 1 - 1) + b2 * (x - 1)) (stopx + a2) (stopy - b2) pic2).height = H ∧
            (ellipseFill2 x0 y0 W H a2 b2 color n (x - 1) (y + 1)
               (error - a2 * (y + 1 - 1) + b2 * (x - 1)) (stopx + a2) (stopy - b2) pic2).data.length = L ∧
            ∀ o, o < L →
              (ellipseFill2 x0 y0 W H a2 b2 color n (x - 1) (y + 1)
               (error - a2 * (y + 1 - 1) + b2 * (x - 1)) (stopx + a2) (stopy - b2) pic2).data.getD o 0 ≠ pic.data.getD o 0 →
              x0 - a ≤ ((o % W : Nat) : Int) ∧ ((o % W : Nat) : Int) ≤ x0 + a ∧ y0 - b ≤ ((o / W : Nat) : Int) ∧ ((o / W : Nat) : Int) ≤ y0 + b := by
          intro pic2 hq1 hq2 hq3 hq4
          obtain ⟨I1, I2, I3, I4⟩ := ih _ _ _ _ _ pic2 hq1 hq2 hq3 hinvF
          exact ⟨I1, I2, I3, changed_trans L (fun o => x0 - a ≤ ((o % W : Nat) : Int) ∧ ((o % W : Nat) : Int) ≤ x0 + a ∧ y0 - b ≤ ((o / W : Nat) : Int) ∧ ((o / W : Nat) : Int) ≤ y0 + b) pic.data _ _ hq4 I4⟩
        have contN : ∀ pic2 : LongPicture, ¬(error - a2 * (y + 1 - 1) < 0) →
            pic2.width = W → pic2.height = H →
            pic2.data.length = L →
            (∀ o, o < L → pic2.data.getD o 0 ≠ pic.data.getD o 0 → x0 - a ≤ ((o % W : Nat) : Int) ∧ ((o % W : Nat) : Int) ≤ x0 + a ∧ y0 - b ≤ ((o / W : Nat) : Int) ∧ ((o / W : Nat) : Int) ≤ y0 + b) →
            (ellipseFill2 x0 y0 W H a2 b2 color n x (y + 1)
               (error - a2 * (y + 1 - 1)) (stopx + a2) stopy pic2).width = W ∧
            (ellipseFill2 x0 y0 W H a2 b2 color n x (y + 1)
               (error - a2 * (y + 1 - 1)) (stopx + a2) stopy pic2).height = H ∧
            (ellipseFill2 x0 y0 W H a2 b2 color n x (y + 1)
               (error - a2 * (y + 1 - 1)) (stopx + a2) stopy pic2).data.length = L ∧
            ∀ o, o < L →
              (ellipseFill2 x0 y0 W H a2 b2 color n x (y + 1)
               (error - a2 * (y + 1 - 1)) (stopx + a2) stopy pic2).data.getD o 0 ≠ pic.data.getD o 0 →
              x0 - a ≤ ((o % W : Nat) : Int) ∧ ((o % W : Nat) : Int) ≤ x0 + a ∧ y0 - b ≤ ((o / W : Nat) : Int) ∧ ((o / W : Nat) : Int) ≤ y0 + b := by
          intro pic2 hfl hq1 hq2 hq3 hq4
          obtain ⟨I1, I2, I3, I4⟩ := ih _ _ _ _ _ pic2 hq1 hq2 hq3 (hinvN hfl)
          exact ⟨I1, I2, I3, changed_trans L (fun o => x0 - a ≤ ((o % W : Nat) : Int) ∧ ((o % W : Nat) : Int) ≤ x0 + a ∧ y0 - b ≤ ((o / W : Nat) : Int) ∧ ((o / W : Nat) : Int) ≤ y0 + b) pic.data _ _ hq4 I4⟩
        have hrow : ∀ (ly ry ycur : Int) (picA : LongPicture), picA.width = W →
            picA.height = H → picA.data.length = L →
            x0 - a ≤ min ly ry → max ly ry ≤ x0 + a → y0 - b ≤ ycur → ycur ≤ y0 + b →
            (draw_line picA (ly, ycur) (ry, ycur) none color 1).2.width = W ∧
            (draw_line picA (ly, ycur) (ry, ycur) none color 1).2.height = H ∧
            (draw_line picA (ly, ycur) (ry, ycur) none color 1).2.data.length = L ∧
            ∀ o, o < L →
              (draw_line picA (ly, ycur) (ry, ycur) none color 1).2.data.getD o 0 ≠
                picA.data.getD o 0 →
              x0 - a ≤ ((o % W : Nat) : Int) ∧ ((o % W : Nat) : Int) ≤ x0 + a ∧ y0 - b ≤ ((o / W : Nat) : Int) ∧ ((o / W : Nat) : Int) ≤ y0 + b := by
          intro ly ry ycur picA hq1 hq2 hq3 hc1 hc2 hc3 hc4
          have hdl := draw_line_writes picA ly ycur ry ycur none color 1
          refine ⟨by rw [hdl.1, hq1], by rw [hdl.2.1, hq2], by rw [hdl.2.2.1, hq3],
            fun o ho hchg => ?_⟩
          have hm := hdl.2.2.2 o (by omega) hchg
          rw [hq1] at hm
          dsimp only at hm
          obtain ⟨m1, m2, m3, m4⟩ := hm
          refine ⟨by omega, by omega, by omega, by omega⟩
        have hbnd1 : x0 - a ≤ min (max 0 (x0 - x)) (min (W : Int) (x0 + x)) := by omega
        have hbnd2 : max (max 0 (x0 - x)) (min (W : Int) (x0 + x)) ≤ x0 + a := by omega
        have hpic2 : ∀ (picZ : LongPicture), picZ =
            (if y0 + y < (H : Int) then
              (draw_line
                (if 0 ≤ y0 - y then
                  (draw_line pic ((max 0 (x0 - x)), y0 - y) ((min (W : Int) (x0 + x)), y0 - y) none color 1).2
                 else pic)
                ((max 0 (x0 - x)), y0 + y) ((min (W : Int) (x0 + x)), y0 + y) none color 1).2
             else
              (if 0 ≤ y0 - y then
                (draw_line pic ((max 0 (x0 - x)), y0 - y) ((min (W : Int) (x0 + x)), y0 - y) none color 1).2
               else pic)) →
            picZ.width = W ∧ picZ.height = H ∧ picZ.data.length = L ∧
            ∀ o, o < L → picZ.data.getD o 0 ≠ pic.data.getD o 0 → x0 - a ≤ ((o % W : Nat) : Int) ∧ ((o % W : Nat) : Int) ≤ x0 + a ∧ y0 - b ≤ ((o / W : Nat) : Int) ∧ ((o / W : Nat) : Int) ≤ y0 + b := by
          intro picZ hz
          subst hz
          by_cases hl1 : 0 ≤ y0 - y
          · rw [if_pos hl1]
            have h1 := hrow (max 0 (x0 - x)) (min (W : Int) (x0 + x)) (y0 - y) pic hW hH hL hbnd1 hbnd2
              (by omega) (by omega)
            by_cases hl2 : y0 + y < (H : Int)
            · rw [if_pos hl2]
              have h2 := hrow (max 0 (x0 - x)) (min (W : Int) (x0 + x)) (y0 + y)
                (draw_line pic ((max 0 (x0 - x)), y0 - y) ((min (W : Int) (x0 + x)), y0 - y) none color 1).2
                h1.1 h1.2.1 h1.2.2.1 hbnd1 hbnd2 (by omega) (by omega)
              exact ⟨h2.1, h2.2.1, h2.2.2.1,
                changed_trans L (fun o => x0 - a ≤ ((o % W : Nat) : Int) ∧ ((o % W : Nat) : Int) ≤ x0 + a ∧ y0 - b ≤ ((o / W : Nat) : Int) ∧ ((o / W : Nat) : Int) ≤ y0 + b) pic.data _ _ h1.2.2.2 h2.2.2.2⟩
            · rw [if_neg hl2]
              exact h1
          · rw [if_neg hl1]
            by_cases hl2 : y0 + y < (H : Int)
            · rw [if_pos hl2]
              exact hrow (max 0 (x0 - x)) (min (W : Int) (x0 + x)) (y0 + y) pic hW hH hL hbnd1 hbnd2
                (by omega) (by omega)
            · rw [if_neg hl2]
              exact ⟨hW, hH, hL, fun o ho h => absurd rfl h⟩
        by_cases hflip : error - a2 * (y + 1 - 1) < 0
        · rw [if_pos hflip]
          dsimp only
          exact contF _ (hpic2 _ rfl).1 (hpic2 _ rfl).2.1 (hpic2 _ rfl).2.2.1
            (hpic2 _ rfl).2.2.2
        · rw [if_neg hflip]
          dsimp only
          exact contN _ hflip (hpic2 _ rfl).1 (hpic2 _ rfl).2.1 (hpic2 _ rfl).2.2.1
            (hpic2 _ rfl).2.2.2

theorem ellipseBrush1_writes (x0 y0 a b a2 b2 : Int) (bw bh : Int) (brush : Option LongPicture) (bwr bhr : Int)
    (color : Nat) (W H L : Nat)
    (ha : 1 ≤ a) (hb : 1 ≤ b) (hx00 : 0 ≤ x0) (hx0W : x0 < (W : Int))
    (ha2 : a2 = 2 * a * a) (hb2 : b2 = 2 * b * b)
    (hbwr : (match brush with | some br => ((br.width : Nat) : Int) | none => 0) = bwr)
    (hbhr : (match brush with | some br => ((br.height : Nat) : Int) | none => 0) = bhr)
    (hbwr0 : 0 ≤ bwr) (hbhr0 : 0 ≤ bhr) :
    ∀ (fuel : Nat) (x y error stopx stopy : Int) (pic : LongPicture),
      pic.width = W → pic.height = H → pic.data.length = L →
      (stopy ≤ stopx →
        0 ≤ x ∧ y ≤ b ∧ stopy = 2 * b * b * x ∧ stopx = 2 * a * a * y ∧
        error = a * a * (b * b) - b * b * (x * (x - 1)) - a * a * (y * (y - 1)) ∧
        0 < error) →
      (ellipseBrush1 x0 y0 W H a2 b2 bw bh brush fuel x y error stopx stopy pic).width = W ∧
      (ellipseBrush1 x0 y0 W H a2 b2 bw bh brush fuel x y error stopx stopy pic).height = H ∧
      (ellipseBrush1 x0 y0 W H a2 b2 bw bh brush fuel x y error stopx stopy pic).data.length = L ∧
      ∀ o, o < L →
        (ellipseBrush1 x0 y0 W H a2 b2 bw bh brush fuel x y error stopx stopy pic).data.getD o 0 ≠ pic.data.getD o 0 →
        x0 - a ≤ ((o % W : Nat) : Int) ∧ ((o % W : Nat) : Int) < x0 + a + bwr ∧ y0 - b ≤ ((o / W : Nat) : Int) ∧ ((o / W : Nat) : Int) < y0 + b + bhr := by
  intro fuel
  induction fuel with
  | zero =>
      intro x y error stopx stopy pic hW hH hL hinv
      unfold ellipseBrush1
      exact ⟨hW, hH, hL, fun o ho h => absurd rfl h⟩
  | succ n ih =>
      intro x y error stopx stopy pic hW hH hL hinv
      unfold ellipseBrush1
      by_cases hcond : stopy ≤ stopx
      case neg =>
        rw [if_neg hcond]
        exact ⟨hW, hH, hL, fun o ho h => absurd rfl h⟩
      case pos =>
        rw [if_pos hcond]
        dsimp only
        obtain ⟨hx0n, hyb, hsy, hsx, herr, herrpos⟩ := hinv hcond
        have hA : 0 < a * a := mul_pos (by omega) (by omega)
        have hB : 0 < b * b := mul_pos (by omega) (by omega)
        have e1 : 2 * b * b * x = 2 * (b * b * x) := by ring
        have e2 : 2 * a * a * y = 2 * (a * a * y) := by ring
        have hBx : 0 ≤ b * b * x := mul_nonneg hB.le hx0n
        have hy0 : 0 ≤ y := by
          by_contra hneg
          push_neg at hneg
          have h2 : a * a * y < 0 := mul_neg_of_pos_of_neg hA hneg
          omega
        have hQ : 0 ≤ y * (y - 1) := by
          rcases le_or_lt y 0 with h | h
          · have h9 : 0 ≤ (-y) * (1 - y) := mul_nonneg (by omega) (by omega)
            have h10 : (-y) * (1 - y) = y * (y - 1) := by ring
            omega
          · exact mul_nonneg (by omega) (by omega)
        have hAQ : 0 ≤ a * a * (y * (y - 1)) := mul_nonneg hA.le hQ
        have hxa : x ≤ a := by
          by_contra hcon
          push_neg at hcon
          have h1 : (a + 1) * a ≤ x * (x - 1) :=
            mul_le_mul (by omega) (by omega) (by omega) (by omega)
          have h2 : b * b * ((a + 1) * a) ≤ b * b * (x * (x - 1)) :=
            mul_le_mul_of_nonneg_left h1 hB.le
          have h3 : b * b * ((a + 1) * a) = a * a * (b * b) + a * (b * b) := by ring
          have h4 : 0 < a * (b * b) := mul_pos (by omega) hB
          omega
        have hinvF : stopy + b2 ≤ stopx - a2 →
            0 ≤ x + 1 ∧ y - 1 ≤ b ∧ stopy + b2 = 2 * b * b * (x + 1) ∧
            stopx - a2 = 2 * a * a * (y - 1) ∧
            error - b2 * (x + 1 - 1) + a2 * (y - 1) =
              a * a * (b * b) - b * b * ((x + 1) * (x + 1 - 1)) -
              a * a * ((y - 1) * (y - 1 - 1)) ∧
            0 < error - b2 * (x + 1 - 1) + a2 * (y - 1) := by
          intro hcond2
          have r1 : 2 * b * b * (x + 1) = 2 * (b * b * x) + 2 * (b * b) := by ring
          have r2 : 2 * a * a * (y - 1) = 2 * (a * a * y) - 2 * (a * a) := by ring
          have r3 : b2 * (x + 1 - 1) = 2 * (b * b * x) := by rw [hb2]; ring
          have r4 : a2 * (y - 1) = 2 * (a * a * y) - 2 * (a * a) := by rw [ha2]; ring
          have r6 : b2 = 2 * (b * b) := by rw [hb2]; ring
          have r7 : a2 = 2 * (a * a) := by rw [ha2]; ring
          refine ⟨by omega, by omega, by omega, by omega, by rw [herr, hb2, ha2]; ring, ?_⟩
          omega
        have hinvN : ¬(error - b2 * (x + 1 - 1) ≤ 0) → stopy + b2 ≤ stopx →
            0 ≤ x + 1 ∧ y ≤ b ∧ stopy + b2 = 2 * b * b * (x + 1) ∧
            stopx = 2 * a * a * y ∧
            error - b2 * (x + 1 - 1) =
              a * a * (b * b) - b * b * ((x + 1) * (x + 1 - 1)) -
              a * a * (y * (y - 1)) ∧
            0 < error - b2 * (x + 1 - 1) := by
          intro hfl hcond2
          have r1 : 2 * b * b * (x + 1) = 2 * (b * b * x) + 2 * (b * b) := by ring
          have r3 : b2 * (x + 1 - 1) = 2 * (b * b * x) := by rw [hb2]; ring
          have r6 : b2 = 2 * (b * b) := by rw [hb2]; ring
          refine ⟨by omega, hyb, by omega, hsx, by rw [herr, hb2]; ring, by omega⟩
        have contF : ∀ pic2 : LongPicture, pic2.width = W → pic2.height = H →
            pic2.data.length = L →
            (∀ o, o < L → pic2.data.getD o 0 ≠ pic.data.getD o 0 → x0 - a ≤ ((o % W : Nat) : Int) ∧ ((o % W : Nat) : Int) < x0 + a + bwr ∧ y0 - b ≤ ((o / W : Nat) : Int) ∧ ((o / W : Nat) : Int) < y0 + b + bhr) →
            (ellipseBrush1 x0 y0 W H a2 b2 bw bh brush n (x + 1) (y - 1)
               (error - b2 * (x + 1 - 1) + a2 * (y - 1)) (stopx - a2) (stopy + b2) pic2).width = W ∧
            (ellipseBrush1 x0 y0 W H a2 b2 bw bh brush n (x + 1) (y - 1)
               (error - b2 * (x + 1 - 1) + a2 * (y - 1)) (stopx - a2) (stopy + b2) pic2).height = H ∧
            (ellipseBrush1 x0 y0 W H a2 b2 bw bh brush n (x + 1) (y - 1)
               (error - b2 * (x + 1 - 1) + a2 * (y - 1)) (stopx - a2) (stopy + b2) pic2).data.length = L ∧
            ∀ o, o < L →
              (ellipseBrush1 x0 y0 W H a2 b2 bw bh brush n (x + 1) (y - 1)
               (error - b2 * (x + 1 - 1) + a2 * (y - 1)) (stopx - a2) (stopy + b2) pic2).data.getD o 0 ≠ pic.data.getD o 0 →
              x0 - a ≤ ((o % W : Nat) : Int) ∧ ((o % W : Nat) : Int) < x0 + a + bwr ∧ y0 - b ≤ ((o / W : Nat) : Int) ∧ ((o / W : Nat) : Int) < y0 + b + bhr := by
          intro pic2 hq1 hq2 hq3 hq4
          obtain ⟨I1, I2, I3, I4⟩ := ih _ _ _ _ _ pic2 hq1 hq2 hq3 hinvF
          exact ⟨I1, I2, I3, changed_trans L (fun o => x0 - a ≤ ((o % W : Nat) : Int) ∧ ((o % W : Nat) : Int) < x0 + a + bwr ∧ y0 - b ≤ ((o / W : Nat) : Int) ∧ ((o / W : Nat) : Int) < y0 + b + bhr) pic.data _ _ hq4 I4⟩
        have contN : ∀ pic2 : LongPicture, ¬(error - b2 * (x + 1 - 1) ≤ 0) →
            pic2.width = W → pic2.height = H →
            pic2.data.length = L →
            (∀ o, o < L → pic2.data.getD o 0 ≠ pic.data.getD o 0 → x0 - a ≤ ((o % W : Nat) : Int) ∧ ((o % W : Nat) : Int) < x0 + a + bwr ∧ y0 - b ≤ ((o / W : Nat) : Int) ∧ ((o / W : Nat) : Int) < y0 + b + bhr) →
            (ellipseBrush1 x0 y0 W H a2 b2 bw bh brush n (x + 1) y
               (error - b2 * (x + 1 - 1)) stopx (stopy + b2) pic2).width = W ∧
            (ellipseBrush1 x0 y0 W H a2 b2 bw bh brush n (x + 1) y
               (error - b2 * (x + 1 - 1)) stopx (stopy + b2) pic2).height = H ∧
            (ellipseBrush1 x0 y0 W H a2 b2 bw bh brush n (x + 1) y
               (error - b2 * (x + 1 - 1)) stopx (stopy + b2) pic2).data.length = L ∧
            ∀ o, o < L →
              (ellipseBrush1 x0 y0 W H a2 b2 bw bh brush n (x + 1) y
               (error - b2 * (x + 1 - 1)) stopx (stopy + b2) pic2).data.getD o 0 ≠ pic.data.getD o 0 →
              x0 - a ≤ ((o % W : Nat) : Int) ∧ ((o % W : Nat) : Int) < x0 + a + bwr ∧ y0 - b ≤ ((o / W : Nat) : Int) ∧ ((o / W : Nat) : Int) < y0 + b + bhr := by
          intro pic2 hfl hq1 hq2 hq3 hq4
          obtain ⟨I1, I2, I3, I4⟩ := ih _ _ _ _ _ pic2 hq1 hq2 hq3 (hinvN hfl)
          exact ⟨I1, I2, I3, changed_trans L (fun o => x0 - a ≤ ((o % W : Nat) : Int) ∧ ((o % W : Nat) : Int) < x0 + a + bwr ∧ y0 - b ≤ ((o / W : Nat) : Int) ∧ ((o / W : Nat) : Int) < y0 + b + bhr) pic.data _ _ hq4 I4⟩
        have hstamp : ∀ (xx yy : Int) (picA : LongPicture), picA.width = W →
            picA.height = H → picA.data.length = L →
            x0 - a ≤ xx → xx ≤ x0 + a → y0 - b ≤ yy → yy ≤ y0 + b →
            (ellipseStamp picA brush bw bh W H xx yy).width = W ∧
            (ellipseStamp picA brush bw bh W H xx yy).height = H ∧
            (ellipseStamp picA brush bw bh W H xx yy).data.length = L ∧
            ∀ o, o < L →
              (ellipseStamp picA brush bw bh W H xx yy).data.getD o 0 ≠
                picA.data.getD o 0 →
              x0 - a ≤ ((o % W : Nat) : Int) ∧ ((o % W : Nat) : Int) < x0 + a + bwr ∧ y0 - b ≤ ((o / W : Nat) : Int) ∧ ((o / W : Nat) : Int) < y0 + b + bhr := by
          intro xx yy picA hq1 hq2 hq3 hc1 hc2 hc3 hc4
          have hsw := ellipseStamp_writes picA brush bw bh W H xx yy bwr bhr hbwr hbhr
          refine ⟨by rw [hsw.1, hq1], by rw [hsw.2.1, hq2], by rw [hsw.2.2.1, hq3],
            fun o ho hchg => ?_⟩
          have hm := hsw.2.2.2 o (by omega) hchg
          rw [hq1] at hm
          obtain ⟨m1, m2, m3, m4⟩ := hm
          refine ⟨by omega, by omega, by omega, by omega⟩
        have hpic2 : ∀ (picZ : LongPicture), picZ =
            ellipseStamp (ellipseStamp (ellipseStamp (ellipseStamp pic brush bw bh W H
              (x0 + x) (y0 + y)) brush bw bh W H (x0 - x) (y0 + y)) brush bw bh W H
              (x0 - x) (y0 - y)) brush bw bh W H (x0 + x) (y0 - y) →
            picZ.width = W ∧ picZ.height = H ∧ picZ.data.length = L ∧
            ∀ o, o < L → picZ.data.getD o 0 ≠ pic.data.getD o 0 → x0 - a ≤ ((o % W : Nat) : Int) ∧ ((o % W : Nat) : Int) < x0 + a + bwr ∧ y0 - b ≤ ((o / W : Nat) : Int) ∧ ((o / W : Nat) : Int) < y0 + b + bhr := by
          intro picZ hz
          subst hz
          have h1 := hstamp (x0 + x) (y0 + y) pic hW hH hL (by omega) (by omega)
            (by omega) (by omega)
          have h2 := hstamp (x0 - x) (y0 + y) _ h1.1 h1.2.1 h1.2.2.1 (by omega)
            (by omega) (by omega) (by omega)
          have h3 := hstamp (x0 - x) (y0 - y) _ h2.1 h2.2.1 h2.2.2.1 (by omega)
            (by omega) (by omega) (by omega)
          have h4 := hstamp (x0 + x) (y0 - y) _ h3.1 h3.2.1 h3.2.2.1 (by omega)
            (by omega) (by omega) (by omega)
          refine ⟨h4.1, h4.2.1, h4.2.2.1, ?_⟩
          have c1 := changed_trans L (fun o => x0 - a ≤ ((o % W : Nat) : Int) ∧ ((o % W : Nat) : Int) < x0 + a + bwr ∧ y0 - b ≤ ((o / W : Nat) : Int) ∧ ((o / W : Nat) : Int) < y0 + b + bhr) pic.data _ _ h1.2.2.2 h2.2.2.2
          have c2 := changed_trans L (fun o => x0 - a ≤ ((o % W : Nat) : Int) ∧ ((o % W : Nat) : Int) < x0 + a + bwr ∧ y0 - b ≤ ((o / W : Nat) : Int) ∧ ((o / W : Nat) : Int) < y0 + b + bhr) pic.data _ _ c1 h3.2.2.2
          exact changed_trans L (fun o => x0 - a ≤ ((o % W : Nat) : Int) ∧ ((o % W : Nat) : Int) < x0 + a + bwr ∧ y0 - b ≤ ((o / W : Nat) : Int) ∧ ((o / W : Nat) : Int) < y0 + b + bhr) pic.data _ _ c2 h4.2.2.2
        by_cases hflip : error - b2 * (x + 1 - 1) ≤ 0
        · rw [if_pos hflip]
          dsimp only
          exact contF _ (hpic2 _ rfl).1 (hpic2 _ rfl).2.1 (hpic2 _ rfl).2.2.1
            (hpic2 _ rfl).2.2.2
        · rw [if_neg hflip]
          dsimp only
          exact contN _ hflip (hpic2 _ rfl).1 (hpic2 _ rfl).2.1 (hpic2 _ rfl).2.2.1
            (hpic2 _ rfl).2.2.2

theorem ellipseBrush2_writes (x0 y0 a b a2 b2 : Int) (bw bh : Int) (brush : Option LongPicture) (bwr bhr : Int)
    (color : Nat) (W H L : Nat)
    (ha : 1 ≤ a) (hb : 1 ≤ b) (hx00 : 0 ≤ x0) (hx0W : x0 < (W : Int))
    (ha2 : a2 = 2 * a * a) (hb2 : b2 = 2 * b * b)
    (hbwr : (match brush with | some br => ((br.width : Nat) : Int) | none => 0) = bwr)
    (hbhr : (match brush with | some br => ((br.height : Nat) : Int) | none => 0) = bhr)
    (hbwr0 : 0 ≤ bwr) (hbhr0 : 0 ≤ bhr) :
    ∀ (fuel : Nat) (x y error stopx stopy : Int) (pic : LongPicture),
      pic.width = W → pic.height = H → pic.data.length = L →
      (stopy ≥ stopx →
        0 ≤ y ∧ x ≤ a ∧ stopy = 2 * b * b * x ∧ stopx = 2 * a * a * y ∧
        error = a * a * (b * b) - b * b * (x * (x - 1)) - a * a * (y * (y - 1)) ∧
        0 ≤ error) →
      (ellipseBrush2 x0 y0 W H a2 b2 bw bh brush fuel x y error stopx stopy pic).width = W ∧
      (ellipseBrush2 x0 y0 W H a2 b2 bw bh brush fuel x y error stopx stopy pic).height = H ∧
      (ellipseBrush2 x0 y0 W H a2 b2 bw bh brush fuel x y error stopx stopy pic).data.length = L ∧
      ∀ o, o < L →
        (ellipseBrush2 x0 y0 W H a2 b2 bw bh brush fuel x y error stopx stopy pic).data.getD o 0 ≠ pic.data.getD o 0 →
        x0 - a ≤ ((o % W : Nat) : Int) ∧ ((o % W : Nat) : Int) < x0 + a + bwr ∧ y0 - b ≤ ((o / W : Nat) : Int) ∧ ((o / W : Nat) : Int) < y0 + b + bhr := by
  intro fuel
  induction fuel with
  | zero =>
      intro x y error stopx stopy pic hW hH hL hinv
      unfold ellipseBrush2
      exact ⟨hW, hH, hL, fun o ho h => absurd rfl h⟩
  | succ n ih =>
      intro x y error stopx stopy pic hW hH hL hinv
      unfold ellipseBrush2
      by_cases hcond : stopy ≥ stopx
      case neg =>
        rw [if_neg hcond]
        exact ⟨hW, hH, hL, fun o ho h => absurd rfl h⟩
      case pos =>
        rw [if_pos hcond]
        dsimp only
        obtain ⟨hy0, hxa, hsy, hsx, herr, herrpos⟩ := hinv hcond
        have hA : 0 < a * a := mul_pos (by omega) (by omega)
        have hB : 0 < b * b := mul_pos (by omega) (by omega)
        have e1 : 2 * b * b * x = 2 * (b * b * x) := by ring
        have e2 : 2 * a * a * y = 2 * (a * a * y) := by ring
        have hAy : 0 ≤ a * a * y := mul_nonneg hA.le hy0
        have hx0n : 0 ≤ x := by
          by_contra hneg
          push_neg at hneg
          have h2 : b * b * x < 0 := mul_neg_of_pos_of_neg hB hneg
          omega
        have hP : 0 ≤ x * (x - 1) := by
          rcases le_or_lt x 0 with h | h
          · have h9 : 0 ≤ (-x) * (1 - x) := mul_nonneg (by omega) (by omega)
            have h10 : (-x) * (1 - x) = x * (x - 1) := by ring
            omega
          · exact mul_nonneg (by omega) (by omega)
        have hBP : 0 ≤ b * b * (x * (x - 1)) := mul_nonneg hB.le hP
        have hyb : y ≤ b := by
          by_contra hcon
          push_neg at hcon
          have h1 : (b + 1) * b ≤ y * (y - 1) :=
            mul_le_mul (by omega) (by omega) (by omega) (by omega)
          have h2 : a * a * ((b + 1) * b) ≤ a * a * (y * (y - 1)) :=
            mul_le_mul_of_nonneg_left h1 hA.le
          have h3 : a * a * ((b + 1) * b) = a * a * (b * b) + b * (a * a) := by ring
          have h4 : 0 < b * (a * a) := mul_pos (by omega) hA
          omega
        have hinvF : stopy - b2 ≥ stopx + a2 →
            0 ≤ y + 1 ∧ x - 1 ≤ a ∧ stopy - b2 = 2 * b * b * (x - 1) ∧
            stopx + a2 = 2 * a * a * (y + 1) ∧
            error - a2 * (y + 1 - 1) + b2 * (x - 1) =
              a * a * (b * b) - b * b * ((x - 1) * (x - 1 - 1)) -
              a * a * ((y + 1) * (y + 1 - 1)) ∧
            0 ≤ error - a2 * (y + 1 - 1) + b2 * (x - 1) := by
          intro hcond2
          have r1 : 2 * b * b * (x - 1) = 2 * (b * b * x) - 2 * (b * b) := by ring
          have r2 : 2 * a * a * (y + 1) = 2 * (a * a * y) + 2 * (a * a) := by ring
          have r3 : a2 * (y + 1 - 1) = 2 * (a * a * y) := by rw [ha2]; ring
          have r4 : b2 * (x - 1) = 2 * (b * b * x) - 2 * (b * b) := by rw [hb2]; ring
          have r6 : b2 = 2 * (b * b) := by rw [hb2]; ring
          have r7 : a2 = 2 * (a * a) := by rw [ha2]; ring
          refine ⟨by omega, by omega, by omega, by omega, by rw [herr, hb2, ha2]; ring, ?_⟩
          omega
        have hinvN : ¬(error - a2 * (y + 1 - 1) < 0) → stopy ≥ stopx + a2 →
            0 ≤ y + 1 ∧ x ≤ a ∧ stopy = 2 * b * b * x ∧
            stopx + a2 = 2 * a * a * (y + 1) ∧
            error - a2 * (y + 1 - 1) =
              a * a * (b * b) - b * b * (x * (x - 1)) -
              a * a * ((y + 1) * (y + 1 - 1)) ∧
            0 ≤ error - a2 * (y + 1 - 1) := by
          intro hfl hcond2
          have r2 : 2 * a * a * (y + 1) = 2 * (a * a * y) + 2 * (a * a) := by ring
          have r3 : a2 * (y + 1 - 1) = 2 * (a * a * y) := by rw [ha2]; ring
          have r7 : a2 = 2 * (a * a) := by rw [ha2]; ring
          refine ⟨by omega, hxa, hsy, by omega, by rw [herr, ha2]; ring, by omega⟩
        have contF : ∀ pic2 : LongPicture, pic2.width = W → pic2.height = H →
            pic2.data.length = L →
            (∀ o, o < L → pic2.data.getD o 0 ≠ pic.data.getD o 0 → x0 - a ≤ ((o % W : Nat) : Int) ∧ ((o % W : Nat) : Int) < x0 + a + bwr ∧ y0 - b ≤ ((o / W : Nat) : Int) ∧ ((o / W : Nat) : Int) < y0 + b + bhr) →
            (ellipseBrush2 x0 y0 W H a2 b2 bw bh brush n (x - 1) (y + 1)
               (error - a2 * (y + 1 - 1) + b2 * (x - 1)) (stopx + a2) (stopy - b2) pic2).width = W ∧
            (ellipseBrush2 x0 y0 W H a2 b2 bw bh brush n (x - 1) (y + 1)
               (error - a2 * (y + 1 - 1) + b2 * (x - 1)) (stopx + a2) (stopy - b2) pic2).height = H ∧
            (ellipseBrush2 x0 y0 W H a2 b2 bw bh brush n (x - 1) (y + 1)
               (error - a2 * (y + 1 - 1) + b2 * (x - 1)) (stopx + a2) (stopy - b2) pic2).data.length = L ∧
            ∀ o, o < L →
              (ellipseBrush2 x0 y0 W H a2 b2 bw bh brush n (x - 1) (y + 1)
               (error - a2 * (y + 1 - 1) + b2 * (x - 1)) (stopx + a2) (stopy - b2) pic2).data.getD o 0 ≠ pic.data.getD o 0 →
              x0 - a ≤ ((o % W : Nat) : Int) ∧ ((o % W : Nat) : Int) < x0 + a + bwr ∧ y0 - b ≤ ((o / W : Nat) : Int) ∧ ((o / W : Nat) : Int) < y0 + b + bhr := by
          intro pic2 hq1 hq2 hq3 hq4
          obtain ⟨I1, I2, I3, I4⟩ := ih _ _ _ _ _ pic2 hq1 hq2 hq3 hinvF
          exact ⟨I1, I2, I3, changed_trans L (fun o => x0 - a ≤ ((o % W : Nat) : Int) ∧ ((o % W : Nat) : Int) < x0 + a + bwr ∧ y0 - b ≤ ((o / W : Nat) : Int) ∧ ((o / W : Nat) : Int) < y0 + b + bhr) pic.data _ _ hq4 I4⟩
        have contN : ∀ pic2 : LongPicture, ¬(error - a2 * (y + 1 - 1) < 0) →
            pic2.width = W → pic2.height = H →
            pic2.data.length = L →
            (∀ o, o < L → pic2.data.getD o 0 ≠ pic.data.getD o 0 → x0 - a ≤ ((o % W : Nat) : Int) ∧ ((o % W : Nat) : Int) < x0 + a + bwr ∧ y0 - b ≤ ((o / W : Nat) : Int) ∧ ((o / W : Nat) : Int) < y0 + b + bhr) →
            (ellipseBrush2 x0 y0 W H a2 b2 bw bh brush n x (y + 1)
               (error - a2 * (y + 1 - 1)) (stopx + a2) stopy pic2).width = W ∧
            (ellipseBrush2 x0 y0 W H a2 b2 bw bh brush n x (y + 1)
               (error - a2 * (y + 1 - 1)) (stopx + a2) stopy pic2).height = H ∧
            (ellipseBrush2 x0 y0 W H a2 b2 bw bh brush n x (y + 1)
               (error - a2 * (y + 1 - 1)) (stopx + a2) stopy pic2).data.length = L ∧
            ∀ o, o < L →
              (ellipseBrush2 x0 y0 W H a2 b2 bw bh brush n x (y + 1)
               (error - a2 * (y + 1 - 1)) (stopx + a2) stopy pic2).data.getD o 0 ≠ pic.data.getD o 0 →
              x0 - a ≤ ((o % W : Nat) : Int) ∧ ((o % W : Nat) : Int) < x0 + a + bwr ∧ y0 - b ≤ ((o / W : Nat) : Int) ∧ ((o / W : Nat) : Int) < y0 + b + bhr := by
          intro pic2 hfl hq1 hq2 hq3 hq4
          obtain ⟨I1, I2, I3, I4⟩ := ih _ _ _ _ _ pic2 hq1 hq2 hq3 (hinvN hfl)
          exact ⟨I1, I2, I3, changed_trans L (fun o => x0 - a ≤ ((o % W : Nat) : Int) ∧ ((o % W : Nat) : Int) < x0 + a + bwr ∧ y0 - b ≤ ((o / W : Nat) : Int) ∧ ((o / W : Nat) : Int) < y0 + b + bhr) pic.data _ _ hq4 I4⟩
        have hstamp : ∀ (xx yy : Int) (picA : LongPicture), picA.width = W →
            picA.height = H → picA.data.length = L →
            x0 - a ≤ xx → xx ≤ x0 + a → y0 - b ≤ yy → yy ≤ y0 + b →
            (ellipseStamp picA brush bw bh W H xx yy).width = W ∧
            (ellipseStamp picA brush bw bh W H xx yy).height = H ∧
            (ellipseStamp picA brush bw bh W H xx yy).data.length = L ∧
            ∀ o, o < L →
              (ellipseStamp picA brush bw bh W H xx yy).data.getD o 0 ≠
                picA.data.getD o 0 →
              x0 - a ≤ ((o % W : Nat) : Int) ∧ ((o % W : Nat) : Int) < x0 + a + bwr ∧ y0 - b ≤ ((o / W : Nat) : Int) ∧ ((o / W : Nat) : Int) < y0 + b + bhr := by
          intro xx yy picA hq1 hq2 hq3 hc1 hc2 hc3 hc4
          have hsw := ellipseStamp_writes picA brush bw bh W H xx yy bwr bhr hbwr hbhr
          refine ⟨by rw [hsw.1, hq1], by rw [hsw.2.1, hq2], by rw [hsw.2.2.1, hq3],
            fun o ho hchg => ?_⟩
          have hm := hsw.2.2.2 o (by omega) hchg
          rw [hq1] at hm
          obtain ⟨m1, m2, m3, m4⟩ := hm
          refine ⟨by omega, by omega, by omega, by omega⟩
        have hpic2 : ∀ (picZ : LongPicture), picZ =
            ellipseStamp (ellipseStamp (ellipseStamp (ellipseStamp pic brush bw bh W H
              (x0 + x) (y0 + y)) brush bw bh W H (x0 - x) (y0 + y)) brush bw bh W H
              (x0 - x) (y0 - y)) brush bw bh W H (x0 + x) (y0 - y) →
            picZ.width = W ∧ picZ.height = H ∧ picZ.data.length = L ∧
            ∀ o, o < L → picZ.data.getD o 0 ≠ pic.data.getD o 0 → x0 - a ≤ ((o % W : Nat) : Int) ∧ ((o % W : Nat) : Int) < x0 + a + bwr ∧ y0 - b ≤ ((o / W : Nat) : Int) ∧ ((o / W : Nat) : Int) < y0 + b + bhr := by
          intro picZ hz
          subst hz
          have h1 := hstamp (x0 + x) (y0 + y) pic hW hH hL (by omega) (by omega)
            (by omega) (by omega)
          have h2 := hstamp (x0 - x) (y0 + y) _ h1.1 h1.2.1 h1.2.2.1 (by omega)
            (by omega) (by omega) (by omega)
          have h3 := hstamp (x0 - x) (y0 - y) _ h2.1 h2.2.1 h2.2.2.1 (by omega)
            (by omega) (by omega) (by omega)
          have h4 := hstamp (x0 + x) (y0 - y) _ h3.1 h3.2.1 h3.2.2.1 (by omega)
            (by omega) (by omega) (by omega)
          refine ⟨h4.1, h4.2.1, h4.2.2.1, ?_⟩
          have c1 := changed_trans L (fun o => x0 - a ≤ ((o % W : Nat) : Int) ∧ ((o % W : Nat) : Int) < x0 + a + bwr ∧ y0 - b ≤ ((o / W : Nat) : Int) ∧ ((o / W : Nat) : Int) < y0 + b + bhr) pic.data _ _ h1.2.2.2 h2.2.2.2
          have c2 := changed_trans L (fun o => x0 - a ≤ ((o % W : Nat) : Int) ∧ ((o % W : Nat) : Int) < x0 + a + bwr ∧ y0 - b ≤ ((o / W : Nat) : Int) ∧ ((o / W : Nat) : Int) < y0 + b + bhr) pic.data _ _ c1 h3.2.2.2
          exact changed_trans L (fun o => x0 - a ≤ ((o % W : Nat) : Int) ∧ ((o % W : Nat) : Int) < x0 + a + bwr ∧ y0 - b ≤ ((o / W : Nat) : Int) ∧ ((o / W : Nat) : Int) < y0 + b + bhr) pic.data _ _ c2 h4.2.2.2
        by_cases hflip : error - a2 * (y + 1 - 1) < 0
        · rw [if_pos hflip]
          dsimp only
          exact contF _ (hpic2 _ rfl).1 (hpic2 _ rfl).2.1 (hpic2 _ rfl).2.2.1
            (hpic2 _ rfl).2.2.2
        · rw [if_neg hflip]
          dsimp only
          exact contN _ hflip (hpic2 _ rfl).1 (hpic2 _ rfl).2.1 (hpic2 _ rfl).2.2.1
            (hpic2 _ rfl).2.2.2

/-- Containment of `draw_ellipse`: dimensions are preserved and every
changed pixel lies in the returned rectangle (the padded ellipse bounding
box intersected with the picture bounds). -/
theorem draw_ellipse_writes (pic : LongPicture) (x0 y0 a b : Int)
    (brush : Option LongPicture) (color : Nat) (fill : Bool)
    (hlen : pic.data.length = pic.width * pic.height) :
    (draw_ellipse pic (x0, y0) (a, b) brush color fill).2.width = pic.width ∧
    (draw_ellipse pic (x0, y0) (a, b) brush color fill).2.height = pic.height ∧
    (draw_ellipse pic (x0, y0) (a, b) brush color fill).2.data.length =
      pic.data.length ∧
    ∀ o, o < pic.data.length →
      (draw_ellipse pic (x0, y0) (a, b) brush color fill).2.data.getD o 0 ≠
        pic.data.getD o 0 →
      ∃ r, (draw_ellipse pic (x0, y0) (a, b) brush color fill).1 = some r ∧
        r.containsPt ((o % pic.width : Nat) : Int) ((o / pic.width : Nat) : Int) := by
  rcases brush with _ | br
  case none =>
    unfold draw_ellipse
    dsimp only
    by_cases hg : a ≤ 0 ∨ b ≤ 0
    · rw [if_pos hg]
      exact ⟨rfl, rfl, rfl, fun o ho h => absurd rfl h⟩
    · rw [if_neg hg]
      push_neg at hg
      have ha0 : (0 : Int) < a := hg.1
      have hb0 : (0 : Int) < b := hg.2
      by_cases hg2 : ¬(0 ≤ x0 ∧ x0 < (pic.width : Int)) ∨
          ¬(0 ≤ y0 ∧ y0 < (pic.height : Int))
      · rw [if_pos hg2]
        exact ⟨rfl, rfl, rfl, fun o ho h => absurd rfl h⟩
      · rw [if_neg hg2]
        push_neg at hg2
        obtain ⟨⟨hx00, hx0W⟩, hy00, hy0H⟩ := hg2
        rw [if_neg (show ¬(b = 0) by omega), if_neg (show ¬(a = 0) by omega)]
        have hbwv0 : (0 : Int) ≤ 0 := le_refl 0
        have hbhv0 : (0 : Int) ≤ 0 := le_refl 0
        by_cases hf : fill = true
        · rw [if_pos hf]
          have hinit1 : (0 : Int) ≤ 2 * a * a * b →
              (0 : Int) ≤ 0 ∧ b ≤ b ∧ (0 : Int) = 2 * b * b * 0 ∧
              2 * a * a * b = 2 * a * a * b ∧
              a * a * b = a * a * (b * b) - b * b * (0 * (0 - 1)) -
                a * a * (b * (b - 1)) ∧
              0 < a * a * b := by
            intro h9
            exact ⟨le_refl 0, le_refl b, by ring, rfl, by ring,
              mul_pos (mul_pos ha0 ha0) hb0⟩
          have hF1 := ellipseFill1_writes x0 y0 a b (2 * a * a) (2 * b * b) color
            pic.width pic.height pic.data.length (by omega) (by omega) hx00 hx0W
            rfl rfl ((2 * a * a * b).toNat + 2) 0 b (a * a * b) (2 * a * a * b) 0
            pic rfl rfl rfl hinit1
          have hinit2 : 2 * b * b * a ≥ (0 : Int) →
              (0 : Int) ≤ 0 ∧ a ≤ a ∧ 2 * b * b * a = 2 * b * b * a ∧
              (0 : Int) = 2 * a * a * 0 ∧
              b * b * a = a * a * (b * b) - b * b * (a * (a - 1)) -
                a * a * (0 * (0 - 1)) ∧
              (0 : Int) ≤ b * b * a := by
            intro h9
            exact ⟨le_refl 0, le_refl a, rfl, by ring, by ring,
              (mul_pos (mul_pos hb0 hb0) ha0).le⟩
          have hF2 := ellipseFill2_writes x0 y0 a b (2 * a * a) (2 * b * b) color
            pic.width pic.height pic.data.length (by omega) (by omega) hx00 hx0W
            rfl rfl ((2 * b * b * a).toNat + 2) a 0 (b * b * a) 0 (2 * b * b * a)
            (ellipseFill1 x0 y0 pic.width pic.height (2 * a * a) (2 * b * b) color
              ((2 * a * a * b).toNat + 2) 0 b (a * a * b) (2 * a * a * b) 0 pic)
            hF1.1 hF1.2.1 hF1.2.2.1 hinit2
          refine ⟨hF2.1, hF2.2.1, hF2.2.2.1, fun o ho hchg => ?_⟩
          have hbox := changed_trans pic.data.length
            (fun o => x0 - a ≤ ((o % pic.width : Nat) : Int) ∧ ((o % pic.width : Nat) : Int) ≤ x0 + a ∧
              y0 - b ≤ ((o / pic.width : Nat) : Int) ∧ ((o / pic.width : Nat) : Int) ≤ y0 + b)
            pic.data _ _ hF1.2.2.2 hF2.2.2.2 o ho hchg
          have hrect : ∀ q : LongPicture, q.width = pic.width →
              q.height = pic.height → q.rect = pic.rect := by
            intro q hq1 hq2
            unfold LongPicture.rect
            rw [hq1, hq2]
          have hmem1 := mem_pic_rect pic o hlen ho
          obtain ⟨r, hr, hrmem⟩ := intersect_mem pic.rect
            ⟨x0 - a - 1, y0 - b - 1, 2 * a + 0 + 2, 2 * b + 0 + 2⟩
            ((o % pic.width : Nat) : Int) ((o / pic.width : Nat) : Int) hmem1
            (by unfold Rectangle.containsPt; dsimp only; omega)
          rw [hrect _ hF2.1 hF2.2.1]
          exact ⟨r, hr, hrmem⟩
        · rw [if_neg hf]
          have hinit1 : (0 : Int) ≤ 2 * a * a * b →
              (0 : Int) ≤ 0 ∧ b ≤ b ∧ (0 : Int) = 2 * b * b * 0 ∧
              2 * a * a * b = 2 * a * a * b ∧
              a * a * b = a * a * (b * b) - b * b * (0 * (0 - 1)) -
                a * a * (b * (b - 1)) ∧
              0 < a * a * b := by
            intro h9
            exact ⟨le_refl 0, le_refl b, by ring, rfl, by ring,
              mul_pos (mul_pos ha0 ha0) hb0⟩
          have hB1 := ellipseBrush1_writes x0 y0 a b (2 * a * a) (2 * b * b)
            0 0 none 0 0 color
            pic.width pic.height pic.data.length
            (by omega) (by omega) hx00 hx0W rfl rfl rfl rfl hbwv0 hbhv0
            ((2 * a * a * b).toNat + 2) 0 b (a * a * b) (2 * a * a * b) 0
            pic rfl rfl rfl hinit1
          have hinit2 : 2 * b * b * a ≥ (0 : Int) →
              (0 : Int) ≤ 0 ∧ a ≤ a ∧ 2 * b * b * a = 2 * b * b * a ∧
              (0 : Int) = 2 * a * a * 0 ∧
              b * b * a = a * a * (b * b) - b * b * (a * (a - 1)) -
                a * a * (0 * (0 - 1)) ∧
              (0 : Int) ≤ b * b * a := by
            intro h9
            exact ⟨le_refl 0, le_refl a, rfl, by ring, by ring,
              (mul_pos (mul_pos hb0 hb0) ha0).le⟩
          have hB2 := ellipseBrush2_writes x0 y0 a b (2 * a * a) (2 * b * b)
            0 0 none 0 0 color
            pic.width pic.height pic.data.length
            (by omega) (by omega) hx00 hx0W rfl rfl rfl rfl hbwv0 hbhv0
            ((2 * b * b * a).toNat + 2) a 0 (b * b * a) 0 (2 * b * b * a)
            (ellipseBrush1 x0 y0 pic.width pic.height (2 * a * a) (2 * b * b)
              0 0 none ((2 * a * a * b).toNat + 2) 0 b (a * a * b)
              (2 * a * a * b) 0 pic)
            hB1.1 hB1.2.1 hB1.2.2.1 hinit2
          refine ⟨hB2.1, hB2.2.1, hB2.2.2.1, fun o ho hchg => ?_⟩
          have hbox := changed_trans pic.data.length
            (fun o => x0 - a ≤ ((o % pic.width : Nat) : Int) ∧ ((o % pic.width : Nat) : Int) < x0 + a + 0 ∧
              y0 - b ≤ ((o / pic.width : Nat) : Int) ∧ ((o / pic.width : Nat) : Int) < y0 + b + 0)
            pic.data _ _ hB1.2.2.2 hB2.2.2.2 o ho hchg
          have hrect : ∀ q : LongPicture, q.width = pic.width →
              q.height = pic.height → q.rect = pic.rect := by
            intro q hq1 hq2
            unfold LongPicture.rect
            rw [hq1, hq2]
          have hmem1 := mem_pic_rect pic o hlen ho
          obtain ⟨r, hr, hrmem⟩ := intersect_mem pic.rect
            ⟨x0 - a - 1, y0 - b - 1, 2 * a + 0 + 2, 2 * b + 0 + 2⟩
            ((o % pic.width : Nat) : Int) ((o / pic.width : Nat) : Int) hmem1
            (by unfold Rectangle.containsPt; dsimp only; omega)
          rw [hrect _ hB2.1 hB2.2.1]
          exact ⟨r, hr, hrmem⟩
  case some =>
    unfold draw_ellipse
    dsimp only
    by_cases hg : a ≤ 0 ∨ b ≤ 0
    · rw [if_pos hg]
      exact ⟨rfl, rfl, rfl, fun o ho h => absurd rfl h⟩
    · rw [if_neg hg]
      push_neg at hg
      have ha0 : (0 : Int) < a := hg.1
      have hb0 : (0 : Int) < b := hg.2
      by_cases hg2 : ¬(0 ≤ x0 ∧ x0 < (pic.width : Int)) ∨
          ¬(0 ≤ y0 ∧ y0 < (pic.height : Int))
      · rw [if_pos hg2]
        exact ⟨rfl, rfl, rfl, fun o ho h => absurd rfl h⟩
      · rw [if_neg hg2]
        push_neg at hg2
        obtain ⟨⟨hx00, hx0W⟩, hy00, hy0H⟩ := hg2
        rw [if_neg (show ¬(b = 0) by omega), if_neg (show ¬(a = 0) by omega)]
        have hbwv0 : (0 : Int) ≤ ((br.width : Nat) : Int) := Int.natCast_nonneg _
        have hbhv0 : (0 : Int) ≤ ((br.height : Nat) : Int) := Int.natCast_nonneg _
        by_cases hf : fill = true
        · rw [if_pos hf]
          have hinit1 : (0 : Int) ≤ 2 * a * a * b →
              (0 : Int) ≤ 0 ∧ b ≤ b ∧ (0 : Int) = 2 * b * b * 0 ∧
              2 * a * a * b = 2 * a * a * b ∧
              a * a * b = a * a * (b * b) - b * b * (0 * (0 - 1)) -
                a * a * (b * (b - 1)) ∧
              0 < a * a * b := by
            intro h9
            exact ⟨le_refl 0, le_refl b, by ring, rfl, by ring,
              mul_pos (mul_pos ha0 ha0) hb0⟩
          have hF1 := ellipseFill1_writes x0 y0 a b (2 * a * a) (2 * b * b) color
            pic.width pic.height pic.data.length (by omega) (by omega) hx00 hx0W
            rfl rfl ((2 * a * a * b).toNat + 2) 0 b (a * a * b) (2 * a * a * b) 0
            pic rfl rfl rfl hinit1
          have hinit2 : 2 * b * b * a ≥ (0 : Int) →
              (0 : Int) ≤ 0 ∧ a ≤ a ∧ 2 * b * b * a = 2 * b * b * a ∧
              (0 : Int) = 2 * a * a * 0 ∧
              b * b * a = a * a * (b * b) - b * b * (a * (a - 1)) -
                a * a * (0 * (0 - 1)) ∧
              (0 : Int) ≤ b * b * a := by
            intro h9
            exact ⟨le_refl 0, le_refl a, rfl, by ring, by ring,
              (mul_pos (mul_pos hb0 hb0) ha0).le⟩
          have hF2 := ellipseFill2_writes x0 y0 a b (2 * a * a) (2 * b * b) color
            pic.width pic.height pic.data.length (by omega) (by omega) hx00 hx0W
            rfl rfl ((2 * b * b * a).toNat + 2) a 0 (b * b * a) 0 (2 * b * b * a)
            (ellipseFill1 x0 y0 pic.width pic.height (2 * a * a) (2 * b * b) color
              ((2 * a * a * b).toNat + 2) 0 b (a * a * b) (2 * a * a * b) 0 pic)
            hF1.1 hF1.2.1 hF1.2.2.1 hinit2
          refine ⟨hF2.1, hF2.2.1, hF2.2.2.1, fun o ho hchg => ?_⟩
          have hbox := changed_trans pic.data.length
            (fun o => x0 - a ≤ ((o % pic.width : Nat) : Int) ∧ ((o % pic.width : Nat) : Int) ≤ x0 + a ∧
              y0 - b ≤ ((o / pic.width : Nat) : Int) ∧ ((o / pic.width : Nat) : Int) ≤ y0 + b)
            pic.data _ _ hF1.2.2.2 hF2.2.2.2 o ho hchg
          have hrect : ∀ q : LongPicture, q.width = pic.width →
              q.height = pic.height → q.rect = pic.rect := by
            intro q hq1 hq2
            unfold LongPicture.rect
            rw [hq1, hq2]
          have hmem1 := mem_pic_rect pic o hlen ho
          obtain ⟨r, hr, hrmem⟩ := intersect_mem pic.rect
            ⟨x0 - a - 1, y0 - b - 1, 2 * a + ((br.width : Nat) : Int) + 2, 2 * b + ((br.height : Nat) : Int) + 2⟩
            ((o % pic.width : Nat) : Int) ((o / pic.width : Nat) : Int) hmem1
            (by unfold Rectangle.containsPt; dsimp only; omega)
          rw [hrect _ hF2.1 hF2.2.1]
          exact ⟨r, hr, hrmem⟩
        · rw [if_neg hf]
          have hinit1 : (0 : Int) ≤ 2 * a * a * b →
              (0 : Int) ≤ 0 ∧ b ≤ b ∧ (0 : Int) = 2 * b * b * 0 ∧
              2 * a * a * b = 2 * a * a * b ∧
              a * a * b = a * a * (b * b) - b * b * (0 * (0 - 1)) -
                a * a * (b * (b - 1)) ∧
              0 < a * a * b := by
            intro h9
            exact ⟨le_refl 0, le_refl b, by ring, rfl, by ring,
              mul_pos (mul_pos ha0 ha0) hb0⟩
          have hB1 := ellipseBrush1_writes x0 y0 a b (2 * a * a) (2 * b * b)
            ((br.width : Nat) : Int) ((br.height : Nat) : Int) (some br) ((br.width : Nat) : Int) ((br.height : Nat) : Int) color
            pic.width pic.height pic.data.length
            (by omega) (by omega) hx00 hx0W rfl rfl rfl rfl hbwv0 hbhv0
            ((2 * a * a * b).toNat + 2) 0 b (a * a * b) (2 * a * a * b) 0
            pic rfl rfl rfl hinit1
          have hinit2 : 2 * b * b * a ≥ (0 : Int) →
              (0 : Int) ≤ 0 ∧ a ≤ a ∧ 2 * b * b * a = 2 * b * b * a ∧
              (0 : Int) = 2 * a * a * 0 ∧
              b * b * a = a * a * (b * b) - b * b * (a * (a - 1)) -
                a * a * (0 * (0 - 1)) ∧
              (0 : Int) ≤ b * b * a := by
            intro h9
            exact ⟨le_refl 0, le_refl a, rfl, by ring, by ring,
              (mul_pos (mul_pos hb0 hb0) ha0).le⟩
          have hB2 := ellipseBrush2_writes x0 y0 a b (2 * a * a) (2 * b * b)
            ((br.width : Nat) : Int) ((br.height : Nat) : Int) (some br) ((br.width : Nat) : Int) ((br.height : Nat) : Int) color
            pic.width pic.height pic.data.length
            (by omega) (by omega) hx00 hx0W rfl rfl rfl rfl hbwv0 hbhv0
            ((2 * b * b * a).toNat + 2) a 0 (b * b * a) 0 (2 * b * b * a)
            (ellipseBrush1 x0 y0 pic.width pic.height (2 * a * a) (2 * b * b)
              ((br.width : Nat) : Int) ((br.height : Nat) : Int) (some br) ((2 * a * a * b).toNat + 2) 0 b (a * a * b)
              (2 * a * a * b) 0 pic)
            hB1.1 hB1.2.1 hB1.2.2.1 hinit2
          refine ⟨hB2.1, hB2.2.1, hB2.2.2.1, fun o ho hchg => ?_⟩
          have hbox := changed_trans pic.data.length
            (fun o => x0 - a ≤ ((o % pic.width : Nat) : Int) ∧ ((o % pic.width : Nat) : Int) < x0 + a + ((br.width : Nat) : Int) ∧
              y0 - b ≤ ((o / pic.width : Nat) : Int) ∧ ((o / pic.width : Nat) : Int) < y0 + b + ((br.height : Nat) : Int))
            pic.data _ _ hB1.2.2.2 hB2.2.2.2 o ho hchg
          have hrect : ∀ q : LongPicture, q.width = pic.width →
              q.height = pic.height → q.rect = pic.rect := by
            intro q hq1 hq2
            unfold LongPicture.rect
            rw [hq1, hq2]
          have hmem1 := mem_pic_rect pic o hlen ho
          obtain ⟨r, hr, hrmem⟩ := intersect_mem pic.rect
            ⟨x0 - a - 1, y0 - b - 1, 2 * a + ((br.width : Nat) : Int) + 2, 2 * b + ((br.height : Nat) : Int) + 2⟩
            ((o % pic.width : Nat) : Int) ((o / pic.width : Nat) : Int) hmem1
            (by unfold Rectangle.containsPt; dsimp only; omega)
          rw [hrect _ hB2.1 hB2.2.1]
          exact ⟨r, hr, hrmem⟩
theorem scanRight_box (pic0 : LongPicture) (sc cv : Nat)
    (hlen0 : pic0.data.length = pic0.width * pic0.height)
    (y : Int) (hy : 0 ≤ y) (hyh : y < (pic0.height : Int)) :
    ∀ (fuel : Nat) (x : Int) (rt rb : Bool) (st : FillState), 0 ≤ x →
      fillBoxInv pic0 st →
      fillBoxInv pic0 (scanRight sc cv y fuel x rt rb st) := by
  intro fuel
  induction fuel with
  | zero =>
      intro x rt rb st hx hinv
      unfold scanRight
      exact hinv
  | succ n ih =>
      intro x rt rb st hx hinv
      unfold scanRight
      by_cases hg : x < (st.pic.width : Int) ∧ st.pic.pixMask x y = sc
      case neg =>
        rw [if_neg hg]
        exact hinv
      case pos =>
        rw [if_pos hg]
        dsimp only
        unfold fillBoxInv at hinv
        obtain ⟨hW, hH, hL, hdata⟩ := hinv
        have hxw : x < (pic0.width : Int) := by rw [← hW]; exact hg.1
        have hyh1 : y < (st.pic.height : Int) := by rw [hH]; exact hyh
        have hd1 : (st.pic.set_pixel x y cv).data =
            st.pic.data.set (st.pic.width * y.toNat + x.toNat) (cv % wordMod) :=
          set_pixel_data_int st.pic x y cv hx hg.1 hy hyh1
        have hdim1 := set_pixel_dims st.pic x y cv
        have hxnW : x.toNat < pic0.width := by omega
        have hynH : y.toNat < pic0.height := by omega
        apply ih
        · omega
        · unfold fillBoxInv
          dsimp only
          refine ⟨by rw [hdim1.1, hW], by rw [hdim1.2.1, hH],
            by rw [hdim1.2.2, hL], ?_⟩
          intro o ho hchg
          rw [hd1, getD_set] at hchg
          by_cases heq : st.pic.width * y.toNat + x.toNat = o ∧
              st.pic.width * y.toNat + x.toNat < st.pic.data.length
          · have ho1 : o % pic0.width = x.toNat := by
              rw [← heq.1, hW, Nat.mul_add_mod, Nat.mod_eq_of_lt hxnW]
            have ho2 : o / pic0.width = y.toNat := by
              rw [← heq.1, hW, Nat.mul_add_div (show 0 < pic0.width by omega),
                Nat.div_eq_of_lt hxnW]
              omega
            have hco1 : ((o % pic0.width : Nat) : Int) = x := by rw [ho1]; omega
            have hco2 : ((o / pic0.width : Nat) : Int) = y := by rw [ho2]; omega
            rw [hco1, hco2]
            refine ⟨by omega, by omega, by omega, by omega⟩
          · rw [if_neg heq] at hchg
            have := hdata o ho hchg
            refine ⟨by omega, by omega, by omega, by omega⟩

theorem fillLoop_box (pic0 : LongPicture) (sc cv : Nat) (hne : cv % 256 ≠ sc)
    (hlen0 : pic0.data.length = pic0.width * pic0.height) :
    ∀ (fuel : Nat) (st st2 : FillState), fillBoxInv pic0 st →
      (∀ q ∈ st.stack, 0 ≤ q.1 ∧ q.1 < (pic0.width : Int) ∧ 0 ≤ q.2 ∧
        q.2 < (pic0.height : Int)) →
      fillLoop sc cv fuel st = some st2 → fillBoxInv pic0 st2 := by
  intro fuel
  induction fuel with
  | zero =>
      intro st st2 hinv hstk heq
      unfold fillLoop at heq
      by_cases hemp : st.stack.isEmpty
      · rw [if_pos hemp] at heq
        have h9 := Option.some.inj heq
        rw [← h9]
        exact hinv
      · rw [if_neg hemp] at heq
        exact Option.noConfusion heq
  | succ n ih =>
      intro st st2 hinv hstk heq
      unfold fillLoop at heq
      rcases hstack : st.stack with _ | ⟨⟨x, y⟩, rest⟩
      · rw [hstack] at heq
        dsimp only at heq
        have h9 := Option.some.inj heq
        rw [← h9]
        exact hinv
      · rw [hstack] at heq
        dsimp only at heq
        have hq := hstk (x, y) (by rw [hstack]; exact List.mem_cons_self _ _)
        obtain ⟨hW, hH, hL, hdata⟩ := hinv
        have hx0nn : 0 ≤ scanLeft st.pic sc y (x + 1).toNat x :=
          scanLeft_nonneg st.pic sc y (x + 1).toNat x hq.1 (by omega)
        have hinvrest : fillBoxInv pic0 { st with stack := rest } := by
          unfold fillBoxInv
          dsimp only
          exact ⟨hW, hH, hL, hdata⟩
        have hlenst : ({ st with stack := rest } : FillState).pic.data.length =
            ({ st with stack := rest } : FillState).pic.width *
            ({ st with stack := rest } : FillState).pic.height := by
          dsimp only
          rw [hW, hH, hL]
          exact hlen0
        obtain ⟨k, M1, M2, M3, M4, M5, M6⟩ := scanRight_measure sc cv y hne
          st.pic.width (scanLeft st.pic sc y (x + 1).toNat x) false false
          { st with stack := rest } hx0nn hq.2.2.1 (by dsimp only; rw [hH]; exact hq.2.2.2)
          hlenst
        apply ih _ st2
          (scanRight_box pic0 sc cv hlen0 y hq.2.2.1 hq.2.2.2
            st.pic.width (scanLeft st.pic sc y (x + 1).toNat x) false false
            { st with stack := rest } hx0nn hinvrest)
          _ heq
        intro q hq2
        rcases M6 q hq2 with h3 | h3
        · exact hstk q (by rw [hstack]; exact List.mem_cons_of_mem _ h3)
        · dsimp only at h3
          rw [hW, hH] at h3
          exact h3
/-- Containment of `draw_fill`: when the call returns, dimensions are
preserved and every changed pixel lies in the returned dirty rectangle
(the bounding box the loop accumulates from the pixels it colours). -/
theorem draw_fill_writes (pic : LongPicture) (sx sy : Int) (color : Nat)
    (hlen : pic.data.length = pic.width * pic.height)
    (res : Option Rectangle) (pic2 : LongPicture)
    (hrun : draw_fill pic (sx, sy) color = some (res, pic2)) :
    pic2.width = pic.width ∧ pic2.height = pic.height ∧
    pic2.data.length = pic.data.length ∧
    ∀ o, o < pic.data.length → pic2.data.getD o 0 ≠ pic.data.getD o 0 →
      ∃ r, res = some r ∧
        r.containsPt ((o % pic.width : Nat) : Int) ((o / pic.width : Nat) : Int) := by
  by_cases hin : pic.inBounds sx sy
  case neg =>
    unfold draw_fill at hrun
    dsimp only at hrun
    rw [show pic.get_pixel sx sy = none from by
      unfold LongPicture.get_pixel; rw [if_neg hin]] at hrun
    exact Option.noConfusion hrun
  case pos =>
    have hin4 : 0 ≤ sx ∧ sx < (pic.width : Int) ∧ 0 ≤ sy ∧
        sy < (pic.height : Int) := hin
    have hg : pic.get_pixel sx sy = some (pic.pixMask sx sy) := by
      unfold LongPicture.get_pixel LongPicture.pixMask
      rw [if_pos hin]
    unfold draw_fill at hrun
    dsimp only at hrun
    rw [hg] at hrun
    dsimp only at hrun
    by_cases hc : pic.pixMask sx sy % 256 = color % 256
    · rw [if_pos hc] at hrun
      have h5 : pic = pic2 := congrArg Prod.snd (Option.some.inj hrun)
      refine ⟨by rw [← h5], by rw [← h5], by rw [← h5], fun o ho hchg => ?_⟩
      rw [← h5] at hchg
      exact absurd rfl hchg
    · rw [if_neg hc] at hrun
      cases hloop : fillLoop (pic.pixMask sx sy % 256) color
          (3 * matchCount (pic.pixMask sx sy % 256) pic.data + 1)
          ⟨pic, [(sx, sy)], (pic.width : Int), 0, (pic.height : Int), 0⟩ with
      | none =>
          rw [hloop] at hrun
          exact Option.noConfusion hrun
      | some stf =>
          rw [hloop] at hrun
          dsimp only at hrun
          have hpic2 : pic2 = stf.pic :=
            (congrArg Prod.snd (Option.some.inj hrun)).symm
          have hres : res = some ⟨stf.xmin, stf.ymin, stf.xmax - stf.xmin + 1,
              stf.ymax - stf.ymin + 1⟩ :=
            (congrArg Prod.fst (Option.some.inj hrun)).symm
          have hne : color % 256 ≠ pic.pixMask sx sy % 256 := fun h => hc h.symm
          have hinv0 : fillBoxInv pic
              ⟨pic, [(sx, sy)], (pic.width : Int), 0, (pic.height : Int), 0⟩ := by
            unfold fillBoxInv
            dsimp only
            exact ⟨rfl, rfl, rfl, fun o ho hchg => absurd rfl hchg⟩
          have hinvf := fillLoop_box pic (pic.pixMask sx sy % 256) color hne hlen
            (3 * matchCount (pic.pixMask sx sy % 256) pic.data + 1)
            ⟨pic, [(sx, sy)], (pic.width : Int), 0, (pic.height : Int), 0⟩ stf
            hinv0
            (by
              intro q hq
              have hq2 : q = (sx, sy) := by simpa using hq
              subst hq2
              exact ⟨hin4.1, hin4.2.1, hin4.2.2.1, hin4.2.2.2⟩)
            hloop
          unfold fillBoxInv at hinvf
          obtain ⟨hW, hH, hL, hdata⟩ := hinvf
          refine ⟨by rw [hpic2]; exact hW, by rw [hpic2]; exact hH,
            by rw [hpic2]; exact hL, fun o ho hchg => ?_⟩
          rw [hpic2] at hchg
          have hbox := hdata o ho hchg
          refine ⟨⟨stf.xmin, stf.ymin, stf.xmax - stf.xmin + 1,
            stf.ymax - stf.ymin + 1⟩, hres, ?_⟩
          unfold Rectangle.containsPt
          dsimp only
          refine ⟨by omega, by omega, by omega, by omega⟩
/-- Containment of `draw_line` relative to its returned rectangle: when a
pixel changed, the returned intersection is a rectangle containing it. -/
theorem draw_line_contains (pic : LongPicture) (x0 y0 xe ye : Int)
    (brush : Option LongPicture) (color step : Nat)
    (hlen : pic.data.length = pic.width * pic.height) :
    (draw_line pic (x0, y0) (xe, ye) brush color step).2.width = pic.width ∧
    (draw_line pic (x0, y0) (xe, ye) brush color step).2.height = pic.height ∧
    (draw_line pic (x0, y0) (xe, ye) brush color step).2.data.length =
      pic.data.length ∧
    ∀ o, o < pic.data.length →
      (draw_line pic (x0, y0) (xe, ye) brush color step).2.data.getD o 0 ≠
        pic.data.getD o 0 →
      ∃ r, (draw_line pic (x0, y0) (xe, ye) brush color step).1 = some r ∧
        r.containsPt ((o % pic.width : Nat) : Int) ((o / pic.width : Nat) : Int) := by
  rcases brush with _ | br
  case none =>
    have hdl := draw_line_writes pic x0 y0 xe ye none color step
    refine ⟨hdl.1, hdl.2.1, hdl.2.2.1, fun o ho hchg => ?_⟩
    obtain ⟨m1, m2, m3, m4⟩ := hdl.2.2.2 o ho hchg
    have hmem1 := mem_pic_rect pic o hlen ho
    have hfst : (draw_line pic (x0, y0) (xe, ye) none color step).1 =
        Rectangle.intersect
          ⟨min x0 xe, min y0 ye,
           (((xe - x0).natAbs : Nat) : Int) + (1 : Int),
           -(-(((ye - y0).natAbs : Nat) : Int)) + (1 : Int)⟩
          (draw_line pic (x0, y0) (xe, ye) none color step).2.rect := rfl
    have hrect2 : (draw_line pic (x0, y0) (xe, ye) none color step).2.rect =
        pic.rect := by
      unfold LongPicture.rect
      rw [hdl.1, hdl.2.1]
    rw [hfst, hrect2]
    refine intersect_mem _ pic.rect _ _ ?_ hmem1
    unfold Rectangle.containsPt
    dsimp only
    dsimp only at m2 m4
    refine ⟨by omega, by omega, by omega, by omega⟩

  case some =>
    have hdl := draw_line_writes pic x0 y0 xe ye (some br) color step
    refine ⟨hdl.1, hdl.2.1, hdl.2.2.1, fun o ho hchg => ?_⟩
    obtain ⟨m1, m2, m3, m4⟩ := hdl.2.2.2 o ho hchg
    have hmem1 := mem_pic_rect pic o hlen ho
    have hfst : (draw_line pic (x0, y0) (xe, ye) (some br) color step).1 =
        Rectangle.intersect
          ⟨min x0 xe, min y0 ye,
           (((xe - x0).natAbs : Nat) : Int) + ((br.width : Nat) : Int),
           -(-(((ye - y0).natAbs : Nat) : Int)) + ((br.height : Nat) : Int)⟩
          (draw_line pic (x0, y0) (xe, ye) (some br) color step).2.rect := rfl
    have hrect2 : (draw_line pic (x0, y0) (xe, ye) (some br) color step).2.rect =
        pic.rect := by
      unfold LongPicture.rect
      rw [hdl.1, hdl.2.1]
    rw [hfst, hrect2]
    refine intersect_mem _ pic.rect _ _ ?_ hmem1
    unfold Rectangle.containsPt
    dsimp only
    dsimp only at m2 m4
    refine ⟨by omega, by omega, by omega, by omega⟩

/-- C4, amended: every drawing operation preserves the buffer dimensions
and data length and writes only in-bounds pixels; for `draw_line`,
`draw_ellipse`, `draw_fill` and `blit` every changed pixel is contained
in the returned rectangle (for `blit` that rectangle also lies inside the
buffer whenever anything was drawn, and a falsy returned rectangle means
nothing was modified); `draw_rectangle` only preserves bounds — its
returned rectangle does NOT contain all changed pixels (see the
counterexample), and when nothing is drawn an operation may return a
falsy rectangle of negative size rather than none. -/
theorem c4_draw_ops_contain :
    (∀ (pic : LongPicture) (x0 y0 xe ye : Int) (brush : Option LongPicture)
      (color step : Nat), pic.data.length = pic.width * pic.height →
      (draw_line pic (x0, y0) (xe, ye) brush color step).2.width = pic.width ∧
      (draw_line pic (x0, y0) (xe, ye) brush color step).2.height = pic.height ∧
      (draw_line pic (x0, y0) (xe, ye) brush color step).2.data.length =
        pic.data.length ∧
      ∀ o, o < pic.data.length →
        (draw_line pic (x0, y0) (xe, ye) brush color step).2.data.getD o 0 ≠
          pic.data.getD o 0 →
        ∃ r, (draw_line pic (x0, y0) (xe, ye) brush color step).1 = some r ∧
          r.containsPt ((o % pic.width : Nat) : Int) ((o / pic.width : Nat) : Int)) ∧
    (∀ (pic : LongPicture) (x0 y0 w0 h0 : Int) (brush : Option LongPicture)
      (color : Nat) (fill : Bool) (step : Nat),
      (draw_rectangle pic (x0, y0) (w0, h0) brush color fill step).2.width =
        pic.width ∧
      (draw_rectangle pic (x0, y0) (w0, h0) brush color fill step).2.height =
        pic.height ∧
      (draw_rectangle pic (x0, y0) (w0, h0) brush color fill step).2.data.length =
        pic.data.length) ∧
    (∀ (pic : LongPicture) (x0 y0 a b : Int) (brush : Option LongPicture)
      (color : Nat) (fill : Bool), pic.data.length = pic.width * pic.height →
      (draw_ellipse pic (x0, y0) (a, b) brush color fill).2.width = pic.width ∧
      (draw_ellipse pic (x0, y0) (a, b) brush color fill).2.height = pic.height ∧
      (draw_ellipse pic (x0, y0) (a, b) brush color fill).2.data.length =
        pic.data.length ∧
      ∀ o, o < pic.data.length →
        (draw_ellipse pic (x0, y0) (a, b) brush color fill).2.data.getD o 0 ≠
          pic.data.getD o 0 →
        ∃ r, (draw_ellipse pic (x0, y0) (a, b) brush color fill).1 = some r ∧
          r.containsPt ((o % pic.width : Nat) : Int) ((o / pic.width : Nat) : Int)) ∧
    (∀ (pic : LongPicture) (sx sy : Int) (color : Nat) (res : Option Rectangle)
      (pic2 : LongPicture), pic.data.length = pic.width * pic.height →
      draw_fill pic (sx, sy) color = some (res, pic2) →
      pic2.width = pic.width ∧ pic2.height = pic.height ∧
      pic2.data.length = pic.data.length ∧
      ∀ o, o < pic.data.length → pic2.data.getD o 0 ≠ pic.data.getD o 0 →
        ∃ r, res = some r ∧
          r.containsPt ((o % pic.width : Nat) : Int) ((o / pic.width : Nat) : Int)) ∧
    (∀ (pic brush : LongPicture) (x y : Int),
      pic.data.length = pic.width * pic.height →
      (∀ o, o < pic.data.length →
        (blit pic brush x y).2.data.getD o 0 ≠ pic.data.getD o 0 →
        ((blit pic brush x y).1.x ≤ ((o % pic.width : Nat) : Int) ∧
         ((o % pic.width : Nat) : Int) <
           (blit pic brush x y).1.x + (blit pic brush x y).1.width ∧
         (blit pic brush x y).1.y ≤ ((o / pic.width : Nat) : Int) ∧
         ((o / pic.width : Nat) : Int) <
           (blit pic brush x y).1.y + (blit pic brush x y).1.height) ∧
        (0 ≤ (blit pic brush x y).1.x ∧
         (blit pic brush x y).1.x + (blit pic brush x y).1.width ≤ (pic.width : Int) ∧
         0 ≤ (blit pic brush x y).1.y ∧
         (blit pic brush x y).1.y + (blit pic brush x y).1.height ≤ (pic.height : Int))) ∧
      ((blit pic brush x y).1.truthy = false →
        (blit pic brush x y).2.data = pic.data)) :=
  ⟨fun pic x0 y0 xe ye brush color step hlen =>
    draw_line_contains pic x0 y0 xe ye brush color step hlen,
   fun pic x0 y0 w0 h0 brush color fill step =>
    draw_rectangle_dims pic x0 y0 w0 h0 brush color fill step,
   fun pic x0 y0 a b brush color fill hlen =>
    draw_ellipse_writes pic x0 y0 a b brush color fill hlen,
   fun pic sx sy color res pic2 hlen hrun =>
    draw_fill_writes pic sx sy color hlen res pic2 hrun,
   fun pic brush x y hlen => blit_contains pic brush x y hlen⟩

/-- Witness for the amended C4 at concrete inputs: drawing the diagonal
line on a 2×2 zero buffer changes pixel (0,0), which the returned
rectangle contains; and the falsy rectangle of the transparent-brush
blit implies its buffer is untouched. -/
theorem c4_witness :
    (∃ r, (draw_line ⟨2, 2, [0, 0, 0, 0]⟩ (0, 0) (1, 1) none 1 1).1 = some r ∧
      r.containsPt ((0 % (⟨2, 2, [0, 0, 0, 0]⟩ : LongPicture).width : Nat) : Int)
        ((0 / (⟨2, 2, [0, 0, 0, 0]⟩ : LongPicture).width : Nat) : Int)) ∧
    ((blit (LongPicture.mk 4 4 (List.replicate 16 0))
        (LongPicture.mk 2 2 [0, 0, 0, 0]) 0 0).1.truthy = false →
      (blit (LongPicture.mk 4 4 (List.replicate 16 0))
        (LongPicture.mk 2 2 [0, 0, 0, 0]) 0 0).2.data =
        (LongPicture.mk 4 4 (List.replicate 16 0)).data) :=
  ⟨(c4_draw_ops_contain.1 ⟨2, 2, [0, 0, 0, 0]⟩ 0 0 1 1 none 1 1
      (by decide)).2.2.2 0 (by decide) (by decide),
   (c4_draw_ops_contain.2.2.2.2 (LongPicture.mk 4 4 (List.replicate 16 0))
      (LongPicture.mk 2 2 [0, 0, 0, 0]) 0 0 (by decide)).2⟩
end Oldpaint
